import Mathlib

/-!
# quantum-doc-verify: the envelope codec, the fingerprint functions, the registry, the
retrieval pipeline, the proof stand-in and the load test statistics

A shallow embedding of `pkg/storage/ipfs.go`, `pkg/crypto/dilithium_signer.go`,
`pkg/zkp/utils.go`, `pkg/zkp/simple_prover.go`, `cmd/server/main.go`,
`pkg/blockchain/client.go`, `cmd/integrate/main.go` and `cmd/loadtest/main.go`.

* Byte slices are lists of bytes, a byte is a `Fin 256`.
* `uint32(len(x))` is `len x % 2 ^ 32`.
* A Go call ends in a value, in an `error` value, or in a panic; the three are kept apart.
* SHA3-256, SHA-256 and AES-256-GCM come from libraries outside the repository; they are
  the fields of `Primitives`, and the facts about AES-GCM that the proofs use are stated
  in `Primitives.Lawful`.
* `encoding/json`, the Dilithium scheme, the CID encoder and `crypto.HexToECDSA` are
  parameters too (`JsonCodec`, `ProofCodec`, `SignScheme`, `cidString`, `hexToECDSA`), each
  with the law the proofs use and a small lawful instance.
* A `time.Duration` is an integer; `int64` arithmetic wraps around.
* What the operating system supplies (random bytes, a temporary directory, the ledger
  node's answers, the files) is an explicit environment argument.
-/

namespace QuantumDocVerify

set_option autoImplicit false

/-! ## Definitions -/

/-- A byte. -/
abbrev Byte := Fin 256

/-- A byte slice. -/
abbrev Bytes := List Byte

/-- A `[32]byte` array, the result type of `sha3.Sum256` and `sha256.Sum256`. -/
abbrev Digest := { l : Bytes // l.length = 32 }

/-- How a Go call can fail: with an `error` value, or with a panic. -/
inductive Fault (ε : Type) where
  | error (e : ε)
  | panic (msg : String)
  deriving DecidableEq, Repr

/-- The result of a Go call returning `(value, error)`. -/
abbrev Outcome (ε α : Type) := Except (Fault ε) α

/-- The errors of `io.ReadFull`: `io.EOF` when nothing could be read, and
`io.ErrUnexpectedEOF` when the source ended after some but not all bytes. -/
inductive ReadError where
  | EOF
  | ErrUnexpectedEOF
  deriving DecidableEq, Repr

/-- The text of a read error. -/
def ReadError.message : ReadError → String
  | .EOF => "EOF"
  | .ErrUnexpectedEOF => "unexpected EOF"

/-- Go's conversion `uint32(n)` of an `int`. -/
def uint32 (n : Nat) : Nat := n % 2 ^ 32

/-- The four bytes `binary.Write(buf, binary.LittleEndian, v)` appends for a `uint32`. -/
def putUint32 (v : Nat) : Bytes :=
  [⟨v % 256, Nat.mod_lt _ (by decide)⟩,
   ⟨v / 2 ^ 8 % 256, Nat.mod_lt _ (by decide)⟩,
   ⟨v / 2 ^ 16 % 256, Nat.mod_lt _ (by decide)⟩,
   ⟨v / 2 ^ 24 % 256, Nat.mod_lt _ (by decide)⟩]

/-- The `uint32` that `binary.LittleEndian` decodes from four bytes. -/
def getUint32 : Bytes → Nat
  | [b0, b1, b2, b3] => b0.val + b1.val * 2 ^ 8 + b2.val * 2 ^ 16 + b3.val * 2 ^ 24
  | _ => 0

/-- The call `io.ReadFull(r, buf)` with `len(buf) = n` on a reader holding `r`: the bytes
read and the rest of the reader. A read of no bytes succeeds on any reader. -/
def ioReadFull (r : Bytes) (n : Nat) : Except ReadError (Bytes × Bytes) :=
  if n ≤ r.length then .ok (r.take n, r.drop n)
  else if r.length = 0 then .error .EOF
  else .error .ErrUnexpectedEOF

/-- The call `binary.Read(r, binary.LittleEndian, &v)` for a `uint32` `v`. -/
def binaryReadUint32 (r : Bytes) : Except ReadError (Nat × Bytes) :=
  match ioReadFull r 4 with
  | .ok (bs, rest) => .ok (getUint32 bs, rest)
  | .error e => .error e

/-- The cryptographic library functions the repository calls.
`gcmSeal key nonce plaintext` and `gcmOpen key nonce ciphertext` are AES-GCM with no
additional data, as `cipher.NewGCM(aes.NewCipher(key))` provides it for a key and a nonce
of the right length. -/
structure Primitives where
  sha3_256 : Bytes → Digest
  sha256 : Bytes → Digest
  gcmSeal : Bytes → Bytes → Bytes → Bytes
  gcmOpen : Bytes → Bytes → Bytes → Option Bytes

/-- The facts about AES-256-GCM the proofs rely on, for a 32-byte key and a 12-byte
nonce: sealing appends a 16-byte tag, and opening a sealed text gives the plaintext back. -/
def Primitives.Lawful (P : Primitives) : Prop :=
  (∀ key nonce pt : Bytes, key.length = 32 → nonce.length = 12 →
      (P.gcmSeal key nonce pt).length = pt.length + 16) ∧
  (∀ key nonce pt : Bytes, key.length = 32 → nonce.length = 12 →
      P.gcmOpen key nonce (P.gcmSeal key nonce pt) = some pt)

/-- The tag size of GCM, in bytes. -/
def gcmTagSize : Nat := 16

/-- The nonce size of GCM, in bytes. -/
def gcmNonceSize : Nat := 12

/-- The longest plaintext GCM seals: `((1 << 32) - 2) * BlockSize` bytes. -/
def gcmMaxPlaintext : Nat := (2 ^ 32 - 2) * 16

/-- The call `aes.NewCipher(key)`: an error unless the key has 16, 24 or 32 bytes. -/
def aesNewCipher (key : Bytes) : Except String Unit :=
  if key.length = 16 ∨ key.length = 24 ∨ key.length = 32 then .ok ()
  else .error ("crypto/aes: invalid key size " ++ toString key.length)

/-- The call `gcm.Seal(nil, nonce, plaintext, nil)`: it panics on a nonce of the wrong
length and on a plaintext that is too long. -/
def gcmSealCall {ε : Type} (P : Primitives) (key nonce plaintext : Bytes) : Outcome ε Bytes :=
  if nonce.length ≠ gcmNonceSize then
    .error (.panic "crypto/cipher: incorrect nonce length given to GCM")
  else if gcmMaxPlaintext < plaintext.length then
    .error (.panic "crypto/cipher: message too large for GCM")
  else .ok (P.gcmSeal key nonce plaintext)

/-- The call `gcm.Open(nil, nonce, ciphertext, nil)`: it panics on a nonce of the wrong
length; it returns its one error, `cipher: message authentication failed`, for a
ciphertext shorter than the tag, for one that is too long, and when the tag does not
match. The inner `none` is that error. -/
def gcmOpenCall {ε : Type} (P : Primitives) (key nonce ciphertext : Bytes) :
    Outcome ε (Option Bytes) :=
  if nonce.length ≠ gcmNonceSize then
    .error (.panic "crypto/cipher: incorrect nonce length given to GCM")
  else if ciphertext.length < gcmTagSize then .ok none
  else if gcmMaxPlaintext + gcmTagSize < ciphertext.length then .ok none
  else .ok (P.gcmOpen key nonce ciphertext)

namespace storage

/-- The `error` values of `EncryptDocument`. -/
inductive EncryptError where
  | generateKey (cause : ReadError)
  | generateIV (cause : ReadError)
  | createCipher (cause : String)
  | createTempDir (cause : String)
  | writeTempFile (cause : String)
  deriving DecidableEq, Repr

/-- The text of an encryption error. -/
def EncryptError.message : EncryptError → String
  | .generateKey c => "failed to generate AES key: " ++ c.message
  | .generateIV c => "failed to generate IV: " ++ c.message
  | .createCipher c => "failed to create AES cipher: " ++ c
  | .createTempDir c => "failed to create temp directory: " ++ c
  | .writeTempFile c => "failed to write temp file: " ++ c

/-- The `error` values of `DecryptDocument`. -/
inductive DecryptError where
  | readKeyLength (cause : ReadError)
  | invalidKeyLength (n : Nat)
  | readKey (cause : ReadError)
  | readIVLength (cause : ReadError)
  | readIV (cause : ReadError)
  | readCiphertextLength (cause : ReadError)
  | readCiphertext (cause : ReadError)
  | readSignatureLength (cause : ReadError)
  | readSignature (cause : ReadError)
  | signatureVerificationFailed
  | createCipher (cause : String)
  | decryptFailed
  deriving DecidableEq, Repr

/-- The text of a decryption error. -/
def DecryptError.message : DecryptError → String
  | .readKeyLength c => "failed to read key length: " ++ c.message
  | .invalidKeyLength n => "invalid AES key length: " ++ toString n
  | .readKey c => "failed to read AES key: " ++ c.message
  | .readIVLength c => "failed to read IV length: " ++ c.message
  | .readIV c => "failed to read IV: " ++ c.message
  | .readCiphertextLength c => "failed to read ciphertext length: " ++ c.message
  | .readCiphertext c => "failed to read ciphertext: " ++ c.message
  | .readSignatureLength c => "failed to read signature length: " ++ c.message
  | .readSignature c => "failed to read signature: " ++ c.message
  | .signatureVerificationFailed => "signature verification failed"
  | .createCipher c => "failed to create AES cipher: " ++ c
  | .decryptFailed => "failed to decrypt document: cipher: message authentication failed"

/-- The parse errors of `DecryptDocument`: the `failed to read ...` errors, one for each
length prefix and each field body. -/
def DecryptError.isParseError : DecryptError → Bool
  | .readKeyLength _ | .readKey _ | .readIVLength _ | .readIV _
  | .readCiphertextLength _ | .readCiphertext _
  | .readSignatureLength _ | .readSignature _ => true
  | _ => false

/-- What `EncryptDocument` takes from the operating system: the bytes `rand.Reader`
supplies, and the errors (if any) of `ioutil.TempDir` and `ioutil.WriteFile`. -/
structure EncryptEnv where
  rand : Bytes
  tempDir : Option String
  writeFile : Option String

/-- Lift a read result into an outcome, wrapping the error. -/
def liftRead {ε α : Type} (wrap : ReadError → ε) : Except ReadError α → Outcome ε α
  | .ok a => .ok a
  | .error e => .error (.error (wrap e))

/-- The envelope `EncryptDocument` assembles in its buffer from the four fields. -/
def envelope (aesKey iv ciphertext signature : Bytes) : Bytes :=
  putUint32 (uint32 aesKey.length) ++ aesKey ++
  (putUint32 (uint32 iv.length) ++ iv) ++
  (putUint32 (uint32 ciphertext.length) ++ ciphertext) ++
  (putUint32 (uint32 signature.length) ++ signature)

/-- `EncryptDocument(content, dilithiumPubKey)`. -/
def EncryptDocument (P : Primitives) (env : EncryptEnv) (content dilithiumPubKey : Bytes) :
    Outcome EncryptError Bytes := do
  let _ := dilithiumPubKey
  -- 1. a random AES-256 key
  let (aesKey, rand1) ← liftRead EncryptError.generateKey (ioReadFull env.rand 32)
  -- 2. a random IV
  let (iv, _) ← liftRead EncryptError.generateIV (ioReadFull rand1 12)
  -- 3. and 4. the AES cipher block in GCM mode
  match aesNewCipher aesKey with
  | .error c => .error (.error (.createCipher c))
  | .ok () =>
    -- 5. encrypt the content
    let ciphertext ← gcmSealCall P aesKey iv content
    -- 6. the temporary file holding the data to sign
    match env.tempDir with
    | some c => .error (.error (.createTempDir c))
    | none =>
      let dataToSign := aesKey ++ ciphertext
      match env.writeFile with
      | some c => .error (.error (.writeTempFile c))
      | none =>
        -- 7. the placeholder signature
        let signature := (P.sha3_256 dataToSign).val
        -- 8. the final package
        .ok (envelope aesKey iv ciphertext signature)

/-- `DecryptDocument(encryptedData, dilithiumPrivKey)`. -/
def DecryptDocument (P : Primitives) (encryptedData dilithiumPrivKey : Bytes) :
    Outcome DecryptError Bytes := do
  let _ := dilithiumPrivKey
  let buf := encryptedData
  -- 1. the AES key
  let (keyLength, buf) ← liftRead DecryptError.readKeyLength (binaryReadUint32 buf)
  if keyLength ≠ 32 then .error (.error (.invalidKeyLength keyLength)) else
  let (aesKey, buf) ← liftRead DecryptError.readKey (ioReadFull buf keyLength)
  -- 2. the IV
  let (ivLength, buf) ← liftRead DecryptError.readIVLength (binaryReadUint32 buf)
  let (iv, buf) ← liftRead DecryptError.readIV (ioReadFull buf ivLength)
  -- 3. the ciphertext
  let (ciphertextLength, buf) ← liftRead DecryptError.readCiphertextLength (binaryReadUint32 buf)
  let (ciphertext, buf) ← liftRead DecryptError.readCiphertext (ioReadFull buf ciphertextLength)
  -- 4. the signature
  let (signatureLength, buf) ← liftRead DecryptError.readSignatureLength (binaryReadUint32 buf)
  let (signature, _) ← liftRead DecryptError.readSignature (ioReadFull buf signatureLength)
  -- 5. the placeholder signature check
  let dataToVerify := aesKey ++ ciphertext
  let calculatedSignature := (P.sha3_256 dataToVerify).val
  if signature ≠ calculatedSignature then .error (.error .signatureVerificationFailed) else
  -- 6. and 7. the AES cipher block in GCM mode
  match aesNewCipher aesKey with
  | .error c => .error (.error (.createCipher c))
  | .ok () =>
    -- 8. decrypt the content
    match ← gcmOpenCall P aesKey iv ciphertext with
    | none => .error (.error .decryptFailed)
    | some plaintext => .ok plaintext

/-- Reading one length-prefixed field: the length prefix, then the body. -/
def readField (eLen eBody : ReadError → DecryptError) (buf : Bytes) :
    Outcome DecryptError (Bytes × Bytes) := do
  let (n, buf) ← liftRead eLen (binaryReadUint32 buf)
  liftRead eBody (ioReadFull buf n)

/-- Steps 1 to 4 of `DecryptDocument`: the four fields, in order. -/
def readFields (buf : Bytes) : Outcome DecryptError (Bytes × Bytes × Bytes × Bytes) := do
  let (keyLength, buf) ← liftRead DecryptError.readKeyLength (binaryReadUint32 buf)
  if keyLength ≠ 32 then .error (.error (.invalidKeyLength keyLength)) else
  let (aesKey, buf) ← liftRead DecryptError.readKey (ioReadFull buf keyLength)
  let (iv, buf) ← readField DecryptError.readIVLength DecryptError.readIV buf
  let (ciphertext, buf) ←
    readField DecryptError.readCiphertextLength DecryptError.readCiphertext buf
  let (signature, _) ←
    readField DecryptError.readSignatureLength DecryptError.readSignature buf
  .ok (aesKey, iv, ciphertext, signature)

/-- Steps 5 to 8 of `DecryptDocument`: the tag comparison, then AES-GCM. -/
def checkAndOpen (P : Primitives) (aesKey iv ciphertext signature : Bytes) :
    Outcome DecryptError Bytes :=
  if signature ≠ (P.sha3_256 (aesKey ++ ciphertext)).val then
    .error (.error .signatureVerificationFailed)
  else
    match aesNewCipher aesKey with
    | .error c => .error (.error (.createCipher c))
    | .ok () =>
      match gcmOpenCall P aesKey iv ciphertext with
      | .error f => .error f
      | .ok none => .error (.error .decryptFailed)
      | .ok (some plaintext) => .ok plaintext

/-- The key `EncryptDocument` draws from the random source. -/
def EncryptEnv.aesKey (env : EncryptEnv) : Bytes := env.rand.take 32

/-- The IV `EncryptDocument` draws from the random source. -/
def EncryptEnv.iv (env : EncryptEnv) : Bytes := (env.rand.drop 32).take 12

/-- The ciphertext `EncryptDocument` computes. -/
def EncryptEnv.ciphertext (P : Primitives) (env : EncryptEnv) (content : Bytes) : Bytes :=
  P.gcmSeal env.aesKey env.iv content

/-- The placeholder signature `EncryptDocument` computes. -/
def EncryptEnv.signature (P : Primitives) (env : EncryptEnv) (content : Bytes) : Bytes :=
  (P.sha3_256 (env.aesKey ++ env.ciphertext P content)).val

/-- An environment in which `EncryptDocument` meets no failure of the operating system:
the random source supplies the 44 bytes asked for, and the temporary file is written. -/
def EncryptEnv.Succeeds (env : EncryptEnv) : Prop :=
  44 ≤ env.rand.length ∧ env.tempDir = none ∧ env.writeFile = none

/-- The digest of the sample primitives: the last 32 bytes, last byte first, zero padded. -/
def sampleDigest (x : Bytes) : Digest :=
  ⟨(x.reverse ++ List.replicate 32 0).take 32, by simp⟩

/-- The sealing of the sample primitives: the plaintext followed by sixteen zero bytes. -/
def sampleSeal (_key _nonce plaintext : Bytes) : Bytes := plaintext ++ List.replicate 16 0

/-- The opening of the sample primitives: it accepts the texts `sampleSeal` produces. -/
def sampleOpen (_key _nonce ciphertext : Bytes) : Option Bytes :=
  if 16 ≤ ciphertext.length ∧ ciphertext.drop (ciphertext.length - 16) = List.replicate 16 0
  then some (ciphertext.take (ciphertext.length - 16)) else none

/-- The sample primitives. -/
def samplePrimitives : Primitives where
  sha3_256 := sampleDigest
  sha256 := sampleDigest
  gcmSeal := sampleSeal
  gcmOpen := sampleOpen

/-- An environment without failures whose random source supplies zero bytes. -/
def zeroEnv : EncryptEnv := { rand := List.replicate 44 0, tempDir := none, writeFile := none }

/-- A document of `2 ^ 32 - 16` zero bytes: its ciphertext is `2 ^ 32` bytes long. -/
def doc4GiB : Bytes := List.replicate (2 ^ 32 - 16) 0

/-- For the document `d`, under every lawful choice of the library primitives (there is
one), `EncryptDocument` in the environment `env` returns an envelope on which
`DecryptDocument` ends in an `error` value, whatever key argument it is given. -/
def RoundTripFails (env : EncryptEnv) (d : Bytes) : Prop :=
  (∃ P : Primitives, P.Lawful) ∧
  ∀ P : Primitives, P.Lawful →
    ∃ e, EncryptDocument P env d [] = .ok e ∧ ∀ k, ∃ f, DecryptDocument P e k = .error (.error f)

/-- The offsets of the ciphertext field body in the envelope of a document `d`. -/
abbrev inCiphertextField (d : Bytes) (i : Nat) : Prop :=
  56 ≤ i ∧ i < 56 + (d.length + 16)

/-- The offsets of the tag (signature) field body in the envelope of a document `d`. -/
abbrev inSignatureField (d : Bytes) (i : Nat) : Prop :=
  60 + (d.length + 16) ≤ i ∧ i < 92 + (d.length + 16)

/-- The envelope `e` with the body of its nonce field, the bytes at offsets 40 to 51,
replaced by `iv2`. -/
def withNonce (e iv2 : Bytes) : Bytes := e.take 40 ++ iv2 ++ e.drop 52

/-- For the document `d`, under every lawful choice of the library primitives (there is
one), replacing the nonce of the envelope `EncryptDocument` returns by `iv2` gives another
envelope on which `DecryptDocument` does not return the error `signature verification
failed`. -/
def NonceChangePassesTagCheck (env : EncryptEnv) (d iv2 : Bytes) : Prop :=
  (∃ P : Primitives, P.Lawful) ∧
  ∀ P : Primitives, P.Lawful →
    ∃ e, EncryptDocument P env d [] = .ok e ∧ withNonce e iv2 ≠ e ∧
      ∀ k, DecryptDocument P (withNonce e iv2) k ≠ .error (.error .signatureVerificationFailed)

/-- For the document `d`, under every lawful choice of the library primitives (there is
one), the envelope `EncryptDocument` returns has a proper prefix on which `DecryptDocument`
fails with an error that is not a parse error. -/
def TruncationMisreported (env : EncryptEnv) (d : Bytes) : Prop :=
  (∃ P : Primitives, P.Lawful) ∧
  ∀ P : Primitives, P.Lawful →
    ∃ e p f, EncryptDocument P env d [] = .ok e ∧ p <+: e ∧ p ≠ e ∧
      DecryptDocument P p [] = .error (.error f) ∧ f.isParseError = false

end storage

/-- The table of `encoding/hex`: `"0123456789abcdef"`. -/
def hextable : List Char := "0123456789abcdef".data

/-- The two characters `hex.Encode` writes for each byte `v`: `hextable[v>>4]` and
`hextable[v&0x0f]`. -/
def hexEncode : Bytes → List Char
  | [] => []
  | v :: rest =>
    hextable.getD (v.val >>> 4) '0' :: hextable.getD (v.val &&& 0x0f) '0' :: hexEncode rest

/-- `hex.EncodeToString(src)`. -/
def hexEncodeToString (src : Bytes) : String := String.mk (hexEncode src)

/-- The errors of `hex.DecodeString`. -/
inductive HexError where
  | invalidByte (c : Char)
  | errLength
  deriving DecidableEq, Repr

/-- The value of one hexadecimal character, `fromHexChar` of `encoding/hex`. -/
def fromHexChar (c : Char) : Option Nat :=
  if '0' ≤ c ∧ c ≤ '9' then some (c.toNat - '0'.toNat)
  else if 'a' ≤ c ∧ c ≤ 'f' then some (c.toNat - 'a'.toNat + 10)
  else if 'A' ≤ c ∧ c ≤ 'F' then some (c.toNat - 'A'.toNat + 10)
  else none

/-- The loop of `hex.Decode`: two characters a byte, an `InvalidByteError` at the first
character that is no hexadecimal digit, `ErrLength` for an odd number of characters. The
code works on the bytes of the string: the outcome and the decoded bytes are the same, and
on a character outside ASCII the payload here is the character where the code reports the
first byte of its UTF-8 encoding. -/
def hexDecode : List Char → Except HexError Bytes
  | [] => .ok []
  | [c] =>
    match fromHexChar c with
    | none => .error (.invalidByte c)
    | some _ => .error .errLength
  | p :: q :: rest =>
    match fromHexChar p with
    | none => .error (.invalidByte p)
    | some a =>
      match fromHexChar q with
      | none => .error (.invalidByte q)
      | some b =>
        match hexDecode rest with
        | .error e => .error e
        | .ok bs => .ok (⟨(a <<< 4 ||| b) % 256, Nat.mod_lt _ (by decide)⟩ :: bs)

/-- `hex.DecodeString(s)`. -/
def hexDecodeString (s : String) : Except HexError Bytes := hexDecode s.data

/-- The bytes `[]byte(s)` of a string: its UTF-8 encoding. -/
def stringBytes (s : String) : Bytes :=
  s.toUTF8.data.toList.map fun b => ⟨b.toNat % 256, Nat.mod_lt _ (by decide)⟩

/-- The files `os.ReadFile` can read: a path gives the content, or the text of the error. -/
abbrev FileSystem := String → Except String Bytes

namespace storage

/-- `CalculateDocumentHash(content)`. -/
def CalculateDocumentHash (P : Primitives) (content : Bytes) : String :=
  let hash := P.sha3_256 content
  hexEncodeToString hash.val

end storage

namespace crypto

/-- `DilithiumSigner.GetDocumentHash(docPath)`; the receiver holds nothing the method reads. -/
def GetDocumentHash (P : Primitives) (fs : FileSystem) (docPath : String) :
    Except String String :=
  match fs docPath with
  | .error err => .error ("failed to read document: " ++ err)
  | .ok content =>
    let hash := P.sha256 content
    .ok (hexEncodeToString hash.val)

end crypto

namespace zkp

/-- `HashDocument(document)`. -/
def HashDocument (P : Primitives) (document : Bytes) : Bytes :=
  let hash := P.sha256 document
  hash.val

end zkp

namespace server

/-- `simulateHashDocument(filePath)` of `cmd/server/main.go`. -/
def simulateHashDocument (P : Primitives) (fs : FileSystem) (filePath : String) : String :=
  match fs filePath with
  | .error _ => "0x" ++ hexEncodeToString (stringBytes filePath)
  | .ok content =>
    let hash := P.sha3_256 content
    "0x" ++ hexEncodeToString hash.val

end server

namespace blockchain

/-- The global `documentRegistry`, a `map[string]string` from document hash to CID: a list
of entries with at most one entry a key. -/
abbrev Registry := List (String × String)

/-- The lookup `documentRegistry[k]` with its `exists` flag. -/
def Registry.get : Registry → String → Option String
  | [], _ => none
  | (k1, v1) :: m, k => if k1 = k then some v1 else Registry.get m k

/-- The assignment `documentRegistry[k] = v`: the entry of `k` is replaced, or added. -/
def Registry.set : Registry → String → String → Registry
  | [], k, v => [(k, v)]
  | (k1, v1) :: m, k, v => if k1 = k then (k, v) :: m else (k1, v1) :: Registry.set m k v

/-- An `*ecdsa.PrivateKey`; `RegisterDocument` only hands it to the ledger calls. -/
structure PrivateKey where
  D : Nat
  deriving DecidableEq, Repr

/-- What `RegisterDocument` gets back from outside during one call: the error (if any) of
`saveRegistry`, of `getTransactionAuth`, of `client.ChainID`, of `types.SignTx` and of
`client.SendTransaction`, and the hex text of the signed transaction's hash. -/
structure RegisterEnv where
  saveRegistry : Option String
  getTransactionAuth : Option String
  chainID : Option String
  signTx : Option String
  sendTransaction : Option String
  txHash : String
  deriving DecidableEq, Repr

/-- `BlockchainClient.RegisterDocument(privateKey, documentHash, ipfsCID,
dilithiumSignature)`: the registry after the call, and the returned `(string, error)`. -/
def RegisterDocument (env : RegisterEnv) (documentRegistry : Registry)
    (privateKey : PrivateKey) (documentHash ipfsCID : String) (dilithiumSignature : Bytes) :
    Registry × Except String String :=
  let _ := privateKey
  let _ := dilithiumSignature
  -- store the CID in the registry
  let documentRegistry := documentRegistry.set documentHash ipfsCID
  (documentRegistry,
    -- save the updated registry
    match env.saveRegistry with
    | some err => .error ("failed to save document registry: " ++ err)
    | none =>
      match env.getTransactionAuth with
      | some err => .error ("failed to create transaction auth: " ++ err)
      | none =>
        match env.chainID with
        | some err => .error ("failed to get chain ID: " ++ err)
        | none =>
          match env.signTx with
          | some err => .error ("failed to sign transaction: " ++ err)
          | none =>
            match env.sendTransaction with
            | some err => .error ("failed to send transaction: " ++ err)
            | none => .ok env.txHash)

/-- One call of `RegisterDocument`: its arguments and what it gets back from outside. -/
structure Call where
  env : RegisterEnv
  privateKey : PrivateKey
  documentHash : String
  ipfsCID : String
  dilithiumSignature : Bytes

/-- The registry after a sequence of `RegisterDocument` calls, made in order. -/
def registerAll (documentRegistry : Registry) (calls : List Call) : Registry :=
  calls.foldl
    (fun m c => (RegisterDocument c.env m c.privateKey c.documentHash c.ipfsCID
      c.dilithiumSignature).1)
    documentRegistry

/-- The locator of the first call of a sequence made with the fingerprint `f`. -/
def firstLocator (calls : List Call) (f : String) : Option String :=
  (calls.find? fun c => c.documentHash = f).map Call.ipfsCID

/-- The locator of the last call of a sequence made with the fingerprint `f`. -/
def lastLocator (calls : List Call) (f : String) : Option String :=
  (calls.reverse.find? fun c => c.documentHash = f).map Call.ipfsCID

/-- A call in which saving the snapshot and every ledger step succeed. -/
def okEnv : RegisterEnv :=
  { saveRegistry := none, getTransactionAuth := none, chainID := none, signTx := none,
    sendTransaction := none, txHash := "0xabc" }

end blockchain

namespace blockchain

/-- A registry that is a map: no two entries have the same key. -/
def Registry.WellFormed (m : Registry) : Prop := (m.map Prod.fst).Nodup

/-- The functions of `encoding/json` the registry is written and read with, for a
`map[string]string`: `marshalIndent m` is `json.MarshalIndent(m, "", "  ")`, and
`unmarshal data m` is `json.Unmarshal(data, &m)`, the map after the call and the error, if
any. -/
structure JsonCodec where
  marshalIndent : Registry → Except String Bytes
  unmarshal : Bytes → Registry → Registry × Option String

/-- The fact about `encoding/json` the proofs rely on: every map of (valid UTF-8) strings
is marshalled without error, and unmarshalling the result into a map leaves in it the
marshalled entries, over the entries it held before. -/
def JsonCodec.Lawful (J : JsonCodec) : Prop :=
  ∀ m : Registry, m.WellFormed →
    ∃ data, J.marshalIndent m = .ok data ∧
      ∀ m0 : Registry, (J.unmarshal data m0).2 = none ∧
        ∀ k, (J.unmarshal data m0).1.get k =
          match m.get k with
          | some v => some v
          | none => m0.get k

/-- The file `document_registry.json`: its content, or `none` when it does not exist. -/
structure Disk where
  registryFile : Option Bytes

/-- How a call of `os.WriteFile` ends: the file is written, or the call fails with an
error and leaves the file with some content, or absent. -/
inductive WriteOutcome where
  | written
  | failed (err : String) (left : Option Bytes)

/-- `BlockchainClient.saveRegistry()`: the disk after the call, and the returned error. -/
def saveRegistry (J : JsonCodec) (write : WriteOutcome) (documentRegistry : Registry)
    (disk : Disk) : Disk × Except String Unit :=
  -- convert to JSON
  match J.marshalIndent documentRegistry with
  | .error err => (disk, .error ("failed to marshal registry: " ++ err))
  | .ok data =>
    -- write to file
    match write with
    | .written => ({ registryFile := some data }, .ok ())
    | .failed err left => ({ registryFile := left }, .error err)

/-- `BlockchainClient.loadRegistry()`: the in-memory registry after the call, and the
returned error. `readFile` is the error of `os.ReadFile`, if any. -/
def loadRegistry (J : JsonCodec) (readFile : Option String) (disk : Disk)
    (documentRegistry : Registry) : Registry × Except String Unit :=
  match disk.registryFile with
  | none =>
    -- the file does not exist: an empty registry
    ([], .ok ())
  | some data =>
    match readFile with
    | some err => (documentRegistry, .error ("failed to read registry file: " ++ err))
    | none =>
      -- parse JSON
      match J.unmarshal data documentRegistry with
      | (m, none) => (m, .ok ())
      | (m, some err) => (m, .error err)

/-- What `NewBlockchainClient` gets back from outside: the error of `ethclient.Dial` and
the error of `os.ReadFile` on the registry file, if any. -/
structure ClientEnv where
  dial : Option String
  readFile : Option String

/-- `NewBlockchainClient(nodeURL, contractAddress)`: the in-memory registry after the call,
and the returned error. -/
def NewBlockchainClient (J : JsonCodec) (env : ClientEnv) (disk : Disk)
    (documentRegistry : Registry) : Registry × Except String Unit :=
  match env.dial with
  | some err => (documentRegistry, .error ("failed to connect to Ethereum node: " ++ err))
  | none =>
    match loadRegistry J env.readFile disk documentRegistry with
    | (m, .error err) => (m, .error ("failed to load document registry: " ++ err))
    | (m, .ok ()) => (m, .ok ())

/-- `RegisterDocument` with its `saveRegistry` step run on the disk: the disk and the
registry after the call, and the returned `(string, error)`. The error of the save takes
the place of `env.saveRegistry`. -/
def RegisterDocumentOnDisk (J : JsonCodec) (write : WriteOutcome) (env : RegisterEnv)
    (disk : Disk) (documentRegistry : Registry) (privateKey : PrivateKey)
    (documentHash ipfsCID : String) (dilithiumSignature : Bytes) :
    Disk × Registry × Except String String :=
  let saved := saveRegistry J write (documentRegistry.set documentHash ipfsCID) disk
  let saveError : Option String :=
    match saved.2 with
    | .ok () => none
    | .error err => some err
  let r := RegisterDocument { env with saveRegistry := saveError } documentRegistry privateKey
    documentHash ipfsCID dilithiumSignature
  (saved.1, r.1, r.2)

/-- The `error` values of `GetDocumentDetails`. -/
inductive DetailsError where
  | invalidDocumentHash (cause : HexError)
  | createMultihash (cause : String)
  deriving DecidableEq, Repr

/-- The five results of `GetDocumentDetails`: owner, CID, timestamp (Unix seconds), the
boolean, and the error. -/
structure DocumentDetails where
  owner : String
  ipfsCID : String
  timestamp : Int
  found : Bool
  err : Option DetailsError
  deriving DecidableEq, Repr

/-- The results `common.Address{}, "", time.Time{}, false, err` of a failed lookup. -/
def DocumentDetails.failure (err : DetailsError) : DocumentDetails :=
  { owner := "0x0000000000000000000000000000000000000000", ipfsCID := "",
    timestamp := -62135596800, found := false, err := some err }

/-- The results of a lookup that gives the CID `ipfsCID`. -/
def DocumentDetails.success (ipfsCID : String) : DocumentDetails :=
  { owner := "0x1234567890AbcdEF1234567890aBcdef12345678", ipfsCID := ipfsCID,
    timestamp := 1630000000, found := true, err := none }

/-- `multihash.Sum(data, multihash.SHA2_256, -1)`: the code `0x12`, the length `0x20` and
the SHA-256 digest. -/
def multihashSum (P : Primitives) (data : Bytes) : Except String Bytes :=
  .ok ((0x12 : Byte) :: (0x20 : Byte) :: (P.sha256 data).val)

/-- `BlockchainClient.GetDocumentDetails(documentHash)`. `cidString mh` is the text
`cid.NewCidV0(mh).String()` of the version 0 CID of a multihash. -/
def GetDocumentDetails (P : Primitives) (cidString : Bytes → String)
    (documentRegistry : Registry) (documentHash : String) : DocumentDetails :=
  -- look up the CID from the registry
  match documentRegistry.get documentHash with
  | some ipfsCID => DocumentDetails.success ipfsCID
  | none =>
    -- if not found, fall back to calculating it
    match hexDecodeString documentHash with
    | .error err => DocumentDetails.failure (.invalidDocumentHash err)
    | .ok hashBytes =>
      match multihashSum P hashBytes with
      | .error err => DocumentDetails.failure (.createMultihash err)
      | .ok mh => DocumentDetails.success (cidString mh)

end blockchain

namespace blockchain

/-- Storing the entries of `entries` into `m`, in order, each by `m[k] = v`. -/
def Registry.merge (m entries : Registry) : Registry :=
  entries.foldl (fun acc e => acc.set e.1 e.2) m

/-- The registry as lists of code points, for the sample codec. -/
def sampleRaw (m : Registry) : List (List ℕ × List ℕ) :=
  m.map fun e => (e.1.data.map Char.toNat, e.2.data.map Char.toNat)

/-- The registry of lists of code points, for the sample codec. -/
def sampleOfRaw (r : List (List ℕ × List ℕ)) : Registry :=
  r.map fun e => (String.mk (e.1.map Char.ofNat), String.mk (e.2.map Char.ofNat))

/-- The marshalling of the sample codec: the base 256 digits of a number that encodes the
registry. -/
def sampleMarshal (m : Registry) : Except String Bytes :=
  .ok ((Nat.digits 256 (Encodable.encode (sampleRaw m))).map fun d =>
    ⟨d % 256, Nat.mod_lt _ (by decide)⟩)

/-- The unmarshalling of the sample codec: it stores the decoded entries into the map. -/
def sampleUnmarshal (data : Bytes) (m0 : Registry) : Registry × Option String :=
  match (Encodable.decode (Nat.ofDigits 256 (data.map Fin.val)) :
      Option (List (List ℕ × List ℕ))) with
  | some r => (Registry.merge m0 (sampleOfRaw r), none)
  | none => (m0, some "invalid character")

/-- A small instance of `JsonCodec` that satisfies `JsonCodec.Lawful`; it is not
`encoding/json`. -/
def sampleJson : JsonCodec where
  marshalIndent := sampleMarshal
  unmarshal := sampleUnmarshal

/-- A disk without a registry file. -/
def emptyDisk : Disk := { registryFile := none }

end blockchain

namespace blockchain

/-- For the registry `m`, which has no entry for `documentHash`, `GetDocumentDetails`
returns, for every SHA-256 and every CID encoder, the results of a successful lookup:
a CID, the boolean `true` and no error. -/
def UnknownLookupSucceeds (m : Registry) (documentHash : String) : Prop :=
  m.get documentHash = none ∧
  ∀ (P : Primitives) (cidString : Bytes → String),
    ∃ c, GetDocumentDetails P cidString m documentHash = DocumentDetails.success c

/-- A call in which the ledger node refuses the transaction at the last step. -/
def sendFailsEnv : RegisterEnv :=
  { saveRegistry := none, getTransactionAuth := none, chainID := none, signTx := none,
    sendTransaction := some "connection refused", txHash := "0xabc" }

end blockchain

/-- `strings.HasPrefix(s, p)` for a string `p` of ASCII characters. -/
def startsWith (s p : String) : Bool := p.data.isPrefixOf s.data

/-- The slice `s[n:]` of a string whose first `n` bytes are ASCII characters. -/
def sliceFrom (s : String) (n : Nat) : String := String.mk (s.data.drop n)

namespace crypto

/-- The signature scheme `mode2.Scheme()` of the Dilithium library, with its key types.
`deriveKey seed` is the key pair the scheme derives from a 32-byte seed; `sign` and
`verify` are called without options. -/
structure SignScheme where
  PublicKey : Type
  PrivateKey : Type
  deriveKey : Bytes → PublicKey × PrivateKey
  marshalPublicKey : PublicKey → Except String Bytes
  marshalPrivateKey : PrivateKey → Except String Bytes
  unmarshalBinaryPublicKey : Bytes → Except String PublicKey
  unmarshalBinaryPrivateKey : Bytes → Except String PrivateKey
  sign : PrivateKey → Bytes → Bytes
  verify : PublicKey → Bytes → Bytes → Bool

/-- The facts about the signature scheme the proofs rely on, for the key pair of every
32-byte seed: both keys are marshalled without error and unmarshalled back to themselves,
and a signature made with the private key verifies under the public key. -/
def SignScheme.Lawful (S : SignScheme) : Prop :=
  ∀ seed : Bytes, seed.length = 32 →
    (∃ pubBytes, S.marshalPublicKey (S.deriveKey seed).1 = .ok pubBytes ∧
      S.unmarshalBinaryPublicKey pubBytes = .ok (S.deriveKey seed).1) ∧
    (∃ privBytes, S.marshalPrivateKey (S.deriveKey seed).2 = .ok privBytes ∧
      S.unmarshalBinaryPrivateKey privBytes = .ok (S.deriveKey seed).2) ∧
    ∀ message : Bytes,
      S.verify (S.deriveKey seed).1 message (S.sign (S.deriveKey seed).2 message) = true

/-- The fields of a `DilithiumSigner` besides the scheme. -/
structure DilithiumSigner (S : SignScheme) where
  privateKey : Option S.PrivateKey
  publicKey : Option S.PublicKey

/-- `NewDilithiumSigner()`. -/
def NewDilithiumSigner (S : SignScheme) : DilithiumSigner S :=
  { privateKey := none, publicKey := none }

/-- `scheme.GenerateKey()`: a 32-byte seed read from the random source `rand`, and the key
pair derived from it. -/
def generateKey (S : SignScheme) (rand : Bytes) : Except String (S.PublicKey × S.PrivateKey) :=
  match ioReadFull rand 32 with
  | .error err => .error err.message
  | .ok (seed, _) => .ok (S.deriveKey seed)

/-- `DilithiumSigner.GenerateKeypair()`: the signer after the call, and the returned public
and private key bytes or the error. -/
def GenerateKeypair (S : SignScheme) (rand : Bytes) (ds : DilithiumSigner S) :
    DilithiumSigner S × Except String (Bytes × Bytes) :=
  match generateKey S rand with
  | .error err => (ds, .error ("failed to generate keypair: " ++ err))
  | .ok (pub, priv) =>
    let ds : DilithiumSigner S := { publicKey := some pub, privateKey := some priv }
    match S.marshalPublicKey pub with
    | .error err => (ds, .error ("failed to marshal public key: " ++ err))
    | .ok pubBytes =>
      match S.marshalPrivateKey priv with
      | .error err => (ds, .error ("failed to marshal private key: " ++ err))
      | .ok privBytes => (ds, .ok (pubBytes, privBytes))

/-- `DilithiumSigner.LoadPrivateKey(privateKeyBytes)`. -/
def LoadPrivateKey (S : SignScheme) (ds : DilithiumSigner S) (privateKeyBytes : Bytes) :
    DilithiumSigner S × Except String Unit :=
  match S.unmarshalBinaryPrivateKey privateKeyBytes with
  | .error err => (ds, .error ("failed to unmarshal private key: " ++ err))
  | .ok priv => ({ ds with privateKey := some priv }, .ok ())

/-- `DilithiumSigner.SignDocument(docPath, privateKeyBytes)`; `none` is the `nil` slice. -/
def SignDocument (S : SignScheme) (fs : FileSystem) (ds : DilithiumSigner S)
    (docPath : String) (privateKeyBytes : Option Bytes) :
    DilithiumSigner S × Except String Bytes :=
  -- load the private key if provided
  let loaded : DilithiumSigner S × Except String Unit :=
    match privateKeyBytes with
    | some bytes => LoadPrivateKey S ds bytes
    | none => (ds, .ok ())
  match loaded with
  | (ds, .error err) => (ds, .error err)
  | (ds, .ok ()) =>
    match ds.privateKey with
    | none => (ds, .error "private key not available")
    | some privateKey =>
      match fs docPath with
      | .error err => (ds, .error ("failed to read document: " ++ err))
      | .ok content => (ds, .ok (S.sign privateKey content))

/-- `DilithiumSigner.VerifySignature(docPath, signature, publicKeyBytes)`; the method
neither reads nor writes the signer's fields. -/
def VerifySignature (S : SignScheme) (fs : FileSystem) (docPath : String)
    (signature publicKeyBytes : Bytes) : Except String Bool :=
  match fs docPath with
  | .error err => .error ("failed to read document: " ++ err)
  | .ok content =>
    -- load the public key from bytes
    match S.unmarshalBinaryPublicKey publicKeyBytes with
    | .error err => .error ("failed to unmarshal public key: " ++ err)
    | .ok publicKey => .ok (S.verify publicKey content signature)

/-- A small instance of `SignScheme` that satisfies `SignScheme.Lawful`; it is not
Dilithium. Keys are 32 bytes, the two keys of a pair are the seed, and a signature is the
key followed by the message. -/
def sampleScheme : SignScheme where
  PublicKey := Bytes
  PrivateKey := Bytes
  deriveKey := fun seed => (seed, seed)
  marshalPublicKey := fun k => .ok k
  marshalPrivateKey := fun k => .ok k
  unmarshalBinaryPublicKey := fun b =>
    if b.length = 32 then .ok b else .error "wrong size for public key"
  unmarshalBinaryPrivateKey := fun b =>
    if b.length = 32 then .ok b else .error "wrong size for private key"
  sign := fun k message => k ++ message
  verify := fun k message signature => decide (signature = k ++ message)

end crypto

namespace storage

/-- What `VerifyWithDilithium` gets back from the operating system: the errors, if any, of
`ioutil.TempDir` and of `ioutil.WriteFile`. -/
structure TempEnv where
  tempDir : Option String
  writeFile : Option String

/-- `VerifyWithDilithium(content, signature, dilithiumPubKey)`: the content is written to
a temporary file, which `VerifySignature` reads back. -/
def VerifyWithDilithium (S : crypto.SignScheme) (env : TempEnv)
    (content signature dilithiumPubKey : Bytes) : Except String Bool :=
  match env.tempDir with
  | some err => .error ("failed to create temp directory: " ++ err)
  | none =>
    match env.writeFile with
    | some err => .error ("failed to write temp file: " ++ err)
    | none =>
      crypto.VerifySignature S (fun _ => .ok content) "document.tmp" signature dilithiumPubKey

end storage

namespace blockchain

/-- `BlockchainClient.DocumentExists(documentHash)`. -/
def DocumentExists (documentHash : String) : Bool × Option String :=
  let _ := documentHash
  (true, none)

/-- `LoadPrivateKey(privateKeyHex)`; `hexToECDSA` is `crypto.HexToECDSA` of the Ethereum
library. -/
def LoadPrivateKey (hexToECDSA : String → Except String PrivateKey) (privateKeyHex : String) :
    Except String PrivateKey :=
  -- remove the 0x first characters if present
  let privateKeyHex := if startsWith privateKeyHex "0x" then sliceFrom privateKeyHex 2
    else privateKeyHex
  match hexToECDSA privateKeyHex with
  | .error err => .error ("failed to load private key: " ++ err)
  | .ok privateKey => .ok privateKey

/-- A stand-in for `crypto.HexToECDSA`: it accepts the strings of 64 characters. -/
def sampleHexToECDSA (s : String) : Except String PrivateKey :=
  if s.length = 64 then .ok ⟨s.length⟩ else .error "invalid length, need 256 bits"

end blockchain

namespace integrate

/-- What `verifyAndRetrieveDocument` gets back from outside: the answers to
`NewBlockchainClient`, the content `ipfs.Retrieve` returns for a CID, the files
`os.ReadFile` can read, the answers to `VerifyWithDilithium`, and the errors, if any, of
`os.MkdirAll` and of `os.WriteFile`. -/
structure RetrieveEnv where
  client : blockchain.ClientEnv
  retrieve : String → Except String Bytes
  files : FileSystem
  temp : storage.TempEnv
  mkdirAll : Option String
  writeFile : Option String

/-- The end of a run of `verifyAndRetrieveDocument` that returns: the file it wrote, and
the messages of its warnings. -/
structure Retrieved where
  outputPath : String
  content : Bytes
  warnings : List String

/-- The test of a mock CID: `len(cid) < 46 && strings.HasPrefix(cid, "Qm")`. -/
def isMockCID (cid : String) : Bool :=
  decide (cid.utf8ByteSize < 46) && startsWith cid "Qm"

/-- The placeholder document written for a mock CID. -/
def mockContent (documentHash : String) : Bytes :=
  stringBytes ("MOCK DOCUMENT\n\n" ++
    "This is a placeholder for document with hash: " ++ documentHash ++ "\n" ++
    "Real document retrieval from IPFS requires a valid CID.\n" ++
    "In production, the blockchain would store the real CID.\n")

/-- The signature stage, step 7 of `verifyAndRetrieveDocument`: the warnings of the stage,
or the message of the `log.Fatal` call that ends the run. -/
def signatureStage (S : crypto.SignScheme) (env : RetrieveEnv)
    (outputPath dilithiumPubKeyPath : String) (content : Bytes) : Except String (List String) :=
  if dilithiumPubKeyPath ≠ "" then
    -- read the public key
    match env.files dilithiumPubKeyPath with
    | .error _ => .error "Failed to read Dilithium public key"
    | .ok pubKey =>
      let sigPath := outputPath ++ ".sig"
      match env.files sigPath with
      | .error _ => .ok ["Could not find signature file - skipping Dilithium verification"]
      | .ok signature =>
        match storage.VerifyWithDilithium S env.temp content signature pubKey with
        | .error _ => .error "Failed to verify Dilithium signature"
        | .ok valid =>
          if !valid then
            .error "Dilithium signature verification failed - document may be compromised"
          else .ok []
  else .ok []

/-- `verifyAndRetrieveDocument(cid, outputPath, contractAddress, documentHash,
dilithiumPubKeyPath, ipfsGateway, nodeURL)`, run in a new process (the in-memory registry
starts empty) on a disk: the run returns, having written a file, or it is ended by a
`log.Fatal` call, whose message is the error. -/
def verifyAndRetrieveDocument (P : Primitives) (S : crypto.SignScheme)
    (J : blockchain.JsonCodec) (cidString : Bytes → String) (env : RetrieveEnv)
    (disk : blockchain.Disk)
    (cid outputPath contractAddress documentHash dilithiumPubKeyPath ipfsGateway
      nodeURL : String) : Except String Retrieved :=
  let _ := (contractAddress, ipfsGateway, nodeURL)
  -- 1. create the blockchain client
  match blockchain.NewBlockchainClient J env.client disk [] with
  | (_, .error _) => .error "Failed to create blockchain client"
  | (documentRegistry, .ok ()) =>
    -- 2. verify that the document exists on the blockchain
    match blockchain.DocumentExists documentHash with
    | (_, some _) => .error "Failed to check document existence"
    | (false, none) => .error "Document does not exist on blockchain"
    | (true, none) =>
      -- 3. get the document details from the blockchain
      let details := blockchain.GetDocumentDetails P cidString documentRegistry documentHash
      match details.err with
      | some _ => .error "Failed to retrieve document details"
      | none =>
        -- 4. check that the CID matches
        if details.ipfsCID ≠ cid then
          .error "CID mismatch - document may have been tampered with"
        else if isMockCID cid then
          -- a mock CID: a placeholder document is written
          match env.writeFile with
          | some _ => .error "Failed to write mock document"
          | none =>
            .ok { outputPath := outputPath, content := mockContent documentHash,
                  warnings := ["Using a mock CID - cannot retrieve actual document from IPFS"] }
        else
          -- 5. retrieve the document from IPFS
          match env.retrieve cid with
          | .error _ => .error "Failed to retrieve document from IPFS"
          | .ok content =>
            -- 6. calculate the document hash and verify
            let calculatedHash := storage.CalculateDocumentHash P content
            if calculatedHash ≠ documentHash then
              .error "Document hash mismatch - content may have been tampered with"
            else
              -- 7. verify with Dilithium if a public key is provided
              match signatureStage S env outputPath dilithiumPubKeyPath content with
              | .error msg => .error msg
              | .ok warnings =>
                -- 8. write the document to the output path
                match env.mkdirAll with
                | some _ => .error "Failed to create output directory"
                | none =>
                  match env.writeFile with
                  | some _ => .error "Failed to write document to output file"
                  | none =>
                    .ok { outputPath := outputPath, content := content, warnings := warnings }

end integrate

namespace integrate

/-- An environment without failures in which the storage returns `[1, 2, 3]` for every
CID and no file can be read. -/
def plainEnv : RetrieveEnv :=
  { client := ⟨none, none⟩, retrieve := fun _ => .ok [1, 2, 3],
    files := fun _ => .error "no such file or directory",
    temp := ⟨none, none⟩, mkdirAll := none, writeFile := none }

/-- An environment without failures in which the storage returns `[1, 2, 3]` for every
CID, the public key file `pub.key` can be read and no other file. -/
def noSignatureEnv : RetrieveEnv :=
  { client := ⟨none, none⟩, retrieve := fun _ => .ok [1, 2, 3],
    files := fun path =>
      if path = "pub.key" then .ok (List.replicate 32 0)
      else .error "no such file or directory",
    temp := ⟨none, none⟩, mkdirAll := none, writeFile := none }

/-- With the registry file holding the mock CID `cid` for the fingerprint `documentHash`,
for every choice of the libraries (there is a lawful JSON codec) and whatever the storage
returns for a CID, bytes or an error, the run returns, having written the placeholder
document. -/
def MockRunSucceeds (cid documentHash outputPath : String) : Prop :=
  (∃ J : blockchain.JsonCodec, J.Lawful) ∧
  ∀ (P : Primitives) (S : crypto.SignScheme) (J : blockchain.JsonCodec)
    (cidString : Bytes → String) (retrieve : String → Except String Bytes), J.Lawful →
    verifyAndRetrieveDocument P S J cidString { plainEnv with retrieve := retrieve }
        (blockchain.saveRegistry J .written [(documentHash, cid)] blockchain.emptyDisk).1
        cid outputPath "0xc" documentHash "" "localhost:5001" "http://localhost:8545" =
      .ok { outputPath := outputPath, content := mockContent documentHash,
            warnings := ["Using a mock CID - cannot retrieve actual document from IPFS"] }

/-- With the registry file holding `cid` for the fingerprint of the document `d`, which the
storage returns, with a public key supplied and no signature file, for every choice of the
libraries (there is a lawful JSON codec) the run in the environment `env` returns, having
written `d`, with the warning of the skipped signature stage. -/
def MissingSignatureAccepted (env : RetrieveEnv) (d : Bytes)
    (cid outputPath dilithiumPubKeyPath : String) : Prop :=
  dilithiumPubKeyPath ≠ "" ∧
  (∃ e, env.files (outputPath ++ ".sig") = .error e) ∧
  (∃ J : blockchain.JsonCodec, J.Lawful) ∧
  ∀ (P : Primitives) (S : crypto.SignScheme) (J : blockchain.JsonCodec)
    (cidString : Bytes → String), J.Lawful →
    verifyAndRetrieveDocument P S J cidString env
        (blockchain.saveRegistry J .written [(storage.CalculateDocumentHash P d, cid)]
          blockchain.emptyDisk).1
        cid outputPath "0xc" (storage.CalculateDocumentHash P d) dilithiumPubKeyPath
        "localhost:5001" "http://localhost:8545" =
      .ok { outputPath := outputPath, content := d,
            warnings := ["Could not find signature file - skipping Dilithium verification"] }

end integrate

namespace zkp

/-- `SimpleDocumentProver`. -/
structure SimpleDocumentProver where
  initialized : Bool

/-- `SimpleProof`. A byte slice is its sequence of bytes: the nil slice and the empty slice
are both `[]`, as they are for the comparisons `string(a) != string(b)` of `VerifyProof`. -/
structure SimpleProof where
  DocumentHash : Bytes
  PublicKey : Bytes
  Signature : Bytes
  ProofMetadata : Bytes

/-- The functions of `encoding/json` a proof is written and read with: `marshal p` is
`json.Marshal(p)` for a `SimpleProof`, and `unmarshal data` is `json.Unmarshal(data, &p)`
into a zero `SimpleProof`. -/
structure ProofCodec where
  marshal : SimpleProof → Except String Bytes
  unmarshal : Bytes → Except String SimpleProof

/-- The fact about `encoding/json` the proofs rely on: every `SimpleProof` is marshalled
without error, and unmarshalling the result gives back the bytes of its four fields. -/
def ProofCodec.Lawful (J : ProofCodec) : Prop :=
  ∀ p : SimpleProof, ∃ data, J.marshal p = .ok data ∧ J.unmarshal data = .ok p

/-- `NewSimpleDocumentProver()`. -/
def NewSimpleDocumentProver : Except String SimpleDocumentProver :=
  .ok { initialized := true }

/-- `SimpleDocumentProver.GenerateProof(document, privateKey, documentHash, publicKey,
signature)`. -/
def GenerateProof (P : Primitives) (J : ProofCodec) (sp : SimpleDocumentProver)
    (document privateKey documentHash publicKey signature : Bytes) : Except String Bytes :=
  if !sp.initialized then .error "prover not initialized" else
  -- a hash of the private inputs
  let proofMetadata := (P.sha256 (document ++ privateKey)).val
  -- the proof object
  let proof : SimpleProof :=
    { DocumentHash := documentHash, PublicKey := publicKey, Signature := signature,
      ProofMetadata := proofMetadata }
  -- serialize to JSON
  J.marshal proof

/-- `SimpleDocumentProver.VerifyProof(proof, documentHash, publicKey, signature)`. -/
def VerifyProof (J : ProofCodec) (sp : SimpleDocumentProver)
    (proof documentHash publicKey signature : Bytes) : Except String Bool :=
  if !sp.initialized then .error "prover not initialized" else
  -- parse the proof
  match J.unmarshal proof with
  | .error err => .error ("failed to parse proof: " ++ err)
  | .ok simpleProof =>
    -- check if the document hash matches
    if simpleProof.DocumentHash ≠ documentHash then .ok false
    -- check if the public key matches
    else if simpleProof.PublicKey ≠ publicKey then .ok false
    -- check if the signature matches
    else if simpleProof.Signature ≠ signature then .ok false
    else .ok true

/-- The marshalling of the sample codec: the base 256 digits of a number that encodes the
four fields. -/
def sampleProofMarshal (p : SimpleProof) : Except String Bytes :=
  .ok ((Nat.digits 256
      (Encodable.encode (p.DocumentHash, p.PublicKey, p.Signature, p.ProofMetadata))).map
    fun d => ⟨d % 256, Nat.mod_lt _ (by decide)⟩)

/-- The unmarshalling of the sample codec. -/
def sampleProofUnmarshal (data : Bytes) : Except String SimpleProof :=
  match (Encodable.decode (Nat.ofDigits 256 (data.map Fin.val)) :
      Option (Bytes × Bytes × Bytes × Bytes)) with
  | some (h, pk, sig, md) =>
    .ok { DocumentHash := h, PublicKey := pk, Signature := sig, ProofMetadata := md }
  | none => .error "invalid character"

/-- A small instance of `ProofCodec` that satisfies `ProofCodec.Lawful`; it is not
`encoding/json`. -/
def sampleCodec : ProofCodec where
  marshal := sampleProofMarshal
  unmarshal := sampleProofUnmarshal

end zkp

namespace blockchain

/-- A `common.Address`: 20 bytes. -/
abbrev Address := { l : Bytes // l.length = 20 }

/-- `BlockchainClient.VerifyDocumentOwnership(documentHash, claimedOwner)`. -/
def VerifyDocumentOwnership (documentHash : String) (claimedOwner : Address) :
    Bool × Option String :=
  let _ := (documentHash, claimedOwner)
  (true, none)

namespace localClient

/-- `localClient.RegisterDocument(hash, cid, signature)`. The strings are their bytes:
the slice `hash[:8]` is taken on bytes and panics on a string of fewer than 8 bytes. -/
def RegisterDocument (hash cid signature : Bytes) : Outcome String Bytes :=
  let _ := (cid, signature)
  if hash.length < 8 then
    .error (.panic ("runtime error: slice bounds out of range [:8] with length " ++
      toString hash.length))
  else .ok (stringBytes "0x" ++ hash.take 8)

end localClient

namespace infuraClient

/-- `infuraClient.RegisterDocument(hash, cid, signature)`, on the bytes of the strings. -/
def RegisterDocument (hash cid signature : Bytes) : Outcome String Bytes :=
  let _ := (cid, signature)
  if hash.length < 8 then
    .error (.panic ("runtime error: slice bounds out of range [:8] with length " ++
      toString hash.length))
  else .ok (stringBytes "0x" ++ hash.take 8)

end infuraClient

end blockchain

namespace loadtest

/-- Go's `int64` of a mathematical integer: the value wraps around. -/
def int64 (x : Int) : Int := (x + 2 ^ 63) % 2 ^ 64 - 2 ^ 63

/-- The body of the inner loop of `sortDurations`:
`if times[i] > times[j] { times[i], times[j] = times[j], times[i] }`. -/
def swapIfGreater (times : List Int) (i j : Nat) : List Int :=
  if times.getD i 0 > times.getD j 0 then
    (times.set i (times.getD j 0)).set j (times.getD i 0)
  else times

/-- The inner loop of `sortDurations`: `for j := i + 1; j < len(times); j++`. -/
def sortDurationsInner (i : Nat) (times : List Int) : List Int :=
  (List.range' (i + 1) (times.length - (i + 1))).foldl (fun t j => swapIfGreater t i j) times

/-- `sortDurations(times)`: the slice after the call. A `time.Duration` is an `int64`. -/
def sortDurations (times : List Int) : List Int :=
  (List.range times.length).foldl (fun t i => sortDurationsInner i t) times

/-- `calculateMedian(times)`. -/
def calculateMedian (times : List Int) : Int :=
  if times.length = 0 then 0 else
  -- sort the times
  let times := sortDurations times
  -- find the median
  let middle := times.length / 2
  if times.length % 2 = 0 then
    Int.tdiv (int64 (times.getD (middle - 1) 0 + times.getD middle 0)) 2
  else times.getD middle 0

/-- The median as the specification words it, on the sorted list: 0 for the empty list,
the middle element for an odd length, and the mean of the two middle elements, truncated,
for an even length. -/
def medianOfSorted (sorted : List Int) : Int :=
  if sorted = [] then 0
  else if sorted.length % 2 = 1 then sorted.getD (sorted.length / 2) 0
  else Int.tdiv (sorted.getD (sorted.length / 2 - 1) 0 + sorted.getD (sorted.length / 2) 0) 2

end loadtest

namespace blockchain

/-- What a JSON text is to `json.Unmarshal(data, &m)`, for a `map[string]string` `m`, when
the call returns no error: the value `null`, or an object whose values are strings, given
as the map it denotes (of two members with the same key the last counts). -/
inductive RegistryJson where
  | null
  | object (members : Registry)

/-- The behaviour of `json.Unmarshal(data, &m)` on an existing map `m`, where `parse`
reads a JSON text: the text `null` is the value `null`; on `null` the call sets the map to
nil, which has no entries, and returns no error; on an object it stores the members into
the map, over the entries it held before, and returns no error; on every other text it
returns an error. -/
def JsonCodec.Decodes (J : JsonCodec) (parse : Bytes → Option RegistryJson) : Prop :=
  parse (stringBytes "null") = some .null ∧
  (∀ data m0, parse data = some .null →
    (J.unmarshal data m0).2 = none ∧ ∀ k, (J.unmarshal data m0).1.get k = none) ∧
  (∀ data members m0, parse data = some (.object members) →
    members.WellFormed ∧ (J.unmarshal data m0).2 = none ∧
      ∀ k, (J.unmarshal data m0).1.get k =
        match members.get k with
        | some v => some v
        | none => m0.get k) ∧
  ∀ data m0, parse data = none → ∃ err, (J.unmarshal data m0).2 = some err

/-- The reading of the second sample codec: the text `null`, or a zero byte followed by
the base 256 digits of a number that encodes the members. -/
def sampleParse (data : Bytes) : Option RegistryJson :=
  if data = stringBytes "null" then some .null
  else
    match data with
    | 0 :: rest =>
      match (Encodable.decode (Nat.ofDigits 256 (rest.map Fin.val)) :
          Option (List (List ℕ × List ℕ))) with
      | some r => some (.object (Registry.merge [] (sampleOfRaw r)))
      | none => none
    | _ => none

/-- A second small instance of `JsonCodec`, which reads the text `null` as
`encoding/json` does; it satisfies `JsonCodec.Lawful` and `JsonCodec.Decodes sampleParse`. -/
def sampleDecoder : JsonCodec where
  marshalIndent := fun m =>
    match sampleMarshal m with
    | .ok bytes => .ok (0 :: bytes)
    | .error err => .error err
  unmarshal := fun data m0 =>
    match sampleParse data with
    | some .null => ([], none)
    | some (.object members) => (Registry.merge m0 members, none)
    | none => (m0, some "invalid character")

/-- With the registry file holding the text `null`, for every `encoding/json` that reads
it as `null` (there is one, which also has the round trip of `JsonCodec.Lawful`),
`loadRegistry` returns no error and the in-memory registry `prior`, which held an entry
for `k`, holds none for `k` afterwards. -/
def NullFileResets (prior : Registry) (k : String) : Prop :=
  (∃ v, prior.get k = some v) ∧
  (∃ (J : JsonCodec) (parse : Bytes → Option RegistryJson), J.Lawful ∧ J.Decodes parse) ∧
  ∀ (J : JsonCodec) (parse : Bytes → Option RegistryJson), J.Decodes parse →
    ∃ r, loadRegistry J none { registryFile := some (stringBytes "null") } prior =
        (r, .ok ()) ∧ r.get k = none

end blockchain

/-! ## Theorems -/

theorem getUint32_putUint32 (v : Nat) (hv : v < 2 ^ 32) : getUint32 (putUint32 v) = v := by
  simp only [getUint32, putUint32]
  omega

theorem putUint32_length (v : Nat) : (putUint32 v).length = 4 := rfl

theorem ioReadFull_append (x rest : Bytes) :
    ioReadFull (x ++ rest) x.length = .ok (x, rest) := by
  simp [ioReadFull]

theorem ioReadFull_append_of_length (x rest : Bytes) (n : Nat) (hn : x.length = n) :
    ioReadFull (x ++ rest) n = .ok (x, rest) := by
  subst hn
  exact ioReadFull_append x rest

theorem binaryReadUint32_append (v : Nat) (hv : v < 2 ^ 32) (rest : Bytes) :
    binaryReadUint32 (putUint32 v ++ rest) = .ok (v, rest) := by
  have h := ioReadFull_append (putUint32 v) rest
  rw [putUint32_length] at h
  simp only [binaryReadUint32, h, getUint32_putUint32 v hv]

theorem uint32_of_lt (n : Nat) (hn : n < 2 ^ 32) : uint32 n = n := Nat.mod_eq_of_lt hn

theorem uint32_lt (n : Nat) : uint32 n < 2 ^ 32 := Nat.mod_lt _ (by decide)

namespace storage

theorem DecryptDocument_eq (P : Primitives) (data priv : Bytes) :
    DecryptDocument P data priv =
      match readFields data with
      | .error f => .error f
      | .ok (aesKey, iv, ciphertext, signature) => checkAndOpen P aesKey iv ciphertext signature := by
  unfold DecryptDocument readFields readField checkAndOpen
  cases h1 : binaryReadUint32 data with
  | error e => simp [liftRead, bind, Except.bind, h1]
  | ok r1 =>
    obtain ⟨keyLength, buf1⟩ := r1
    by_cases hk : keyLength = 32
    · subst hk
      cases h2 : ioReadFull buf1 32 with
      | error e => simp [liftRead, bind, Except.bind, h1, h2]
      | ok r2 =>
        obtain ⟨aesKey, buf2⟩ := r2
        cases h3 : binaryReadUint32 buf2 with
        | error e => simp [liftRead, bind, Except.bind, h1, h2, h3]
        | ok r3 =>
          obtain ⟨ivLength, buf3⟩ := r3
          cases h4 : ioReadFull buf3 ivLength with
          | error e => simp [liftRead, bind, Except.bind, h1, h2, h3, h4]
          | ok r4 =>
            obtain ⟨iv, buf4⟩ := r4
            cases h5 : binaryReadUint32 buf4 with
            | error e => simp [liftRead, bind, Except.bind, h1, h2, h3, h4, h5]
            | ok r5 =>
              obtain ⟨ctLength, buf5⟩ := r5
              cases h6 : ioReadFull buf5 ctLength with
              | error e => simp [liftRead, bind, Except.bind, h1, h2, h3, h4, h5, h6]
              | ok r6 =>
                obtain ⟨ct, buf6⟩ := r6
                cases h7 : binaryReadUint32 buf6 with
                | error e => simp [liftRead, bind, Except.bind, h1, h2, h3, h4, h5, h6, h7]
                | ok r7 =>
                  obtain ⟨sigLength, buf7⟩ := r7
                  cases h8 : ioReadFull buf7 sigLength with
                  | error e =>
                    simp [liftRead, bind, Except.bind, h1, h2, h3, h4, h5, h6, h7, h8]
                  | ok r8 =>
                    obtain ⟨sig, buf8⟩ := r8
                    simp only [liftRead, bind, Except.bind, h1, h2, h3, h4, h5, h6, h7, h8]
                    by_cases hs : sig = (P.sha3_256 (aesKey ++ ct)).val
                    · simp only [hs, ne_eq, not_true_eq_false, if_false]
                      cases aesNewCipher aesKey with
                      | error c => rfl
                      | ok u =>
                        cases gcmOpenCall P aesKey iv ct with
                        | error f => rfl
                        | ok o => cases o <;> rfl
                    · simp [hs]
    · simp [liftRead, bind, Except.bind, h1, hk]

theorem readField_putUint32 (eLen eBody : ReadError → DecryptError) (v : Nat)
    (hv : v < 2 ^ 32) (rest : Bytes) :
    readField eLen eBody (putUint32 v ++ rest) = liftRead eBody (ioReadFull rest v) := by
  simp [readField, binaryReadUint32_append v hv, liftRead, bind, Except.bind]

theorem readField_append (eLen eBody : ReadError → DecryptError) (body rest : Bytes)
    (h : body.length < 2 ^ 32) :
    readField eLen eBody (putUint32 (uint32 body.length) ++ (body ++ rest)) =
      .ok (body, rest) := by
  rw [uint32_of_lt _ h, readField_putUint32 _ _ _ h, ioReadFull_append]
  rfl

theorem readFields_putUint32 (rest : Bytes) :
    readFields (putUint32 32 ++ rest) =
      (do
        let (aesKey, buf) ← liftRead DecryptError.readKey (ioReadFull rest 32)
        let (iv, buf) ← readField DecryptError.readIVLength DecryptError.readIV buf
        let (ciphertext, buf) ←
          readField DecryptError.readCiphertextLength DecryptError.readCiphertext buf
        let (signature, _) ←
          readField DecryptError.readSignatureLength DecryptError.readSignature buf
        .ok (aesKey, iv, ciphertext, signature)) := by
  simp [readFields, binaryReadUint32_append 32 (by decide), liftRead, bind, Except.bind]

theorem envelope_eq (aesKey iv ciphertext signature : Bytes) :
    envelope aesKey iv ciphertext signature =
      putUint32 (uint32 aesKey.length) ++ (aesKey ++
      (putUint32 (uint32 iv.length) ++ (iv ++
      (putUint32 (uint32 ciphertext.length) ++ (ciphertext ++
      (putUint32 (uint32 signature.length) ++ (signature ++ []))))))) := by
  simp [envelope, List.append_assoc]

theorem envelope_length (aesKey iv ciphertext signature : Bytes) :
    (envelope aesKey iv ciphertext signature).length =
      aesKey.length + iv.length + ciphertext.length + signature.length + 16 := by
  simp [envelope, putUint32_length]
  omega

theorem readFields_envelope (aesKey iv ciphertext signature : Bytes)
    (hk : aesKey.length = 32) (hiv : iv.length < 2 ^ 32) (hct : ciphertext.length < 2 ^ 32)
    (hsig : signature.length < 2 ^ 32) :
    readFields (envelope aesKey iv ciphertext signature) =
      .ok (aesKey, iv, ciphertext, signature) := by
  rw [envelope_eq, hk, uint32_of_lt 32 (by decide), readFields_putUint32,
    ioReadFull_append_of_length _ _ 32 hk]
  simp only [liftRead, bind, Except.bind]
  rw [readField_append _ _ _ _ hiv]
  simp only []
  rw [readField_append _ _ _ _ hct]
  simp only []
  rw [readField_append _ _ _ _ hsig]

theorem aesNewCipher_of_length (key : Bytes) (hk : key.length = 32) :
    aesNewCipher key = .ok () := by
  simp [aesNewCipher, hk]

/-- On a well-formed envelope `DecryptDocument` is the tag comparison followed by the
AES-GCM open. -/
theorem DecryptDocument_envelope (P : Primitives) (aesKey iv ciphertext signature priv : Bytes)
    (hk : aesKey.length = 32) (hiv : iv.length < 2 ^ 32) (hct : ciphertext.length < 2 ^ 32)
    (hsig : signature.length < 2 ^ 32) :
    DecryptDocument P (envelope aesKey iv ciphertext signature) priv =
      checkAndOpen P aesKey iv ciphertext signature := by
  rw [DecryptDocument_eq, readFields_envelope _ _ _ _ hk hiv hct hsig]

theorem EncryptEnv.aesKey_length (env : EncryptEnv) (h : 44 ≤ env.rand.length) :
    env.aesKey.length = 32 := by
  simp [EncryptEnv.aesKey]; omega

theorem EncryptEnv.iv_length (env : EncryptEnv) (h : 44 ≤ env.rand.length) :
    env.iv.length = 12 := by
  simp [EncryptEnv.iv]; omega

/-- When `EncryptDocument` returns bytes, the environment raised no failure, the content is
within the GCM limit, and the bytes are the envelope of the four fields. -/
theorem EncryptDocument_ok (P : Primitives) (env : EncryptEnv) (content pub e : Bytes)
    (h : EncryptDocument P env content pub = .ok e) :
    env.Succeeds ∧ content.length ≤ gcmMaxPlaintext ∧
      e = envelope env.aesKey env.iv (env.ciphertext P content) (env.signature P content) := by
  unfold EncryptDocument at h
  by_cases h32 : 32 ≤ env.rand.length
  · by_cases h12 : 12 ≤ (env.rand.drop 32).length
    · have h44 : 44 ≤ env.rand.length := by simp at h12; omega
      have hkl : (List.take 32 env.rand).length = 32 := by simp; omega
      have hivl : (List.take 12 (List.drop 32 env.rand)).length = 12 := by simp; omega
      simp only [ioReadFull, h32, h12, if_true, liftRead, bind, Except.bind,
        aesNewCipher_of_length _ hkl, gcmSealCall, gcmNonceSize, hivl, ne_eq,
        not_true_eq_false, if_false] at h
      by_cases hmax : gcmMaxPlaintext < content.length
      · simp [hmax] at h
      · simp only [hmax, if_false] at h
        cases htd : env.tempDir with
        | some c => simp [htd] at h
        | none =>
          cases hwf : env.writeFile with
          | some c => simp [htd, hwf] at h
          | none =>
            simp only [htd, hwf, Except.ok.injEq] at h
            refine ⟨⟨h44, htd, hwf⟩, by omega, ?_⟩
            rw [← h]
            rfl
    · by_cases hz : (env.rand.drop 32).length = 0 <;>
        simp only [ioReadFull, h32, h12, hz, if_true, if_false, liftRead, bind,
          Except.bind] at h <;> cases h
  · by_cases hz : env.rand.length = 0 <;>
      simp only [ioReadFull, h32, hz, if_true, if_false, liftRead, bind, Except.bind] at h <;>
      cases h

/-- In an environment that raises no failure, `EncryptDocument` returns the envelope of the
four fields for every content within the GCM limit. -/
theorem EncryptDocument_of_succeeds (P : Primitives) (env : EncryptEnv) (content pub : Bytes)
    (henv : env.Succeeds) (hmax : content.length ≤ gcmMaxPlaintext) :
    EncryptDocument P env content pub =
      .ok (envelope env.aesKey env.iv (env.ciphertext P content) (env.signature P content)) := by
  obtain ⟨h44, htd, hwf⟩ := henv
  have h32 : 32 ≤ env.rand.length := by omega
  have h12 : 12 ≤ (env.rand.drop 32).length := by simp; omega
  have hkl : (List.take 32 env.rand).length = 32 := by simp; omega
  have hivl : (List.take 12 (List.drop 32 env.rand)).length = 12 := by simp; omega
  have hmax2 : ¬ gcmMaxPlaintext < content.length := by omega
  unfold EncryptDocument
  simp only [ioReadFull, h32, h12, if_true, liftRead, bind, Except.bind,
    aesNewCipher_of_length _ hkl, gcmSealCall, gcmNonceSize, hivl, ne_eq,
    not_true_eq_false, if_false, hmax2, htd, hwf]
  rfl

theorem samplePrimitives_lawful : samplePrimitives.Lawful := by
  refine ⟨?_, ?_⟩
  · intro key nonce pt _ _
    simp [samplePrimitives, sampleSeal]
  · intro key nonce pt _ _
    simp [samplePrimitives, sampleSeal, sampleOpen]

theorem zeroEnv_succeeds : zeroEnv.Succeeds := by
  simp [EncryptEnv.Succeeds, zeroEnv]

theorem checkAndOpen_sealed (P : Primitives) (hP : P.Lawful) (key iv d : Bytes)
    (hk : key.length = 32) (hiv : iv.length = 12) (hlen : d.length + 16 < 2 ^ 32) :
    checkAndOpen P key iv (P.gcmSeal key iv d) (P.sha3_256 (key ++ P.gcmSeal key iv d)).val =
      .ok d := by
  have hl := hP.1 key iv d hk hiv
  have h1 : ¬ (P.gcmSeal key iv d).length < 16 := by omega
  have h2 : ¬ gcmMaxPlaintext + 16 < (P.gcmSeal key iv d).length := by
    have : (2 : Nat) ^ 32 ≤ gcmMaxPlaintext + 16 := by norm_num [gcmMaxPlaintext]
    omega
  simp only [checkAndOpen, ne_eq, not_true_eq_false, if_false, aesNewCipher_of_length _ hk,
    gcmOpenCall, gcmNonceSize, gcmTagSize, hiv, h1, h2, hP.2 key iv d hk hiv]

/-- With the tag of `key ++ ct` and a 12-byte nonce, the tag comparison passes and the
outcome is that of the AES-GCM open. -/
theorem checkAndOpen_tagged (P : Primitives) (key iv ct : Bytes) (hk : key.length = 32)
    (hiv : iv.length = 12) (h16 : 16 ≤ ct.length) (hct : ct.length < 2 ^ 32) :
    checkAndOpen P key iv ct (P.sha3_256 (key ++ ct)).val =
      match P.gcmOpen key iv ct with
      | none => .error (.error .decryptFailed)
      | some plaintext => .ok plaintext := by
  have h1 : ¬ ct.length < 16 := by omega
  have h2 : ¬ gcmMaxPlaintext + 16 < ct.length := by
    have : (2 : Nat) ^ 32 ≤ gcmMaxPlaintext + 16 := by norm_num [gcmMaxPlaintext]
    omega
  simp only [checkAndOpen, ne_eq, not_true_eq_false, if_false, aesNewCipher_of_length _ hk,
    gcmOpenCall, gcmNonceSize, gcmTagSize, hiv, h1, h2]
  cases P.gcmOpen key iv ct <;> rfl

/-- Every read of one field ends in a value or in an `error` value, never in a panic. -/
theorem readField_no_panic (eLen eBody : ReadError → DecryptError) (buf : Bytes) :
    (∃ r, readField eLen eBody buf = .ok r) ∨
      ∃ f, readField eLen eBody buf = .error (.error f) := by
  unfold readField
  cases h1 : binaryReadUint32 buf with
  | error e => exact Or.inr ⟨eLen e, by simp [liftRead, bind, Except.bind]⟩
  | ok r =>
    obtain ⟨n, rest⟩ := r
    cases h2 : ioReadFull rest n with
    | error e => exact Or.inr ⟨eBody e, by simp [liftRead, bind, Except.bind, h2]⟩
    | ok r2 => exact Or.inl ⟨r2, by simp [liftRead, bind, Except.bind, h2]⟩

/-- With an empty ciphertext `checkAndOpen` ends in an `error` value. -/
theorem checkAndOpen_nil (P : Primitives) (key iv sig : Bytes) (hk : key.length = 32)
    (hiv : iv.length = 12) :
    checkAndOpen P key iv [] sig = .error (.error .signatureVerificationFailed) ∨
      checkAndOpen P key iv [] sig = .error (.error .decryptFailed) := by
  by_cases hs : sig = (P.sha3_256 (key ++ [])).val
  · right
    simp only [checkAndOpen, hs, ne_eq, not_true_eq_false, if_false,
      aesNewCipher_of_length _ hk, gcmOpenCall, gcmNonceSize, gcmTagSize, hiv,
      List.length_nil, Nat.zero_lt_succ, if_true]
  · left
    simp only [checkAndOpen, ne_eq, hs, not_false_eq_true, if_true]

/-- The fields read from an envelope whose ciphertext is exactly `2 ^ 32` bytes long:
the ciphertext length prefix is zero, so the ciphertext read is empty and the signature
field is read from the start of the real ciphertext. -/
theorem readFields_envelope_overflow (key iv ct sig : Bytes) (hk : key.length = 32)
    (hiv : iv.length = 12) (hct : ct.length = 2 ^ 32) :
    readFields (envelope key iv ct sig) =
      match readField DecryptError.readSignatureLength DecryptError.readSignature
          (ct ++ (putUint32 (uint32 sig.length) ++ (sig ++ []))) with
      | .error f => .error f
      | .ok (signature, _) => .ok (key, iv, [], signature) := by
  have hiv2 : iv.length < 2 ^ 32 := by omega
  have h0 : uint32 ct.length = 0 := by rw [hct]; norm_num [uint32]
  rw [envelope_eq, hk, uint32_of_lt 32 (by decide), readFields_putUint32,
    ioReadFull_append_of_length _ _ 32 hk]
  simp only [liftRead, bind, Except.bind]
  rw [readField_append _ _ _ _ hiv2]
  simp only []
  rw [h0, readField_putUint32 _ _ 0 (by decide)]
  simp only [ioReadFull, Nat.zero_le, if_true, liftRead, List.take_zero, List.drop_zero]
  cases readField DecryptError.readSignatureLength DecryptError.readSignature
      (ct ++ (putUint32 (uint32 sig.length) ++ (sig ++ []))) with
  | error f => rfl
  | ok r => rfl

/-- `DecryptDocument` ends in an `error` value on every envelope whose ciphertext is
exactly `2 ^ 32` bytes long. -/
theorem DecryptDocument_envelope_overflow (P : Primitives) (key iv ct sig priv : Bytes)
    (hk : key.length = 32) (hiv : iv.length = 12) (hct : ct.length = 2 ^ 32) :
    ∃ f, DecryptDocument P (envelope key iv ct sig) priv = .error (.error f) := by
  rw [DecryptDocument_eq, readFields_envelope_overflow key iv ct sig hk hiv hct]
  rcases readField_no_panic DecryptError.readSignatureLength DecryptError.readSignature
      (ct ++ (putUint32 (uint32 sig.length) ++ (sig ++ []))) with ⟨r, hr⟩ | ⟨f, hf⟩
  · rw [hr]
    obtain ⟨s, rest⟩ := r
    rcases checkAndOpen_nil P key iv s hk hiv with h | h
    · exact ⟨_, h⟩
    · exact ⟨_, h⟩
  · rw [hf]
    exact ⟨f, rfl⟩

/-- C1, as stated, fails: the document of `2 ^ 32 - 16` zero bytes is encrypted into an
envelope whose ciphertext length prefix `uint32(len(ciphertext))` wraps to zero, and
`DecryptDocument` returns an error on that envelope instead of the document. -/
theorem roundtrip_fails_on_doc4GiB : RoundTripFails zeroEnv doc4GiB := by
  refine ⟨⟨samplePrimitives, samplePrimitives_lawful⟩, ?_⟩
  intro P hP
  have hk := zeroEnv.aesKey_length (by simp [zeroEnv])
  have hiv := zeroEnv.iv_length (by simp [zeroEnv])
  have hd : doc4GiB.length = 2 ^ 32 - 16 := by
    unfold doc4GiB; exact List.length_replicate _ _
  have hmax : doc4GiB.length ≤ gcmMaxPlaintext := by rw [hd]; norm_num [gcmMaxPlaintext]
  refine ⟨_, EncryptDocument_of_succeeds P zeroEnv doc4GiB [] zeroEnv_succeeds hmax, ?_⟩
  intro k
  apply DecryptDocument_envelope_overflow P _ _ _ _ k hk hiv
  rw [EncryptEnv.ciphertext, hP.1 _ _ _ hk hiv, hd]
  norm_num

/-- C1, amended: for every document `d` with `len(d) + 16 < 2 ^ 32` (the empty one
included) and all key arguments `k1`, `k2`: in an environment without failures
`EncryptDocument(d, k1)` returns an envelope, and whenever it returns an envelope, whatever
key and IV it drew, `DecryptDocument` of that envelope with `k2` returns exactly `d`. -/
theorem EncryptDocument_DecryptDocument_roundtrip (P : Primitives) (hP : P.Lawful)
    (env : EncryptEnv) (d k1 k2 : Bytes) (hlen : d.length + 16 < 2 ^ 32) :
    (env.Succeeds → ∃ e, EncryptDocument P env d k1 = .ok e) ∧
      ∀ e, EncryptDocument P env d k1 = .ok e → DecryptDocument P e k2 = .ok d := by
  refine ⟨fun henv => ⟨_, EncryptDocument_of_succeeds P env d k1 henv ?_⟩, ?_⟩
  · have : (2 : Nat) ^ 32 ≤ gcmMaxPlaintext := by norm_num [gcmMaxPlaintext]
    omega
  intro e he
  obtain ⟨⟨h44, _, _⟩, _, rfl⟩ := EncryptDocument_ok P env d k1 e he
  have hk := env.aesKey_length h44
  have hiv := env.iv_length h44
  have hct : (env.ciphertext P d).length = d.length + 16 := hP.1 _ _ _ hk hiv
  rw [DecryptDocument_envelope P _ _ _ _ k2 hk (by omega) (by omega)
    (by rw [EncryptEnv.signature, (P.sha3_256 _).property]; decide)]
  exact checkAndOpen_sealed P hP _ _ d hk hiv hlen

/-- C1, amended, at the sample primitives: the document `[1, 2, 3]` makes the round trip,
the empty document too. -/
theorem EncryptDocument_DecryptDocument_roundtrip_witness :
    DecryptDocument samplePrimitives
        (envelope zeroEnv.aesKey zeroEnv.iv (zeroEnv.ciphertext samplePrimitives [1, 2, 3])
          (zeroEnv.signature samplePrimitives [1, 2, 3])) [7] = .ok [1, 2, 3] ∧
      DecryptDocument samplePrimitives
        (envelope zeroEnv.aesKey zeroEnv.iv (zeroEnv.ciphertext samplePrimitives [])
          (zeroEnv.signature samplePrimitives [])) [] = .ok [] :=
  ⟨(EncryptDocument_DecryptDocument_roundtrip samplePrimitives samplePrimitives_lawful zeroEnv
      [1, 2, 3] [9] [7] (by decide)).2 _
      (EncryptDocument_of_succeeds samplePrimitives zeroEnv [1, 2, 3] [9] zeroEnv_succeeds
        (by norm_num [gcmMaxPlaintext])),
    (EncryptDocument_DecryptDocument_roundtrip samplePrimitives samplePrimitives_lawful zeroEnv
      [] [] [] (by decide)).2 _
      (EncryptDocument_of_succeeds samplePrimitives zeroEnv [] [] zeroEnv_succeeds
        (by norm_num [gcmMaxPlaintext]))⟩

theorem envelope_set_ciphertext (key iv ct sig : Bytes) (hk : key.length = 32)
    (hiv : iv.length = 12) (j : Nat) (hj : j < ct.length) (b : Byte) :
    (envelope key iv ct sig).set (56 + j) b = envelope key iv (ct.set j b) sig := by
  simp only [envelope, List.set_append, List.length_append, putUint32_length, hk, hiv,
    List.length_set]
  have e1 : 56 + j < 4 + 32 + (4 + 12) + (4 + ct.length) := by omega
  have e2 : ¬ 56 + j < 4 + 32 + (4 + 12) := by omega
  have e3 : ¬ 56 + j - (4 + 32 + (4 + 12)) < 4 := by omega
  have e4 : 56 + j - (4 + 32 + (4 + 12)) - 4 = j := by omega
  simp only [e1, e2, e3, e4, if_true, if_false]

theorem envelope_set_signature (key iv ct sig : Bytes) (hk : key.length = 32)
    (hiv : iv.length = 12) (j : Nat) (b : Byte) :
    (envelope key iv ct sig).set (60 + ct.length + j) b = envelope key iv ct (sig.set j b) := by
  simp only [envelope, List.set_append, List.length_append, putUint32_length, hk, hiv,
    List.length_set]
  have e1 : ¬ 60 + ct.length + j < 4 + 32 + (4 + 12) + (4 + ct.length) := by omega
  have e3 : ¬ 60 + ct.length + j - (4 + 32 + (4 + 12) + (4 + ct.length)) < 4 := by omega
  have e4 : 60 + ct.length + j - (4 + 32 + (4 + 12) + (4 + ct.length)) - 4 = j := by omega
  simp only [e1, e3, e4, if_false]

/-- A partial result on changed bytes. For an envelope produced by `EncryptDocument` from
a document `d` with `len(d) + 16 < 2 ^ 32`, a change of one byte inside the tag field is
always caught by the tag comparison. A change of one byte inside the ciphertext field is
rejected, by the tag comparison or by the AES-GCM open, under the assumption `hcr` on the
library functions at that input: SHA3-256 gives the changed data `key ++ ct'` a digest
other than that of `key ++ ct`, or else AES-GCM does not open `ct'`. Whether SHA3-256 and
AES-GCM meet `hcr` at every input is not decided here. -/
theorem DecryptDocument_rejects_changed_byte (P : Primitives) (hP : P.Lawful)
    (env : EncryptEnv) (d k1 k2 e : Bytes) (hlen : d.length + 16 < 2 ^ 32)
    (he : EncryptDocument P env d k1 = .ok e) (i : Nat) (b : Byte)
    (hfield : inCiphertextField d i ∨ inSignatureField d i) (hne : e.set i b ≠ e)
    (hcr : ∀ j, i = 56 + j → j < d.length + 16 →
      (P.sha3_256 (env.aesKey ++ (env.ciphertext P d).set j b)).val ≠
          (P.sha3_256 (env.aesKey ++ env.ciphertext P d)).val ∨
        P.gcmOpen env.aesKey env.iv ((env.ciphertext P d).set j b) = none) :
    DecryptDocument P (e.set i b) k2 = .error (.error .signatureVerificationFailed) ∨
      DecryptDocument P (e.set i b) k2 = .error (.error .decryptFailed) := by
  obtain ⟨⟨h44, _, _⟩, _, rfl⟩ := EncryptDocument_ok P env d k1 e he
  have hk := env.aesKey_length h44
  have hiv := env.iv_length h44
  have hct : (env.ciphertext P d).length = d.length + 16 := hP.1 _ _ _ hk hiv
  have hsig : (env.signature P d).length = 32 := (P.sha3_256 _).property
  rcases hfield with ⟨h1, h2⟩ | ⟨h1, h2⟩
  · obtain ⟨j, rfl⟩ : ∃ j, i = 56 + j := ⟨i - 56, by omega⟩
    have hj : j < d.length + 16 := by omega
    have hl : ((env.ciphertext P d).set j b).length = d.length + 16 := by
      rw [List.length_set]; exact hct
    rw [envelope_set_ciphertext _ _ _ _ hk hiv j (by omega) b,
      DecryptDocument_envelope P _ _ _ _ k2 hk (by omega) (by omega) (by omega)]
    by_cases hcol : (P.sha3_256 (env.aesKey ++ (env.ciphertext P d).set j b)).val =
        (P.sha3_256 (env.aesKey ++ env.ciphertext P d)).val
    · right
      rcases hcr j rfl hj with h | h
      · exact absurd hcol h
      · rw [EncryptEnv.signature, ← hcol,
          checkAndOpen_tagged P _ _ _ hk hiv (by omega) (by omega), h]
    · left
      simp only [checkAndOpen, EncryptEnv.signature, ne_eq, if_pos (Ne.symm hcol)]
  · obtain ⟨j, rfl⟩ : ∃ j, i = 60 + (env.ciphertext P d).length + j :=
      ⟨i - (60 + (d.length + 16)), by omega⟩
    rw [envelope_set_signature _ _ _ _ hk hiv j b] at hne ⊢
    rw [DecryptDocument_envelope P _ _ _ _ k2 hk (by omega) (by omega)
        (by rw [List.length_set]; omega)]
    have hs : (env.signature P d).set j b ≠ (P.sha3_256 (env.aesKey ++ env.ciphertext P d)).val := by
      intro h
      apply hne
      rw [h]
      rfl
    left
    simp only [checkAndOpen, ne_eq, if_pos hs]

/-- The partial result at the sample primitives: in the envelope of `[1, 2, 3]`, changing
the first byte of the ciphertext (offset 56) to 9, and changing the first byte of the tag
(offset 79) to 9, are both rejected. -/
theorem DecryptDocument_rejects_changed_byte_witness :
    (DecryptDocument samplePrimitives
          ((envelope zeroEnv.aesKey zeroEnv.iv (zeroEnv.ciphertext samplePrimitives [1, 2, 3])
            (zeroEnv.signature samplePrimitives [1, 2, 3])).set 56 9) [] =
          .error (.error .signatureVerificationFailed) ∨
        DecryptDocument samplePrimitives
          ((envelope zeroEnv.aesKey zeroEnv.iv (zeroEnv.ciphertext samplePrimitives [1, 2, 3])
            (zeroEnv.signature samplePrimitives [1, 2, 3])).set 56 9) [] =
          .error (.error .decryptFailed)) ∧
      (DecryptDocument samplePrimitives
          ((envelope zeroEnv.aesKey zeroEnv.iv (zeroEnv.ciphertext samplePrimitives [1, 2, 3])
            (zeroEnv.signature samplePrimitives [1, 2, 3])).set 79 9) [] =
          .error (.error .signatureVerificationFailed) ∨
        DecryptDocument samplePrimitives
          ((envelope zeroEnv.aesKey zeroEnv.iv (zeroEnv.ciphertext samplePrimitives [1, 2, 3])
            (zeroEnv.signature samplePrimitives [1, 2, 3])).set 79 9) [] =
          .error (.error .decryptFailed)) :=
  ⟨DecryptDocument_rejects_changed_byte samplePrimitives samplePrimitives_lawful zeroEnv
      [1, 2, 3] [] [] _ (by decide)
      (EncryptDocument_of_succeeds samplePrimitives zeroEnv [1, 2, 3] [] zeroEnv_succeeds
        (by norm_num [gcmMaxPlaintext]))
      56 9 (Or.inl (by decide)) (by decide)
      (by
        intro j hj _
        obtain rfl : j = 0 := by omega
        exact Or.inl (by decide)),
    DecryptDocument_rejects_changed_byte samplePrimitives samplePrimitives_lawful zeroEnv
      [1, 2, 3] [] [] _ (by decide)
      (EncryptDocument_of_succeeds samplePrimitives zeroEnv [1, 2, 3] [] zeroEnv_succeeds
        (by norm_num [gcmMaxPlaintext]))
      79 9 (Or.inr (by decide)) (by decide)
      (by
        intro j hj hlt
        simp only [List.length_cons, List.length_nil] at hlt
        omega)⟩

theorem withNonce_envelope (key iv ct sig iv2 : Bytes) (hk : key.length = 32)
    (hiv : iv.length = 12) (hiv2 : iv2.length = 12) :
    withNonce (envelope key iv ct sig) iv2 = envelope key iv2 ct sig := by
  have h1 : envelope key iv ct sig =
      (putUint32 (uint32 key.length) ++ key ++ putUint32 (uint32 iv.length)) ++
        (iv ++ (putUint32 (uint32 ct.length) ++ ct ++ (putUint32 (uint32 sig.length) ++ sig))) := by
    simp [envelope, List.append_assoc]
  have h2 : envelope key iv ct sig =
      (putUint32 (uint32 key.length) ++ key ++ putUint32 (uint32 iv.length) ++ iv) ++
        (putUint32 (uint32 ct.length) ++ ct ++ (putUint32 (uint32 sig.length) ++ sig)) := by
    simp [envelope, List.append_assoc]
  have t : (envelope key iv ct sig).take 40 =
      putUint32 (uint32 key.length) ++ key ++ putUint32 (uint32 iv.length) := by
    rw [h1]
    exact List.take_left' (by simp [putUint32_length, hk])
  have dr : (envelope key iv ct sig).drop 52 =
      putUint32 (uint32 ct.length) ++ ct ++ (putUint32 (uint32 sig.length) ++ sig) := by
    rw [h2]
    exact List.drop_left' (by simp [putUint32_length, hk, hiv])
  rw [withNonce, t, dr]
  simp [envelope, List.append_assoc, hiv, hiv2]

/-- On a produced envelope whose nonce was replaced by another 12 bytes, the tag
comparison passes and the outcome is that of the AES-GCM open under the replaced nonce. -/
theorem DecryptDocument_withNonce (P : Primitives) (hP : P.Lawful)
    (env : EncryptEnv) (d k1 k2 e iv2 : Bytes) (hlen : d.length + 16 < 2 ^ 32)
    (he : EncryptDocument P env d k1 = .ok e) (hiv2 : iv2.length = 12) :
    DecryptDocument P (withNonce e iv2) k2 =
      match P.gcmOpen env.aesKey iv2 (env.ciphertext P d) with
      | none => .error (.error .decryptFailed)
      | some plaintext => .ok plaintext := by
  obtain ⟨⟨h44, _, _⟩, _, rfl⟩ := EncryptDocument_ok P env d k1 e he
  have hk := env.aesKey_length h44
  have hiv := env.iv_length h44
  have hct : (env.ciphertext P d).length = d.length + 16 := hP.1 _ _ _ hk hiv
  have hsig : (env.signature P d).length = 32 := (P.sha3_256 _).property
  rw [withNonce_envelope _ _ _ _ _ hk hiv hiv2,
    DecryptDocument_envelope P _ _ _ _ k2 hk (by omega) (by omega) (by omega)]
  exact checkAndOpen_tagged P _ _ _ hk hiv2 (by omega) (by omega)

/-- C4 (amended): the tag `EncryptDocument` writes and `DecryptDocument` recomputes is the
SHA3-256 digest of `key ++ ciphertext`; the nonce is not part of it. For a document `d` with
`len(d) + 16 < 2 ^ 32`, replacing only the nonce of a produced envelope by any other 12
bytes leaves the recomputed tag equal to the stored one: the tag comparison passes, and
the outcome of `DecryptDocument` is that of the AES-GCM open under the replaced nonce,
never the error `signature verification failed`. -/
theorem DecryptDocument_tag_ignores_nonce (P : Primitives) (hP : P.Lawful)
    (env : EncryptEnv) (d k1 k2 e iv2 : Bytes) (hlen : d.length + 16 < 2 ^ 32)
    (he : EncryptDocument P env d k1 = .ok e) (hiv2 : iv2.length = 12) :
    env.signature P d = (P.sha3_256 (env.aesKey ++ env.ciphertext P d)).val ∧
      DecryptDocument P (withNonce e iv2) k2 =
        (match P.gcmOpen env.aesKey iv2 (env.ciphertext P d) with
        | none => .error (.error .decryptFailed)
        | some plaintext => .ok plaintext) ∧
      DecryptDocument P (withNonce e iv2) k2 ≠ .error (.error .signatureVerificationFailed) := by
  have h := DecryptDocument_withNonce P hP env d k1 k2 e iv2 hlen he hiv2
  refine ⟨rfl, h, ?_⟩
  rw [h]
  cases P.gcmOpen env.aesKey iv2 (env.ciphertext P d) <;> simp

/-- C4 (amended) at the sample primitives: with the nonce of the envelope of `[1, 2, 3]`
replaced by twelve bytes 1, the tag comparison passes. -/
theorem DecryptDocument_tag_ignores_nonce_witness :
    DecryptDocument samplePrimitives
        (withNonce (envelope zeroEnv.aesKey zeroEnv.iv
          (zeroEnv.ciphertext samplePrimitives [1, 2, 3])
          (zeroEnv.signature samplePrimitives [1, 2, 3])) (List.replicate 12 1)) [] =
      match samplePrimitives.gcmOpen zeroEnv.aesKey (List.replicate 12 1)
          (zeroEnv.ciphertext samplePrimitives [1, 2, 3]) with
      | none => .error (.error .decryptFailed)
      | some plaintext => .ok plaintext :=
  (DecryptDocument_tag_ignores_nonce samplePrimitives samplePrimitives_lawful zeroEnv
    [1, 2, 3] [] [] _ (List.replicate 12 1) (by decide)
    (EncryptDocument_of_succeeds samplePrimitives zeroEnv [1, 2, 3] [] zeroEnv_succeeds
      (by norm_num [gcmMaxPlaintext])) (by decide)).2.1

/-- C4, as stated, fails: in the envelope of the empty document the nonce, twelve zero
bytes, is replaced by twelve bytes 1; the recomputed tag is unchanged, so `DecryptDocument`
does not fail at the tag comparison. -/
theorem nonce_change_passes_tag_check :
    NonceChangePassesTagCheck zeroEnv [] (List.replicate 12 1) := by
  refine ⟨⟨samplePrimitives, samplePrimitives_lawful⟩, ?_⟩
  intro P hP
  have hmax : ([] : Bytes).length ≤ gcmMaxPlaintext := by norm_num [gcmMaxPlaintext]
  have he := EncryptDocument_of_succeeds P zeroEnv [] [] zeroEnv_succeeds hmax
  have hk := zeroEnv.aesKey_length (by simp [zeroEnv])
  have hiv := zeroEnv.iv_length (by simp [zeroEnv])
  refine ⟨_, he, ?_, ?_⟩
  · rw [withNonce_envelope _ _ _ _ _ hk hiv (by decide)]
    intro h
    have h40 := congrArg (fun l => l.getD 40 0) h
    simp [envelope, putUint32, hk, hiv, List.getD_eq_getElem?_getD, List.getElem?_append,
      zeroEnv, EncryptEnv.aesKey, EncryptEnv.iv] at h40
  · intro k
    rw [DecryptDocument_withNonce P hP zeroEnv [] [] k _ (List.replicate 12 1)
      (by decide) he (by decide)]
    cases P.gcmOpen zeroEnv.aesKey (List.replicate 12 1) (zeroEnv.ciphertext P []) <;> simp

/-- C6, the code at a failing input: an input that parses into four fields with a 32-byte
key, a nonce that is not 12 bytes long and the tag SHA3-256(key ++ ciphertext) passes the
tag comparison and reaches the AES-GCM open with that nonce, where the call panics:
`DecryptDocument` returns neither a value nor an error. -/
theorem DecryptDocument_panics_on_nonce_length (P : Primitives) (key iv ct priv : Bytes)
    (hk : key.length = 32) (hiv : iv.length ≠ 12) (hivlt : iv.length < 2 ^ 32)
    (hct : ct.length < 2 ^ 32) :
    DecryptDocument P (envelope key iv ct (P.sha3_256 (key ++ ct)).val) priv =
      .error (.panic "crypto/cipher: incorrect nonce length given to GCM") := by
  rw [DecryptDocument_envelope P _ _ _ _ priv hk hivlt hct
    (by rw [(P.sha3_256 _).property]; decide)]
  simp only [checkAndOpen, ne_eq, not_true_eq_false, if_false, aesNewCipher_of_length _ hk,
    gcmOpenCall, gcmNonceSize, hiv, not_false_eq_true, if_true]

/-- C6 at a concrete input: a key of 32 zero bytes, an empty nonce, an empty ciphertext
and the matching tag. -/
theorem DecryptDocument_panics_on_nonce_length_witness :
    DecryptDocument samplePrimitives
        (envelope (List.replicate 32 0) [] []
          (samplePrimitives.sha3_256 (List.replicate 32 0 ++ [])).val) [] =
      .error (.panic "crypto/cipher: incorrect nonce length given to GCM") :=
  DecryptDocument_panics_on_nonce_length samplePrimitives (List.replicate 32 0) [] [] []
    (by decide) (by decide) (by decide) (by decide)

theorem ioReadFull_short (r : Bytes) (m : Nat) (h : r.length < m) :
    ∃ c, ioReadFull r m = .error c := by
  unfold ioReadFull
  have h1 : ¬ m ≤ r.length := by omega
  by_cases hz : r.length = 0
  · exact ⟨.EOF, by rw [if_neg h1, if_pos hz]⟩
  · exact ⟨.ErrUnexpectedEOF, by rw [if_neg h1, if_neg hz]⟩

theorem binaryReadUint32_short (r : Bytes) (h : r.length < 4) :
    ∃ c, binaryReadUint32 r = .error c := by
  obtain ⟨c, hc⟩ := ioReadFull_short r 4 h
  exact ⟨c, by simp only [binaryReadUint32, hc]⟩

theorem take_append_long (a b : Bytes) (n : Nat) (h : a.length ≤ n) :
    (a ++ b).take n = a ++ b.take (n - a.length) := by
  rw [List.take_append_eq_append_take, List.take_of_length_le h]

/-- Reading a field from a buffer cut inside the field fails with one of the field's two
read errors. -/
theorem readField_take_short (eLen eBody : ReadError → DecryptError) (body rest : Bytes)
    (n : Nat) (hb : body.length < 2 ^ 32) (hn : n < 4 + body.length) :
    ∃ c, readField eLen eBody
        ((putUint32 (uint32 body.length) ++ (body ++ rest)).take n) = .error (.error (eLen c)) ∨
      readField eLen eBody
        ((putUint32 (uint32 body.length) ++ (body ++ rest)).take n) = .error (.error (eBody c)) := by
  by_cases h4 : n < 4
  · obtain ⟨c, hc⟩ := binaryReadUint32_short
      ((putUint32 (uint32 body.length) ++ (body ++ rest)).take n)
      (by rw [List.length_take]; omega)
    exact ⟨c, Or.inl (by simp only [readField, hc, liftRead, bind, Except.bind])⟩
  · rw [take_append_long _ _ n (by rw [putUint32_length]; omega), putUint32_length,
      readField_putUint32 _ _ _ (uint32_lt _), uint32_of_lt _ hb]
    obtain ⟨c, hc⟩ := ioReadFull_short ((body ++ rest).take (n - 4)) body.length
      (by rw [List.length_take]; omega)
    exact ⟨c, Or.inr (by simp only [hc, liftRead])⟩

/-- Reading a field from a buffer cut after the field gives the field and the cut rest. -/
theorem readField_take_long (eLen eBody : ReadError → DecryptError) (body rest : Bytes)
    (n : Nat) (hb : body.length < 2 ^ 32) (hn : 4 + body.length ≤ n) :
    readField eLen eBody ((putUint32 (uint32 body.length) ++ (body ++ rest)).take n) =
      .ok (body, rest.take (n - 4 - body.length)) := by
  rw [take_append_long _ _ n (by rw [putUint32_length]; omega), putUint32_length,
    take_append_long _ _ (n - 4) (by omega), readField_append _ _ _ _ hb]

/-- Every proper prefix of a well-formed envelope fails to parse, with a `failed to read`
error. -/
theorem readFields_take_envelope (key iv ct sig : Bytes) (n : Nat) (hk : key.length = 32)
    (hiv : iv.length < 2 ^ 32) (hct : ct.length < 2 ^ 32) (hsig : sig.length < 2 ^ 32)
    (hn : n < (envelope key iv ct sig).length) :
    ∃ f, readFields ((envelope key iv ct sig).take n) = .error (.error f) ∧
      f.isParseError = true := by
  rw [envelope_length] at hn
  rw [envelope_eq, hk, uint32_of_lt 32 (by decide)]
  obtain ⟨R2, hR2⟩ : ∃ R2 : Bytes,
      R2 = putUint32 (uint32 ct.length) ++ (ct ++ (putUint32 (uint32 sig.length) ++ (sig ++ []))) :=
    ⟨_, rfl⟩
  obtain ⟨R1, hR1⟩ : ∃ R1 : Bytes, R1 = putUint32 (uint32 iv.length) ++ (iv ++ R2) := ⟨_, rfl⟩
  rw [← hR2, ← hR1]
  by_cases h1 : n < 4
  · obtain ⟨c, hc⟩ := binaryReadUint32_short (List.take n (putUint32 32 ++ (key ++ R1)))
      (by rw [List.length_take]; omega)
    exact ⟨.readKeyLength c, by simp only [readFields, hc, liftRead, bind, Except.bind], rfl⟩
  rw [take_append_long _ _ n (by rw [putUint32_length]; omega), putUint32_length,
    readFields_putUint32]
  by_cases h2 : n - 4 < 32
  · obtain ⟨c, hc⟩ := ioReadFull_short (List.take (n - 4) (key ++ R1)) 32
      (by rw [List.length_take]; omega)
    exact ⟨.readKey c, by simp only [hc, liftRead, bind, Except.bind], rfl⟩
  rw [take_append_long _ _ (n - 4) (by omega), ioReadFull_append_of_length _ _ 32 hk, hk]
  simp only [liftRead, bind, Except.bind]
  subst hR1
  by_cases h3 : n - 4 - 32 < 4 + iv.length
  · obtain ⟨c, hc | hc⟩ := readField_take_short DecryptError.readIVLength
      DecryptError.readIV iv R2 (n - 4 - 32) hiv h3
    · exact ⟨.readIVLength c, by rw [hc], rfl⟩
    · exact ⟨.readIV c, by rw [hc], rfl⟩
  rw [readField_take_long _ _ _ _ _ hiv (by omega)]
  simp only []
  subst hR2
  by_cases h4 : n - 4 - 32 - 4 - iv.length < 4 + ct.length
  · obtain ⟨c, hc | hc⟩ := readField_take_short DecryptError.readCiphertextLength
      DecryptError.readCiphertext ct (putUint32 (uint32 sig.length) ++ (sig ++ []))
      (n - 4 - 32 - 4 - iv.length) hct h4
    · exact ⟨.readCiphertextLength c, by rw [hc], rfl⟩
    · exact ⟨.readCiphertext c, by rw [hc], rfl⟩
  rw [readField_take_long _ _ _ _ _ hct (by omega)]
  simp only []
  obtain ⟨c, hc | hc⟩ := readField_take_short DecryptError.readSignatureLength
    DecryptError.readSignature sig [] (n - 4 - 32 - 4 - iv.length - 4 - ct.length) hsig
    (by omega)
  · exact ⟨.readSignatureLength c, by rw [hc], rfl⟩
  · exact ⟨.readSignature c, by rw [hc], rfl⟩

/-- C5 (amended): for every envelope `e` produced by `EncryptDocument` from a document `d`
with `len(d) + 16 < 2 ^ 32` and every proper prefix `p` of `e`, the empty one included,
`DecryptDocument(p)` fails with one of the parse errors (`failed to read ...`), and so
neither with `signature verification failed` nor with a decryption error. -/
theorem DecryptDocument_truncated (P : Primitives) (hP : P.Lawful) (env : EncryptEnv)
    (d k1 k2 e p : Bytes) (hlen : d.length + 16 < 2 ^ 32)
    (he : EncryptDocument P env d k1 = .ok e) (hp : p <+: e) (hpe : p ≠ e) :
    ∃ f, DecryptDocument P p k2 = .error (.error f) ∧ f.isParseError = true := by
  obtain ⟨⟨h44, _, _⟩, _, rfl⟩ := EncryptDocument_ok P env d k1 e he
  have hk := env.aesKey_length h44
  have hiv := env.iv_length h44
  have hct : (env.ciphertext P d).length = d.length + 16 := hP.1 _ _ _ hk hiv
  have hsig : (env.signature P d).length = 32 := (P.sha3_256 _).property
  have hpt := List.prefix_iff_eq_take.mp hp
  have hlt : p.length <
      (envelope env.aesKey env.iv (env.ciphertext P d) (env.signature P d)).length := by
    rcases Nat.lt_or_ge p.length
      (envelope env.aesKey env.iv (env.ciphertext P d) (env.signature P d)).length with h | h
    · exact h
    · exact absurd (by rw [hpt, List.take_of_length_le h]) hpe
  obtain ⟨f, hf, hparse⟩ := readFields_take_envelope env.aesKey env.iv (env.ciphertext P d)
    (env.signature P d) p.length hk (by omega) (by omega) (by omega) hlt
  refine ⟨f, ?_, hparse⟩
  rw [DecryptDocument_eq, hpt, hf]

/-- C5 (amended) at the sample primitives: the empty input, and the first 60 bytes of the
envelope of `[1, 2, 3]`, fail to parse. -/
theorem DecryptDocument_truncated_witness :
    (∃ f, DecryptDocument samplePrimitives [] [] = .error (.error f) ∧
        f.isParseError = true) ∧
      ∃ f, DecryptDocument samplePrimitives
          ((envelope zeroEnv.aesKey zeroEnv.iv (zeroEnv.ciphertext samplePrimitives [1, 2, 3])
            (zeroEnv.signature samplePrimitives [1, 2, 3])).take 60) [] = .error (.error f) ∧
        f.isParseError = true :=
  ⟨DecryptDocument_truncated samplePrimitives samplePrimitives_lawful zeroEnv
      [1, 2, 3] [] [] _ [] (by decide)
      (EncryptDocument_of_succeeds samplePrimitives zeroEnv [1, 2, 3] [] zeroEnv_succeeds
        (by norm_num [gcmMaxPlaintext]))
      List.nil_prefix (by decide),
    DecryptDocument_truncated samplePrimitives samplePrimitives_lawful zeroEnv
      [1, 2, 3] [] [] _ _ (by decide)
      (EncryptDocument_of_succeeds samplePrimitives zeroEnv [1, 2, 3] [] zeroEnv_succeeds
        (by norm_num [gcmMaxPlaintext]))
      (List.take_prefix _ _) (by decide)⟩

/-- A buffer that holds a length prefix and exactly that many bytes reads as one field. -/
theorem readField_exact (eLen eBody : ReadError → DecryptError) (X : Bytes)
    (hx : X.length = 4 + getUint32 (X.take 4)) :
    readField eLen eBody X = .ok (X.drop 4, []) := by
  have h4 : 4 ≤ X.length := by omega
  have hl : getUint32 (X.take 4) ≤ (X.drop 4).length := by rw [List.length_drop]; omega
  have hl2 : (X.drop 4).length ≤ getUint32 (X.take 4) := by rw [List.length_drop]; omega
  simp only [readField, binaryReadUint32, ioReadFull, h4, hl, if_true, liftRead, bind,
    Except.bind, List.take_of_length_le hl2, List.drop_of_length_le hl2]

/-- The fields read from the first `60 + s` bytes of an envelope whose ciphertext is
exactly `2 ^ 32` bytes long, for `s` the number its first four ciphertext bytes encode: an
empty ciphertext, and `s` bytes of the real ciphertext as the signature. -/
theorem readFields_take_envelope_overflow (key iv ct sig : Bytes) (hk : key.length = 32)
    (hiv : iv.length = 12) (hct : ct.length = 2 ^ 32) :
    ∃ s, readFields ((envelope key iv ct sig).take (60 + getUint32 (ct.take 4))) =
      .ok (key, iv, [], s) := by
  have hiv2 : iv.length < 2 ^ 32 := by omega
  have h0 : uint32 ct.length = 0 := by rw [hct]; norm_num [uint32]
  have hs : getUint32 (ct.take 4) < 2 ^ 32 := by
    have h4 : (ct.take 4).length = 4 := by rw [List.length_take]; omega
    match hc : ct.take 4, h4 with
    | [b0, b1, b2, b3], _ =>
      simp only [getUint32]
      omega
  obtain ⟨R3, hR3⟩ : ∃ R3 : Bytes, R3 = putUint32 (uint32 sig.length) ++ (sig ++ []) :=
    ⟨_, rfl⟩
  have hR3len : 4 ≤ R3.length := by
    rw [hR3, List.length_append, putUint32_length]; omega
  rw [envelope_eq, hk, hiv, h0, uint32_of_lt 32 (by decide), uint32_of_lt 12 (by decide),
    ← hR3,
    take_append_long _ _ _ (by rw [putUint32_length]; omega), putUint32_length,
    take_append_long _ _ _ (by omega), hk,
    take_append_long _ _ _ (by rw [putUint32_length]; omega), putUint32_length,
    take_append_long _ _ _ (by omega), hiv,
    take_append_long _ _ _ (by rw [putUint32_length]; omega), putUint32_length,
    readFields_putUint32, ioReadFull_append_of_length _ _ 32 hk]
  simp only [liftRead, bind, Except.bind]
  have hiv3 := readField_append DecryptError.readIVLength DecryptError.readIV iv
    (putUint32 0 ++ List.take (60 + getUint32 (List.take 4 ct) - 4 - 32 - 4 - 12 - 4) (ct ++ R3))
    hiv2
  rw [hiv, uint32_of_lt 12 (by decide)] at hiv3
  rw [hiv3]
  simp only []
  rw [readField_putUint32 _ _ 0 (by decide)]
  simp only [ioReadFull, Nat.zero_le, if_true, liftRead, List.take_zero, List.drop_zero]
  have hX : (List.take (60 + getUint32 (List.take 4 ct) - 4 - 32 - 4 - 12 - 4) (ct ++ R3)).length =
      4 + getUint32 ((List.take (60 + getUint32 (List.take 4 ct) - 4 - 32 - 4 - 12 - 4)
        (ct ++ R3)).take 4) := by
    rw [List.take_take, List.length_take, List.length_append, hct,
      Nat.min_eq_left (by omega : 4 ≤ 60 + getUint32 (List.take 4 ct) - 4 - 32 - 4 - 12 - 4),
      List.take_append_of_le_length (by omega)]
    omega
  rw [readField_exact _ _ _ hX]
  exact ⟨_, rfl⟩

/-- C5, as stated, fails: the envelope of the document of `2 ^ 32 - 16` zero bytes carries
the ciphertext length prefix 0, and cut after the `60 + s` first bytes (`s` the number
encoded by the first four ciphertext bytes) it parses into four fields, so that
`DecryptDocument` fails at the tag comparison or at the AES-GCM open, not with a parse
error. -/
theorem truncation_misreported_on_doc4GiB : TruncationMisreported zeroEnv doc4GiB := by
  refine ⟨⟨samplePrimitives, samplePrimitives_lawful⟩, ?_⟩
  intro P hP
  have hk := zeroEnv.aesKey_length (by simp [zeroEnv])
  have hiv := zeroEnv.iv_length (by simp [zeroEnv])
  have hd : doc4GiB.length = 2 ^ 32 - 16 := by
    unfold doc4GiB; exact List.length_replicate _ _
  have hmax : doc4GiB.length ≤ gcmMaxPlaintext := by rw [hd]; norm_num [gcmMaxPlaintext]
  have hct : (zeroEnv.ciphertext P doc4GiB).length = 2 ^ 32 := by
    rw [EncryptEnv.ciphertext, hP.1 _ _ _ hk hiv, hd]
    norm_num
  have hs : getUint32 ((zeroEnv.ciphertext P doc4GiB).take 4) < 2 ^ 32 := by
    have h4 : ((zeroEnv.ciphertext P doc4GiB).take 4).length = 4 := by
      rw [List.length_take]; omega
    match hc : (zeroEnv.ciphertext P doc4GiB).take 4, h4 with
    | [b0, b1, b2, b3], _ =>
      simp only [getUint32]
      omega
  obtain ⟨s, hread⟩ := readFields_take_envelope_overflow zeroEnv.aesKey zeroEnv.iv
    (zeroEnv.ciphertext P doc4GiB) (zeroEnv.signature P doc4GiB) hk hiv hct
  have hne : (envelope zeroEnv.aesKey zeroEnv.iv (zeroEnv.ciphertext P doc4GiB)
        (zeroEnv.signature P doc4GiB)).take
          (60 + getUint32 ((zeroEnv.ciphertext P doc4GiB).take 4)) ≠
      envelope zeroEnv.aesKey zeroEnv.iv (zeroEnv.ciphertext P doc4GiB)
        (zeroEnv.signature P doc4GiB) := by
    intro h
    have hl := congrArg List.length h
    rw [List.length_take, envelope_length, hct] at hl
    omega
  rcases checkAndOpen_nil P zeroEnv.aesKey zeroEnv.iv s hk hiv with h | h
  · exact ⟨_, _, .signatureVerificationFailed,
      EncryptDocument_of_succeeds P zeroEnv doc4GiB [] zeroEnv_succeeds hmax,
      List.take_prefix _ _, hne, by rw [DecryptDocument_eq, hread]; exact h, rfl⟩
  · exact ⟨_, _, .decryptFailed,
      EncryptDocument_of_succeeds P zeroEnv doc4GiB [] zeroEnv_succeeds hmax,
      List.take_prefix _ _, hne, by rw [DecryptDocument_eq, hread]; exact h, rfl⟩

end storage

theorem hexEncode_length (l : Bytes) : (hexEncode l).length = 2 * l.length := by
  induction l with
  | nil => rfl
  | cons v rest ih => simp only [hexEncode, List.length_cons, ih]; omega

set_option maxRecDepth 100000 in
theorem hexDigits_mem (v : Byte) :
    hextable.getD (v.val >>> 4) '0' ∈ hextable ∧ hextable.getD (v.val &&& 0x0f) '0' ∈ hextable := by
  revert v
  decide

set_option maxRecDepth 100000 in
theorem fromHexChar_hexDigits (v : Byte) :
    fromHexChar (hextable.getD (v.val >>> 4) '0') = some (v.val >>> 4) ∧
      fromHexChar (hextable.getD (v.val &&& 0x0f) '0') = some (v.val &&& 0x0f) ∧
      ((v.val >>> 4) <<< 4 ||| (v.val &&& 0x0f)) % 256 = v.val := by
  revert v
  decide

theorem hexEncode_mem (l : Bytes) : ∀ c ∈ hexEncode l, c ∈ hextable := by
  induction l with
  | nil => intro c hc; simp [hexEncode] at hc
  | cons v rest ih =>
    intro c hc
    simp only [hexEncode, List.mem_cons] at hc
    rcases hc with rfl | rfl | hc
    · exact (hexDigits_mem v).1
    · exact (hexDigits_mem v).2
    · exact ih c hc

theorem hexDecode_hexEncode (l : Bytes) : hexDecode (hexEncode l) = .ok l := by
  induction l with
  | nil => rfl
  | cons v rest ih =>
    obtain ⟨h1, h2, h3⟩ := fromHexChar_hexDigits v
    simp only [hexEncode, hexDecode, h1, h2, ih]
    congr 2
    exact Fin.ext h3

theorem hexEncodeToString_injective (x y : Bytes)
    (h : hexEncodeToString x = hexEncodeToString y) : x = y := by
  have h2 : hexDecode (hexEncode x) = hexDecode (hexEncode y) := by
    have := congrArg String.data h
    simp only [hexEncodeToString] at this
    rw [this]
  rw [hexDecode_hexEncode, hexDecode_hexEncode] at h2
  exact Except.ok.inj h2

namespace storage

/-- C7: `CalculateDocumentHash` is a function of the document bytes alone (for the given
SHA3-256), defined on every byte sequence, the empty one included; its result has exactly
64 characters, all of them among `0123456789abcdef`, and hex-decodes to the 32-byte digest
SHA3-256(d). -/
theorem CalculateDocumentHash_spec (P : Primitives) (d : Bytes) :
    (CalculateDocumentHash P d).length = 64 ∧
      (∀ c ∈ (CalculateDocumentHash P d).data, c ∈ "0123456789abcdef".data) ∧
      hexDecodeString (CalculateDocumentHash P d) = .ok (P.sha3_256 d).val ∧
      (P.sha3_256 d).val.length = 32 := by
  refine ⟨?_, ?_, ?_, (P.sha3_256 d).property⟩
  · show (hexEncode (P.sha3_256 d).val).length = 64
    rw [hexEncode_length, (P.sha3_256 d).property]
  · exact hexEncode_mem _
  · exact hexDecode_hexEncode _

end storage

/-- C8, the code: the four fingerprint functions do not follow one rule. On a file holding
`d`, `simulateHashDocument` returns `CalculateDocumentHash(d)` with `0x` put in front, which
is never the string `CalculateDocumentHash(d)`; `GetDocumentHash` and `zkp.HashDocument`
take SHA-256 where `CalculateDocumentHash` takes SHA3-256, so their fingerprint differs
from it whenever the two digests of `d` differ. -/
theorem fingerprint_functions_disagree (P : Primitives) (d : Bytes) (path : String) :
    server.simulateHashDocument P (fun _ => .ok d) path =
        "0x" ++ storage.CalculateDocumentHash P d ∧
      server.simulateHashDocument P (fun _ => .ok d) path ≠ storage.CalculateDocumentHash P d ∧
      crypto.GetDocumentHash P (fun _ => .ok d) path =
        .ok (hexEncodeToString (zkp.HashDocument P d)) ∧
      zkp.HashDocument P d = (P.sha256 d).val ∧
      ((P.sha256 d).val ≠ (P.sha3_256 d).val →
        crypto.GetDocumentHash P (fun _ => .ok d) path ≠
          .ok (storage.CalculateDocumentHash P d)) := by
  refine ⟨rfl, ?_, rfl, rfl, ?_⟩
  · intro h
    have hl := congrArg String.length h
    simp only [server.simulateHashDocument, storage.CalculateDocumentHash,
      String.length_append] at hl
    have : "0x".length = 2 := by decide
    omega
  · intro hne h
    simp only [crypto.GetDocumentHash, storage.CalculateDocumentHash, Except.ok.injEq] at h
    exact hne (hexEncodeToString_injective _ _ h)

namespace blockchain

theorem Registry.get_set_self (m : Registry) (k v : String) : (m.set k v).get k = some v := by
  induction m with
  | nil => simp [Registry.set, Registry.get]
  | cons e m ih =>
    obtain ⟨k1, v1⟩ := e
    by_cases h : k1 = k
    · simp [Registry.set, Registry.get, h]
    · simp [Registry.set, Registry.get, h, ih]

theorem Registry.get_set_of_ne (m : Registry) (k v k2 : String) (h : k ≠ k2) :
    (m.set k v).get k2 = m.get k2 := by
  induction m with
  | nil => simp [Registry.set, Registry.get, h]
  | cons e m ih =>
    obtain ⟨k1, v1⟩ := e
    by_cases h1 : k1 = k
    · subst h1
      simp [Registry.set, Registry.get, h]
    · by_cases h2 : k1 = k2
      · subst h2
        simp [Registry.set, Registry.get, h1]
      · simp [Registry.set, Registry.get, h1, h2, ih]

/-- C9, as stated, fails: with `h` registered under `cidA`, registering `h` with `cidB`
returns the ledger reference, not an error, and the registry then holds `cidB` for `h`. -/
theorem RegisterDocument_no_conflict :
    RegisterDocument okEnv [("h", "cidA")] ⟨1⟩ "h" "cidB" [] =
      ([("h", "cidB")], .ok "0xabc") := by
  rfl

/-- C9 (amended): for every fingerprint `f` already registered with locator `l1` and every
locator `l2` different from `l1`, `RegisterDocument(f, l2)` makes no conflict check: it
replaces `l1` by `l2` in the registry, and it returns what it returns for a fingerprint
never registered, which is the ledger reference when saving the snapshot and the ledger
steps succeed. -/
theorem RegisterDocument_overwrites (env : RegisterEnv) (m : Registry) (key : PrivateKey)
    (f l1 l2 : String) (sig : Bytes) (h1 : m.get f = some l1) (hne : l2 ≠ l1) :
    (RegisterDocument env m key f l2 sig).1.get f = some l2 ∧
      (RegisterDocument env m key f l2 sig).1.get f ≠ m.get f ∧
      (RegisterDocument env m key f l2 sig).2 = (RegisterDocument env [] key f l2 sig).2 ∧
      (env.saveRegistry = none → env.getTransactionAuth = none → env.chainID = none →
        env.signTx = none → env.sendTransaction = none →
        (RegisterDocument env m key f l2 sig).2 = .ok env.txHash) := by
  refine ⟨Registry.get_set_self m f l2, ?_, rfl, ?_⟩
  · show (m.set f l2).get f ≠ m.get f
    rw [Registry.get_set_self, h1]
    intro h
    exact hne (Option.some.inj h)
  · intro e1 e2 e3 e4 e5
    simp only [RegisterDocument, e1, e2, e3, e4, e5]

/-- C9 (amended) at the registry holding `cidA` for `h`. -/
theorem RegisterDocument_overwrites_witness :
    (RegisterDocument okEnv [("h", "cidA")] ⟨1⟩ "h" "cidB" []).1.get "h" = some "cidB" :=
  (RegisterDocument_overwrites okEnv [("h", "cidA")] ⟨1⟩ "h" "cidA" "cidB" []
    (by decide) (by decide)).1

/-- C10, as stated, fails: after registering `h` with `cidA` and then with `cidB`, the
registry holds `cidB` for `h`, the locator of the second call, not that of the first. -/
theorem registerAll_first_writer_loses :
    (registerAll [] [⟨okEnv, ⟨1⟩, "h", "cidA", []⟩, ⟨okEnv, ⟨1⟩, "h", "cidB", []⟩]).get "h" =
        some "cidB" ∧
      firstLocator [⟨okEnv, ⟨1⟩, "h", "cidA", []⟩, ⟨okEnv, ⟨1⟩, "h", "cidB", []⟩] "h" =
        some "cidA" := by
  decide

/-- C10 (amended): last writer wins. For every sequence of `RegisterDocument` calls, the
locator stored for a fingerprint `f` after the sequence is the locator of the last call
made with `f`, whatever that call returned, and the locator stored before the sequence
when no call was made with `f`; a later registration of `f` overwrites an earlier one. -/
theorem registerAll_last_writer_wins (m : Registry) (calls : List Call) (f : String) :
    (registerAll m calls).get f =
      match lastLocator calls f with
      | some l => some l
      | none => m.get f := by
  induction calls generalizing m with
  | nil => rfl
  | cons c cs ih =>
    have hstep : registerAll m (c :: cs) = registerAll (m.set c.documentHash c.ipfsCID) cs := rfl
    rw [hstep, ih]
    simp only [lastLocator, List.reverse_cons, List.find?_append]
    cases hfind : List.find? (fun c => decide (c.documentHash = f)) cs.reverse with
    | some c2 => simp
    | none =>
      by_cases hc : c.documentHash = f
      · subst hc
        simp [Registry.get_set_self]
      · simp [hc, Registry.get_set_of_ne _ _ _ _ hc]

end blockchain

namespace blockchain

theorem Registry.get_eq_none_of_not_mem (m : Registry) (k : String)
    (h : k ∉ m.map Prod.fst) : m.get k = none := by
  induction m with
  | nil => rfl
  | cons e m ih =>
    obtain ⟨k1, v1⟩ := e
    simp only [List.map_cons, List.mem_cons, not_or] at h
    simp only [Registry.get, if_neg (Ne.symm h.1)]
    exact ih h.2

theorem Registry.keys_set (m : Registry) (k v : String) (x : String) :
    x ∈ (m.set k v).map Prod.fst ↔ x = k ∨ x ∈ m.map Prod.fst := by
  induction m with
  | nil => simp [Registry.set]
  | cons e m ih =>
    obtain ⟨k1, v1⟩ := e
    by_cases h : k1 = k
    · subst h
      simp [Registry.set]
    · simp only [Registry.set, if_neg h, List.map_cons, List.mem_cons, ih]
      tauto

theorem Registry.set_wellFormed (m : Registry) (k v : String) (hm : m.WellFormed) :
    (m.set k v).WellFormed := by
  induction m with
  | nil => simp [Registry.set, Registry.WellFormed]
  | cons e m ih =>
    obtain ⟨k1, v1⟩ := e
    simp only [Registry.WellFormed, List.map_cons, List.nodup_cons] at hm
    by_cases h : k1 = k
    · subst h
      simp only [Registry.set, if_true, Registry.WellFormed, List.map_cons, List.nodup_cons]
      exact hm
    · simp only [Registry.set, if_neg h, Registry.WellFormed, List.map_cons, List.nodup_cons]
      refine ⟨?_, ih hm.2⟩
      intro hmem
      rcases (Registry.keys_set m k v k1).mp hmem with h1 | h1
      · exact h h1
      · exact hm.1 h1

theorem Registry.get_merge (m0 entries : Registry) (he : entries.WellFormed) (k : String) :
    (Registry.merge m0 entries).get k =
      match entries.get k with
      | some v => some v
      | none => m0.get k := by
  induction entries generalizing m0 with
  | nil => rfl
  | cons e es ih =>
    obtain ⟨k1, v1⟩ := e
    simp only [Registry.WellFormed, List.map_cons, List.nodup_cons] at he
    have hstep : Registry.merge m0 ((k1, v1) :: es) = Registry.merge (m0.set k1 v1) es := rfl
    rw [hstep, ih (m0.set k1 v1) he.2]
    by_cases h : k1 = k
    · subst h
      rw [Registry.get_eq_none_of_not_mem es k1 he.1]
      simp [Registry.get, Registry.get_set_self]
    · simp only [Registry.get, if_neg h, Registry.get_set_of_ne _ _ _ _ h]

theorem sampleOfRaw_sampleRaw (m : Registry) : sampleOfRaw (sampleRaw m) = m := by
  induction m with
  | nil => rfl
  | cons e m ih =>
    obtain ⟨k, v⟩ := e
    have hk : List.map Char.ofNat (List.map Char.toNat k.data) = k.data := by
      rw [List.map_map]
      conv_rhs => rw [← List.map_id k.data]
      exact List.map_congr_left fun c _ => Char.ofNat_toNat c
    have hv : List.map Char.ofNat (List.map Char.toNat v.data) = v.data := by
      rw [List.map_map]
      conv_rhs => rw [← List.map_id v.data]
      exact List.map_congr_left fun c _ => Char.ofNat_toNat c
    simp only [sampleRaw, sampleOfRaw, List.map_cons] at ih ⊢
    rw [ih, hk, hv]

theorem sampleUnmarshal_sampleMarshal (m m0 : Registry) :
    ∃ data, sampleMarshal m = .ok data ∧
      sampleUnmarshal data m0 = (Registry.merge m0 m, none) := by
  refine ⟨_, rfl, ?_⟩
  have hd : List.map Fin.val
      ((Nat.digits 256 (Encodable.encode (sampleRaw m))).map fun d =>
        (⟨d % 256, Nat.mod_lt _ (by decide)⟩ : Byte)) =
      Nat.digits 256 (Encodable.encode (sampleRaw m)) := by
    rw [List.map_map]
    conv_rhs => rw [← List.map_id (Nat.digits 256 (Encodable.encode (sampleRaw m)))]
    apply List.map_congr_left
    intro d hd
    exact Nat.mod_eq_of_lt (Nat.digits_lt_base (by decide) hd)
  simp only [sampleUnmarshal, hd, Nat.ofDigits_digits, Encodable.encodek,
    sampleOfRaw_sampleRaw]

theorem sampleJson_lawful : sampleJson.Lawful := by
  intro m hm
  obtain ⟨data, h1, _⟩ := sampleUnmarshal_sampleMarshal m []
  refine ⟨data, h1, ?_⟩
  intro m0
  obtain ⟨data2, h2, h3⟩ := sampleUnmarshal_sampleMarshal m m0
  have hdd : data2 = data := by
    rw [h1] at h2
    exact (Except.ok.inj h2).symm
  subst hdd
  refine ⟨by simp only [sampleJson, h3], ?_⟩
  intro k
  simp only [sampleJson, h3]
  exact Registry.get_merge m0 m hm k

end blockchain

namespace blockchain

/-- Loading, into an empty registry, the file a successful save of `m` wrote gives a
registry with the lookups of `m`. -/
theorem loadRegistry_saveRegistry (J : JsonCodec) (hJ : J.Lawful) (m : Registry)
    (hm : m.WellFormed) (disk0 : Disk) (m0 : Registry) :
    ∃ r, loadRegistry J none (saveRegistry J .written m disk0).1 m0 = (r, .ok ()) ∧
      (saveRegistry J .written m disk0).2 = .ok () ∧
      ∀ k, r.get k = match m.get k with
        | some v => some v
        | none => m0.get k := by
  obtain ⟨data, hdata, hun⟩ := hJ m hm
  obtain ⟨herr, hget⟩ := hun m0
  refine ⟨(J.unmarshal data m0).1, ?_, ?_, hget⟩
  · simp only [saveRegistry, hdata, loadRegistry]
    cases hu : J.unmarshal data m0 with
    | mk r e =>
      rw [hu] at herr
      simp only at herr
      subst herr
      rfl
  · simp only [saveRegistry, hdata]

/-- C14, as stated, fails: on the empty registry, a registration of `(h, cid)` whose
transaction the node refuses returns an error, and the registry holds `cid` for `h`. -/
theorem RegisterDocument_not_atomic :
    RegisterDocument sendFailsEnv [] ⟨1⟩ "h" "cid" [] =
      ([("h", "cid")], .error "failed to send transaction: connection refused") := by
  rfl

/-- C14 (amended): `RegisterDocument` stores the entry and saves the snapshot before the
ledger steps, and undoes nothing. Whatever it returns, an error included, the registry
holds the locator `l` for `f` after the call, every other fingerprint is as before, and,
unless marshalling or writing the snapshot failed, the registry file holds the registry
with the new entry. The call returns the error of the first step that fails, in the order
save (marshal, then write), transaction auth, chain id, signing, sending, each under its
own message, and the ledger reference when no step fails. -/
theorem RegisterDocument_keeps_entry (J : JsonCodec) (env : RegisterEnv)
    (disk : Disk) (m : Registry) (key : PrivateKey) (f l : String) (sig : Bytes) :
    (RegisterDocument env m key f l sig).1 = m.set f l ∧
      (RegisterDocument env m key f l sig).1.get f = some l ∧
      (∀ g, f ≠ g → (RegisterDocument env m key f l sig).1.get g = m.get g) ∧
      (∀ write, (RegisterDocumentOnDisk J write env disk m key f l sig).2.1 = m.set f l) ∧
      (∀ data, J.marshalIndent (m.set f l) = .ok data →
        (RegisterDocumentOnDisk J .written env disk m key f l sig).1 =
          { registryFile := some data }) ∧
      (∀ err, env.saveRegistry = some err →
        (RegisterDocument env m key f l sig).2 =
          .error ("failed to save document registry: " ++ err)) ∧
      (∀ err, env.saveRegistry = none → env.getTransactionAuth = some err →
        (RegisterDocument env m key f l sig).2 =
          .error ("failed to create transaction auth: " ++ err)) ∧
      (∀ err, env.saveRegistry = none → env.getTransactionAuth = none →
        env.chainID = some err →
        (RegisterDocument env m key f l sig).2 = .error ("failed to get chain ID: " ++ err)) ∧
      (∀ err, env.saveRegistry = none → env.getTransactionAuth = none → env.chainID = none →
        env.signTx = some err →
        (RegisterDocument env m key f l sig).2 =
          .error ("failed to sign transaction: " ++ err)) ∧
      (∀ err, env.saveRegistry = none → env.getTransactionAuth = none → env.chainID = none →
        env.signTx = none → env.sendTransaction = some err →
        (RegisterDocument env m key f l sig).2 =
          .error ("failed to send transaction: " ++ err)) ∧
      (env.saveRegistry = none → env.getTransactionAuth = none → env.chainID = none →
        env.signTx = none → env.sendTransaction = none →
        (RegisterDocument env m key f l sig).2 = .ok env.txHash) ∧
      (∀ write err, J.marshalIndent (m.set f l) = .error err →
        RegisterDocumentOnDisk J write env disk m key f l sig =
          (disk, m.set f l,
            .error ("failed to save document registry: " ++
              ("failed to marshal registry: " ++ err)))) ∧
      (∀ data err left, J.marshalIndent (m.set f l) = .ok data →
        RegisterDocumentOnDisk J (.failed err left) env disk m key f l sig =
          ({ registryFile := left }, m.set f l,
            .error ("failed to save document registry: " ++ err))) ∧
      (∀ data, J.marshalIndent (m.set f l) = .ok data →
        (RegisterDocumentOnDisk J .written env disk m key f l sig).2.2 =
          (RegisterDocument { env with saveRegistry := none } m key f l sig).2) := by
  refine ⟨rfl, Registry.get_set_self m f l, fun g hg => Registry.get_set_of_ne m f l g hg,
    fun _ => rfl, ?_, ?_, ?_, ?_, ?_, ?_, ?_, ?_, ?_, ?_⟩
  · intro data hdata
    simp only [RegisterDocumentOnDisk, saveRegistry, hdata]
  · intro err e1
    simp only [RegisterDocument, e1]
  · intro err e1 e2
    simp only [RegisterDocument, e1, e2]
  · intro err e1 e2 e3
    simp only [RegisterDocument, e1, e2, e3]
  · intro err e1 e2 e3 e4
    simp only [RegisterDocument, e1, e2, e3, e4]
  · intro err e1 e2 e3 e4 e5
    simp only [RegisterDocument, e1, e2, e3, e4, e5]
  · intro e1 e2 e3 e4 e5
    simp only [RegisterDocument, e1, e2, e3, e4, e5]
  · intro write err hm
    simp only [RegisterDocumentOnDisk, saveRegistry, hm, RegisterDocument]
  · intro data err left hm
    simp only [RegisterDocumentOnDisk, saveRegistry, hm, RegisterDocument]
  · intro data hm
    simp only [RegisterDocumentOnDisk, saveRegistry, hm]

/-- An unknown fingerprint that is a hex string gets a computed CID. -/
theorem GetDocumentDetails_unknown (P : Primitives) (cidString : Bytes → String)
    (m : Registry) (documentHash : String) (h : m.get documentHash = none) :
    (∀ e, hexDecodeString documentHash = .error e →
        GetDocumentDetails P cidString m documentHash =
          DocumentDetails.failure (.invalidDocumentHash e)) ∧
      ∀ hashBytes, hexDecodeString documentHash = .ok hashBytes →
        GetDocumentDetails P cidString m documentHash =
          DocumentDetails.success
            (cidString ((0x12 : Byte) :: (0x20 : Byte) :: (P.sha256 hashBytes).val)) := by
  constructor
  · intro e he
    simp only [GetDocumentDetails, h, he]
  · intro hashBytes hb
    simp only [GetDocumentDetails, h, hb, multihashSum]

/-- C12, as stated, fails: on the registry holding only `00`, the lookup of the unknown
fingerprint `ab` returns a CID, the boolean `true` and no error. -/
theorem lookup_of_unknown_succeeds : UnknownLookupSucceeds [("00", "cidA")] "ab" := by
  refine ⟨by decide, ?_⟩
  intro P cidString
  exact ⟨_, (GetDocumentDetails_unknown P cidString [("00", "cidA")] "ab" (by decide)).2
    [⟨0xab, by decide⟩] rfl⟩

/-- C12 (amended): for every fingerprint that has no entry in the registry,
`GetDocumentDetails` returns the error `invalid document hash`, the boolean `false` and no
locator when the fingerprint is not a hex string; when it is one, it returns no error, the
boolean `true` and a locator computed from the fingerprint, the version 0 CID of the
SHA2-256 multihash of the decoded bytes. -/
theorem GetDocumentDetails_of_unknown (P : Primitives) (cidString : Bytes → String)
    (m : Registry) (documentHash : String) (h : m.get documentHash = none) :
    (∀ e, hexDecodeString documentHash = .error e →
        GetDocumentDetails P cidString m documentHash =
            DocumentDetails.failure (.invalidDocumentHash e) ∧
          (GetDocumentDetails P cidString m documentHash).found = false ∧
          (GetDocumentDetails P cidString m documentHash).ipfsCID = "") ∧
      ∀ hashBytes, hexDecodeString documentHash = .ok hashBytes →
        (GetDocumentDetails P cidString m documentHash).err = none ∧
          (GetDocumentDetails P cidString m documentHash).found = true ∧
          (GetDocumentDetails P cidString m documentHash).ipfsCID =
            cidString ((0x12 : Byte) :: (0x20 : Byte) :: (P.sha256 hashBytes).val) := by
  obtain ⟨h1, h2⟩ := GetDocumentDetails_unknown P cidString m documentHash h
  constructor
  · intro e he
    rw [h1 e he]
    exact ⟨rfl, rfl, rfl⟩
  · intro hashBytes hb
    rw [h2 hashBytes hb]
    exact ⟨rfl, rfl, rfl⟩

/-- C12 (amended) on the empty registry: `zz` is no hex string and gets the error. -/
theorem GetDocumentDetails_of_unknown_witness :
    (GetDocumentDetails storage.samplePrimitives (fun _ => "Qm") [] "zz").found = false :=
  ((GetDocumentDetails_of_unknown storage.samplePrimitives (fun _ => "Qm") [] "zz" rfl).1
    (.invalidByte 'z') rfl).2.1

end blockchain

theorem startsWith_append (p s : String) : startsWith (p ++ s) p = true := by
  simp [startsWith, String.data_append]

theorem sliceFrom_append (p s : String) : sliceFrom (p ++ s) p.length = s := by
  show String.mk (List.drop p.data.length (p ++ s).data) = s
  rw [String.data_append, List.drop_left]

namespace crypto

theorem sampleScheme_lawful : sampleScheme.Lawful := by
  intro seed hseed
  refine ⟨⟨seed, rfl, ?_⟩, ⟨seed, rfl, ?_⟩, ?_⟩
  · simp [sampleScheme, hseed]
  · simp [sampleScheme, hseed]
  · intro message
    simp [sampleScheme]

/-- When `GenerateKeypair` returns key bytes, they unmarshal to a key pair of the scheme,
which the signer holds after the call. -/
theorem GenerateKeypair_ok (S : SignScheme) (hS : S.Lawful) (rand : Bytes)
    (ds : DilithiumSigner S) (pub priv : Bytes)
    (hgen : (GenerateKeypair S rand ds).2 = .ok (pub, priv)) :
    ∃ seed, seed.length = 32 ∧
      S.unmarshalBinaryPublicKey pub = .ok (S.deriveKey seed).1 ∧
      S.unmarshalBinaryPrivateKey priv = .ok (S.deriveKey seed).2 ∧
      (GenerateKeypair S rand ds).1.privateKey = some (S.deriveKey seed).2 := by
  unfold GenerateKeypair generateKey at hgen ⊢
  by_cases h32 : 32 ≤ rand.length
  · have hl : (rand.take 32).length = 32 := by rw [List.length_take]; omega
    obtain ⟨⟨pb, hpb, hupb⟩, ⟨sb, hsb, husb⟩, _⟩ := hS (rand.take 32) hl
    simp only [ioReadFull, h32, if_true, hpb, hsb, Except.ok.injEq, Prod.mk.injEq] at hgen ⊢
    obtain ⟨rfl, rfl⟩ := hgen
    exact ⟨rand.take 32, hl, hupb, husb, rfl⟩
  · by_cases hz : rand.length = 0
    · simp only [ioReadFull, h32, hz, if_true, if_false] at hgen
      cases hgen
    · simp only [ioReadFull, h32, hz, if_false] at hgen
      cases hgen

/-- C18: for every key pair `(pub, priv)` returned by `GenerateKeypair` and every document
`d` held in a readable file, `SignDocument` with `priv` (on any signer), and `SignDocument`
with no key bytes on the signer that generated the pair, return a signature, and
`VerifySignature` of the document, that signature and `pub` returns `(true, nil)`. -/
theorem SignDocument_VerifySignature (S : SignScheme) (hS : S.Lawful) (rand : Bytes)
    (fs : FileSystem) (docPath : String) (d : Bytes) (ds ds2 : DilithiumSigner S)
    (pub priv : Bytes) (hfile : fs docPath = .ok d)
    (hgen : (GenerateKeypair S rand ds).2 = .ok (pub, priv)) :
    (∃ sig, (SignDocument S fs ds2 docPath (some priv)).2 = .ok sig ∧
        VerifySignature S fs docPath sig pub = .ok true) ∧
      ∃ sig, (SignDocument S fs (GenerateKeypair S rand ds).1 docPath none).2 = .ok sig ∧
        VerifySignature S fs docPath sig pub = .ok true := by
  obtain ⟨seed, hseed, hpub, hpriv, hheld⟩ := GenerateKeypair_ok S hS rand ds pub priv hgen
  obtain ⟨_, _, hverify⟩ := hS seed hseed
  constructor
  · refine ⟨S.sign (S.deriveKey seed).2 d, ?_, ?_⟩
    · simp only [SignDocument, LoadPrivateKey, hpriv, hfile]
    · simp only [VerifySignature, hfile, hpub, hverify d]
  · refine ⟨S.sign (S.deriveKey seed).2 d, ?_, ?_⟩
    · simp only [SignDocument, hheld, hfile]
    · simp only [VerifySignature, hfile, hpub, hverify d]

/-- C18 at the sample scheme: the key pair of 32 zero bytes and the document `[1, 2, 3]`. -/
theorem SignDocument_VerifySignature_witness :
    ∃ sig, (SignDocument sampleScheme (fun _ => .ok [1, 2, 3]) (NewDilithiumSigner sampleScheme)
          "doc.txt" (some (List.replicate 32 0))).2 = .ok sig ∧
      VerifySignature sampleScheme (fun _ => .ok [1, 2, 3]) "doc.txt" sig
        (List.replicate 32 0) = .ok true :=
  (SignDocument_VerifySignature sampleScheme sampleScheme_lawful (List.replicate 32 0)
    (fun _ => .ok [1, 2, 3]) "doc.txt" [1, 2, 3] (NewDilithiumSigner sampleScheme)
    (NewDilithiumSigner sampleScheme) (List.replicate 32 0) (List.replicate 32 0) rfl rfl).1

/-- C19: for every readable document, `VerifySignature` returns an error only when the
public key bytes do not unmarshal; when they do, it returns the verdict of the scheme with
a nil error, so `false` and no error for a signature that does not verify, whatever its
bytes. -/
theorem VerifySignature_error_only_malformed (S : SignScheme) (fs : FileSystem)
    (docPath : String) (d signature publicKeyBytes : Bytes) (hfile : fs docPath = .ok d) :
    (∀ e, VerifySignature S fs docPath signature publicKeyBytes = .error e →
        ∃ cause, S.unmarshalBinaryPublicKey publicKeyBytes = .error cause ∧
          e = "failed to unmarshal public key: " ++ cause) ∧
      (∀ publicKey, S.unmarshalBinaryPublicKey publicKeyBytes = .ok publicKey →
        VerifySignature S fs docPath signature publicKeyBytes =
          .ok (S.verify publicKey d signature)) ∧
      ∀ publicKey, S.unmarshalBinaryPublicKey publicKeyBytes = .ok publicKey →
        S.verify publicKey d signature = false →
        VerifySignature S fs docPath signature publicKeyBytes = .ok false := by
  refine ⟨?_, ?_, ?_⟩
  · intro e he
    cases hu : S.unmarshalBinaryPublicKey publicKeyBytes with
    | error cause =>
      simp only [VerifySignature, hfile, hu, Except.error.injEq] at he
      exact ⟨cause, rfl, he.symm⟩
    | ok publicKey =>
      simp only [VerifySignature, hfile, hu] at he
      cases he
  · intro publicKey hu
    simp only [VerifySignature, hfile, hu]
  · intro publicKey hu hv
    simp only [VerifySignature, hfile, hu, hv]

/-- C19 at the sample scheme: a well-formed key and a signature that does not match give
`false` and no error. -/
theorem VerifySignature_error_only_malformed_witness :
    VerifySignature sampleScheme (fun _ => .ok [1, 2, 3]) "doc.txt" [9]
      (List.replicate 32 0) = .ok false :=
  (VerifySignature_error_only_malformed sampleScheme (fun _ => .ok [1, 2, 3]) "doc.txt"
    [1, 2, 3] [9] (List.replicate 32 0) rfl).2.2 (List.replicate 32 0) rfl (by decide)

end crypto

namespace blockchain

/-- C20: for every string `s` that does not itself start with `0x`,
`LoadPrivateKey("0x" ++ s)` gives the same result as `LoadPrivateKey(s)`, the key or the
failure `crypto.HexToECDSA` gives for `s`; and for every string `s` whatever,
`LoadPrivateKey("0x" ++ s)` is `crypto.HexToECDSA` of `s`: exactly one leading `0x` is
removed. -/
theorem LoadPrivateKey_strips_0x (hexToECDSA : String → Except String PrivateKey)
    (s : String) (hs : startsWith s "0x" = false) :
    LoadPrivateKey hexToECDSA ("0x" ++ s) = LoadPrivateKey hexToECDSA s ∧
      ∀ t : String, LoadPrivateKey hexToECDSA ("0x" ++ t) =
        match hexToECDSA t with
        | .error err => .error ("failed to load private key: " ++ err)
        | .ok privateKey => .ok privateKey := by
  have h2 : ∀ t : String, LoadPrivateKey hexToECDSA ("0x" ++ t) =
      match hexToECDSA t with
      | .error err => .error ("failed to load private key: " ++ err)
      | .ok privateKey => .ok privateKey := by
    intro t
    have hl : sliceFrom ("0x" ++ t) 2 = t := sliceFrom_append "0x" t
    simp only [LoadPrivateKey, startsWith_append, if_true, hl]
  refine ⟨?_, h2⟩
  rw [h2 s]
  simp only [LoadPrivateKey, hs, Bool.false_eq_true, if_false]

/-- C20 at the key `abc`, with and without the two characters in front. -/
theorem LoadPrivateKey_strips_0x_witness :
    LoadPrivateKey sampleHexToECDSA ("0x" ++ "abc") = LoadPrivateKey sampleHexToECDSA "abc" :=
  (LoadPrivateKey_strips_0x sampleHexToECDSA "abc" (by decide)).1

end blockchain

namespace blockchain

/-- A client created in a new process on the disk a successful save of `m` wrote loads a
registry with the lookups of `m`. -/
theorem NewBlockchainClient_saved (J : JsonCodec) (hJ : J.Lawful) (m : Registry)
    (hm : m.WellFormed) (disk0 : Disk) :
    ∃ r, NewBlockchainClient J ⟨none, none⟩ (saveRegistry J .written m disk0).1 [] =
        (r, .ok ()) ∧ ∀ k, r.get k = m.get k := by
  obtain ⟨r, h1, _, h3⟩ := loadRegistry_saveRegistry J hJ m hm disk0 []
  refine ⟨r, by simp only [NewBlockchainClient, h1], ?_⟩
  intro k
  rw [h3 k]
  cases m.get k <;> rfl

/-- Whatever the node and the file system answer, the creation of a client on that disk
fails or loads a registry with the lookups of `m`. -/
theorem NewBlockchainClient_saved_cases (J : JsonCodec) (hJ : J.Lawful) (m : Registry)
    (hm : m.WellFormed) (disk0 : Disk) (c : ClientEnv) :
    (∃ r e, NewBlockchainClient J c (saveRegistry J .written m disk0).1 [] = (r, .error e)) ∨
      ∃ r, NewBlockchainClient J c (saveRegistry J .written m disk0).1 [] = (r, .ok ()) ∧
        ∀ k, r.get k = m.get k := by
  obtain ⟨dial, readFile⟩ := c
  cases dial with
  | some e => exact Or.inl ⟨_, _, rfl⟩
  | none =>
    cases readFile with
    | some e =>
      obtain ⟨data, hdata, _⟩ := hJ m hm
      refine Or.inl ⟨[], "failed to load document registry: " ++
        ("failed to read registry file: " ++ e), ?_⟩
      simp only [NewBlockchainClient, loadRegistry, saveRegistry, hdata]
    | none => exact Or.inr (NewBlockchainClient_saved J hJ m hm disk0)

end blockchain

namespace integrate

/-- C16: for every fingerprint `f` that the registry file holds with locator `l` and every
locator `l2` different from `l`, `verifyAndRetrieveDocument` called with `l2` and `f` is
ended by `log.Fatal`, when the client cannot be created or else at the comparison of the
CIDs, both before anything is fetched or written: no output file is written. -/
theorem verifyAndRetrieveDocument_registry_mismatch (P : Primitives) (S : crypto.SignScheme)
    (J : blockchain.JsonCodec) (cidString : Bytes → String) (env : RetrieveEnv)
    (disk0 : blockchain.Disk) (m : blockchain.Registry)
    (f l l2 outputPath contractAddress dilithiumPubKeyPath ipfsGateway nodeURL : String)
    (hJ : J.Lawful) (hm : m.WellFormed) (hf : m.get f = some l) (hne : l2 ≠ l) :
    verifyAndRetrieveDocument P S J cidString env
          (blockchain.saveRegistry J .written m disk0).1
          l2 outputPath contractAddress f dilithiumPubKeyPath ipfsGateway nodeURL =
        .error "Failed to create blockchain client" ∨
      verifyAndRetrieveDocument P S J cidString env
          (blockchain.saveRegistry J .written m disk0).1
          l2 outputPath contractAddress f dilithiumPubKeyPath ipfsGateway nodeURL =
        .error "CID mismatch - document may have been tampered with" := by
  rcases blockchain.NewBlockchainClient_saved_cases J hJ m hm disk0 env.client with
    ⟨r, e, h⟩ | ⟨r, h, hget⟩
  · left
    simp only [verifyAndRetrieveDocument, h]
  · right
    have hrf : r.get f = some l := by rw [hget f, hf]
    have hne2 : ¬ l = l2 := fun h => hne h.symm
    simp only [verifyAndRetrieveDocument, h, blockchain.DocumentExists,
      blockchain.GetDocumentDetails, hrf, blockchain.DocumentDetails.success, ne_eq, hne2,
      not_false_eq_true, if_true]

/-- C16 at the sample codec: `h` is registered with `cidA`, the run is made with `cidB`. -/
theorem verifyAndRetrieveDocument_registry_mismatch_witness :
    verifyAndRetrieveDocument storage.samplePrimitives crypto.sampleScheme
          blockchain.sampleJson (fun _ => "Qm") plainEnv
          (blockchain.saveRegistry blockchain.sampleJson .written [("h", "cidA")]
            blockchain.emptyDisk).1
          "cidB" "out.txt" "0xc" "h" "" "localhost:5001" "http://localhost:8545" =
        .error "Failed to create blockchain client" ∨
      verifyAndRetrieveDocument storage.samplePrimitives crypto.sampleScheme
          blockchain.sampleJson (fun _ => "Qm") plainEnv
          (blockchain.saveRegistry blockchain.sampleJson .written [("h", "cidA")]
            blockchain.emptyDisk).1
          "cidB" "out.txt" "0xc" "h" "" "localhost:5001" "http://localhost:8545" =
        .error "CID mismatch - document may have been tampered with" :=
  verifyAndRetrieveDocument_registry_mismatch storage.samplePrimitives crypto.sampleScheme
    blockchain.sampleJson (fun _ => "Qm") plainEnv blockchain.emptyDisk [("h", "cidA")]
    "h" "cidA" "cidB" "out.txt" "0xc" "" "localhost:5001" "http://localhost:8545"
    blockchain.sampleJson_lawful (by simp [blockchain.Registry.WellFormed]) rfl (by decide)

end integrate

namespace integrate

/-- The test of a mock CID fails on `bafyDoc` and holds on `QmTest123456789`. -/
theorem isMockCID_samples :
    isMockCID "bafyDoc" = false ∧ isMockCID "QmTest123456789" = true := by
  constructor <;> decide

/-- A run on the disk a successful save of `m` wrote, with a client that can be created
and a registered mock CID, returns once the placeholder document is written. -/
theorem verifyAndRetrieveDocument_of_mock (P : Primitives) (S : crypto.SignScheme)
    (J : blockchain.JsonCodec) (cidString : Bytes → String) (env : RetrieveEnv)
    (disk0 : blockchain.Disk) (m : blockchain.Registry)
    (cid outputPath contractAddress f dilithiumPubKeyPath ipfsGateway nodeURL : String)
    (hJ : J.Lawful) (hm : m.WellFormed) (hf : m.get f = some cid)
    (hc : env.client = ⟨none, none⟩) (hmock : isMockCID cid = true)
    (hw : env.writeFile = none) :
    verifyAndRetrieveDocument P S J cidString env
        (blockchain.saveRegistry J .written m disk0).1
        cid outputPath contractAddress f dilithiumPubKeyPath ipfsGateway nodeURL =
      .ok { outputPath := outputPath, content := mockContent f,
            warnings := ["Using a mock CID - cannot retrieve actual document from IPFS"] } := by
  obtain ⟨r, h, hget⟩ := blockchain.NewBlockchainClient_saved J hJ m hm disk0
  have hrf : r.get f = some cid := by rw [hget f, hf]
  simp only [verifyAndRetrieveDocument, hc, h, blockchain.DocumentExists,
    blockchain.GetDocumentDetails, hrf, blockchain.DocumentDetails.success, ne_eq,
    not_true_eq_false, if_false, hmock, if_true, hw]

/-- A run on the disk a successful save of `m` wrote, with a client that can be created, a
registered CID that is not a mock CID, fetched bytes with the claimed fingerprint, a
signature stage that passes and an output that can be written, returns. -/
theorem verifyAndRetrieveDocument_of_stages (P : Primitives) (S : crypto.SignScheme)
    (J : blockchain.JsonCodec) (cidString : Bytes → String) (env : RetrieveEnv)
    (disk0 : blockchain.Disk) (m : blockchain.Registry)
    (cid outputPath contractAddress f dilithiumPubKeyPath ipfsGateway nodeURL : String)
    (d : Bytes) (ws : List String)
    (hJ : J.Lawful) (hm : m.WellFormed) (hf : m.get f = some cid)
    (hc : env.client = ⟨none, none⟩) (hmock : isMockCID cid = false)
    (hret : env.retrieve cid = .ok d) (hhash : storage.CalculateDocumentHash P d = f)
    (hsig : signatureStage S env outputPath dilithiumPubKeyPath d = .ok ws)
    (hmk : env.mkdirAll = none) (hw : env.writeFile = none) :
    verifyAndRetrieveDocument P S J cidString env
        (blockchain.saveRegistry J .written m disk0).1
        cid outputPath contractAddress f dilithiumPubKeyPath ipfsGateway nodeURL =
      .ok { outputPath := outputPath, content := d, warnings := ws } := by
  obtain ⟨r, h, hget⟩ := blockchain.NewBlockchainClient_saved J hJ m hm disk0
  have hrf : r.get f = some cid := by rw [hget f, hf]
  simp only [verifyAndRetrieveDocument, hc, h, blockchain.DocumentExists,
    blockchain.GetDocumentDetails, hrf, blockchain.DocumentDetails.success, ne_eq,
    not_true_eq_false, if_false, hmock, hret, hhash, hsig, hmk, hw, Bool.false_eq_true]

/-- The signature stage with a public key supplied and a signature file that cannot be
read: the stage is skipped with a warning. -/
theorem signatureStage_of_unreadable (S : crypto.SignScheme) (env : RetrieveEnv)
    (outputPath dilithiumPubKeyPath : String) (content pubKey : Bytes) (e : String)
    (hp : dilithiumPubKeyPath ≠ "") (hpk : env.files dilithiumPubKeyPath = .ok pubKey)
    (hs : env.files (outputPath ++ ".sig") = .error e) :
    signatureStage S env outputPath dilithiumPubKeyPath content =
      .ok ["Could not find signature file - skipping Dilithium verification"] := by
  simp only [signatureStage, ne_eq, hp, not_false_eq_true, if_true, hpk, hs]

/-- The signature stage with a public key supplied and a signature file that can be read
passes only when `VerifyWithDilithium` returns true. -/
theorem signatureStage_of_readable (S : crypto.SignScheme) (env : RetrieveEnv)
    (outputPath dilithiumPubKeyPath : String) (content pubKey signature : Bytes)
    (ws : List String)
    (hp : dilithiumPubKeyPath ≠ "") (hpk : env.files dilithiumPubKeyPath = .ok pubKey)
    (hs : env.files (outputPath ++ ".sig") = .ok signature)
    (h : signatureStage S env outputPath dilithiumPubKeyPath content = .ok ws) :
    storage.VerifyWithDilithium S env.temp content signature pubKey = .ok true := by
  simp only [signatureStage, ne_eq, hp, not_false_eq_true, if_true, hpk, hs] at h
  cases hv : storage.VerifyWithDilithium S env.temp content signature pubKey with
  | error e => rw [hv] at h; cases h
  | ok valid =>
    rw [hv] at h
    cases valid with
    | true => rfl
    | false => cases h

/-- A run that returns wrote the placeholder document for a mock CID, or else it fetched
bytes with the claimed fingerprint and passed its signature stage. -/
theorem verifyAndRetrieveDocument_ok_cases (P : Primitives) (S : crypto.SignScheme)
    (J : blockchain.JsonCodec) (cidString : Bytes → String) (env : RetrieveEnv)
    (disk : blockchain.Disk)
    (cid outputPath contractAddress documentHash dilithiumPubKeyPath ipfsGateway
      nodeURL : String) (r : Retrieved)
    (h : verifyAndRetrieveDocument P S J cidString env disk cid outputPath contractAddress
        documentHash dilithiumPubKeyPath ipfsGateway nodeURL = .ok r) :
    r.outputPath = outputPath ∧
      ((isMockCID cid = true ∧ r.content = mockContent documentHash) ∨
        (isMockCID cid = false ∧ env.retrieve cid = .ok r.content ∧
          storage.CalculateDocumentHash P r.content = documentHash ∧
          signatureStage S env outputPath dilithiumPubKeyPath r.content = .ok r.warnings)) := by
  unfold verifyAndRetrieveDocument at h
  simp only at h
  split at h
  · cases h
  · split at h
    · cases h
    · cases h
    · split at h
      · cases h
      · split at h
        · cases h
        · split at h
          · rename_i hmock
            split at h
            · cases h
            · cases h
              exact ⟨rfl, Or.inl ⟨hmock, rfl⟩⟩
          · rename_i hmock
            split at h
            · cases h
            · rename_i content hret
              split at h
              · cases h
              · rename_i hhash
                split at h
                · cases h
                · rename_i ws hsig
                  split at h
                  · cases h
                  · split at h
                    · cases h
                    · cases h
                      refine ⟨rfl, Or.inr ⟨by simpa using hmock, hret, by simpa using hhash, hsig⟩⟩

end integrate
namespace integrate

/-- C15, counterexample: the registry file holds, for the SHA3-256 fingerprint of the empty
document, the mock CID `QmTest123456789`. Whatever the storage returns for that CID, bytes
or an error, the run returns, having written the placeholder document: nothing is fetched
and no fingerprint is recomputed. -/
theorem mock_run_succeeds :
    MockRunSucceeds "QmTest123456789"
      "a7ffc6f8bf1ed76651c14756a061d662f580ff4de43b49fa82d80a4b80f8434a" "out.txt" := by
  refine ⟨⟨blockchain.sampleJson, blockchain.sampleJson_lawful⟩, ?_⟩
  intro P S J cidString retrieve hJ
  refine verifyAndRetrieveDocument_of_mock P S J cidString { plainEnv with retrieve := retrieve }
    blockchain.emptyDisk
    [("a7ffc6f8bf1ed76651c14756a061d662f580ff4de43b49fa82d80a4b80f8434a", "QmTest123456789")]
    "QmTest123456789" "out.txt" "0xc"
    "a7ffc6f8bf1ed76651c14756a061d662f580ff4de43b49fa82d80a4b80f8434a" "" "localhost:5001"
    "http://localhost:8545" hJ ?_ ?_ rfl isMockCID_samples.2 rfl
  · simp [blockchain.Registry.WellFormed]
  · simp [blockchain.Registry.get]

/-- C15, amended: whenever `verifyAndRetrieveDocument` returns, the file written is the
output path, and either the locator is a mock CID (shorter than 46 bytes, starting with
`Qm`) and the bytes written are the placeholder document for the claimed fingerprint, or
the locator is not a mock CID, the bytes written are the bytes fetched for the locator and
their `CalculateDocumentHash` equals the claimed fingerprint. -/
theorem verifyAndRetrieveDocument_tamper_detection (P : Primitives) (S : crypto.SignScheme)
    (J : blockchain.JsonCodec) (cidString : Bytes → String) (env : RetrieveEnv)
    (disk : blockchain.Disk)
    (cid outputPath contractAddress documentHash dilithiumPubKeyPath ipfsGateway
      nodeURL : String) (r : Retrieved)
    (h : verifyAndRetrieveDocument P S J cidString env disk cid outputPath contractAddress
        documentHash dilithiumPubKeyPath ipfsGateway nodeURL = .ok r) :
    r.outputPath = outputPath ∧
      ((isMockCID cid = true ∧ r.content = mockContent documentHash) ∨
        (isMockCID cid = false ∧ env.retrieve cid = .ok r.content ∧
          storage.CalculateDocumentHash P r.content = documentHash)) := by
  obtain ⟨h1, h2⟩ := verifyAndRetrieveDocument_ok_cases P S J cidString env disk cid outputPath
    contractAddress documentHash dilithiumPubKeyPath ipfsGateway nodeURL r h
  refine ⟨h1, ?_⟩
  rcases h2 with h2 | ⟨h2, h3, h4, _⟩
  · exact Or.inl h2
  · exact Or.inr ⟨h2, h3, h4⟩

/-- C15, amended, at the sample libraries: the document `[1, 2, 3]` registered with the
CID `bafyDoc`, which is not a mock CID, and fetched unchanged. -/
theorem verifyAndRetrieveDocument_tamper_detection_witness :
    verifyAndRetrieveDocument storage.samplePrimitives crypto.sampleScheme
        blockchain.sampleJson (fun _ => "Qm") plainEnv
        (blockchain.saveRegistry blockchain.sampleJson .written
          [(storage.CalculateDocumentHash storage.samplePrimitives [1, 2, 3], "bafyDoc")]
          blockchain.emptyDisk).1
        "bafyDoc" "out.txt" "0xc"
        (storage.CalculateDocumentHash storage.samplePrimitives [1, 2, 3]) ""
        "localhost:5001" "http://localhost:8545" =
      .ok { outputPath := "out.txt", content := [1, 2, 3], warnings := [] } ∧
    ("out.txt" = "out.txt" ∧
      ((isMockCID "bafyDoc" = true ∧
          [1, 2, 3] = mockContent
            (storage.CalculateDocumentHash storage.samplePrimitives [1, 2, 3])) ∨
        (isMockCID "bafyDoc" = false ∧ plainEnv.retrieve "bafyDoc" = .ok [1, 2, 3] ∧
          storage.CalculateDocumentHash storage.samplePrimitives [1, 2, 3] =
            storage.CalculateDocumentHash storage.samplePrimitives [1, 2, 3]))) :=
  have hrun := verifyAndRetrieveDocument_of_stages storage.samplePrimitives crypto.sampleScheme
    blockchain.sampleJson (fun _ => "Qm") plainEnv blockchain.emptyDisk
    [(storage.CalculateDocumentHash storage.samplePrimitives [1, 2, 3], "bafyDoc")]
    "bafyDoc" "out.txt" "0xc"
    (storage.CalculateDocumentHash storage.samplePrimitives [1, 2, 3]) ""
    "localhost:5001" "http://localhost:8545" [1, 2, 3] []
    blockchain.sampleJson_lawful (by simp [blockchain.Registry.WellFormed])
    (by simp [blockchain.Registry.get]) rfl isMockCID_samples.1 rfl rfl rfl rfl rfl
  ⟨hrun, verifyAndRetrieveDocument_tamper_detection storage.samplePrimitives
    crypto.sampleScheme blockchain.sampleJson (fun _ => "Qm") plainEnv _ "bafyDoc" "out.txt"
    "0xc" (storage.CalculateDocumentHash storage.samplePrimitives [1, 2, 3]) ""
    "localhost:5001" "http://localhost:8545" ⟨"out.txt", [1, 2, 3], []⟩ hrun⟩

/-- C17, counterexample: the registry file holds the CID `bafyDoc` for the fingerprint of
the document `[1, 2, 3]`, which the storage returns; the public key file `pub.key` is
supplied and can be read, and the signature file `out.txt.sig` cannot. The run returns,
having written the document, with a warning only. -/
theorem missing_signature_accepted :
    MissingSignatureAccepted noSignatureEnv [1, 2, 3] "bafyDoc" "out.txt" "pub.key" := by
  refine ⟨by decide, ⟨"no such file or directory", rfl⟩,
    ⟨blockchain.sampleJson, blockchain.sampleJson_lawful⟩, ?_⟩
  intro P S J cidString hJ
  exact verifyAndRetrieveDocument_of_stages P S J cidString noSignatureEnv blockchain.emptyDisk
    [(storage.CalculateDocumentHash P [1, 2, 3], "bafyDoc")] "bafyDoc" "out.txt" "0xc"
    (storage.CalculateDocumentHash P [1, 2, 3]) "pub.key" "localhost:5001"
    "http://localhost:8545" [1, 2, 3] _ hJ (by simp [blockchain.Registry.WellFormed])
    (by simp [blockchain.Registry.get]) rfl isMockCID_samples.1 rfl rfl
    (signatureStage_of_unreadable S noSignatureEnv "out.txt" "pub.key" [1, 2, 3]
      (List.replicate 32 0) "no such file or directory" (by decide) rfl rfl) rfl rfl

/-- C17, amended: in a run of `verifyAndRetrieveDocument` whose other stages pass (the
client is created, the registry file holds the CID, not a mock CID, for the fingerprint,
the fetched bytes have the fingerprint and the output can be written) and to which a
public key that can be read is supplied: when the signature file `outputPath.sig` cannot
be read the signature stage is skipped with a warning and the run returns; when it can be
read the run returns exactly when `VerifyWithDilithium` returns true. -/
theorem verifyAndRetrieveDocument_signature_stage (P : Primitives) (S : crypto.SignScheme)
    (J : blockchain.JsonCodec) (cidString : Bytes → String) (env : RetrieveEnv)
    (disk0 : blockchain.Disk) (m : blockchain.Registry)
    (cid outputPath contractAddress f dilithiumPubKeyPath ipfsGateway nodeURL : String)
    (d pubKey : Bytes)
    (hJ : J.Lawful) (hm : m.WellFormed) (hf : m.get f = some cid)
    (hc : env.client = ⟨none, none⟩) (hmock : isMockCID cid = false)
    (hret : env.retrieve cid = .ok d) (hhash : storage.CalculateDocumentHash P d = f)
    (hmk : env.mkdirAll = none) (hw : env.writeFile = none)
    (hp : dilithiumPubKeyPath ≠ "") (hpk : env.files dilithiumPubKeyPath = .ok pubKey) :
    (∀ e, env.files (outputPath ++ ".sig") = .error e →
        verifyAndRetrieveDocument P S J cidString env
            (blockchain.saveRegistry J .written m disk0).1
            cid outputPath contractAddress f dilithiumPubKeyPath ipfsGateway nodeURL =
          .ok { outputPath := outputPath, content := d,
                warnings :=
                  ["Could not find signature file - skipping Dilithium verification"] }) ∧
      ∀ signature, env.files (outputPath ++ ".sig") = .ok signature →
        ((∃ r, verifyAndRetrieveDocument P S J cidString env
            (blockchain.saveRegistry J .written m disk0).1
            cid outputPath contractAddress f dilithiumPubKeyPath ipfsGateway nodeURL =
          .ok r) ↔
          storage.VerifyWithDilithium S env.temp d signature pubKey = .ok true) := by
  refine ⟨fun e hs => ?_, fun signature hs => ⟨?_, fun hv => ?_⟩⟩
  · exact verifyAndRetrieveDocument_of_stages P S J cidString env disk0 m cid outputPath
      contractAddress f dilithiumPubKeyPath ipfsGateway nodeURL d _ hJ hm hf hc hmock hret
      hhash (signatureStage_of_unreadable S env outputPath dilithiumPubKeyPath d pubKey e hp
        hpk hs) hmk hw
  · rintro ⟨r, hr⟩
    obtain ⟨_, h2⟩ := verifyAndRetrieveDocument_ok_cases P S J cidString env _ cid outputPath
      contractAddress f dilithiumPubKeyPath ipfsGateway nodeURL r hr
    rcases h2 with ⟨h2, _⟩ | ⟨_, h3, _, h5⟩
    · rw [hmock] at h2
      cases h2
    · rw [hret] at h3
      cases h3
      exact signatureStage_of_readable S env outputPath dilithiumPubKeyPath _ pubKey
        signature r.warnings hp hpk hs h5
  · refine ⟨_, verifyAndRetrieveDocument_of_stages P S J cidString env disk0 m cid outputPath
      contractAddress f dilithiumPubKeyPath ipfsGateway nodeURL d [] hJ hm hf hc hmock hret
      hhash ?_ hmk hw⟩
    simp only [signatureStage, ne_eq, hp, not_false_eq_true, if_true, hpk, hs, hv,
      Bool.not_true, Bool.false_eq_true, if_false]

/-- C17, amended, at the sample libraries: the document `[1, 2, 3]` with the public key
file `pub.key` and no signature file. -/
theorem verifyAndRetrieveDocument_signature_stage_witness :
    (∀ e, noSignatureEnv.files ("out.txt" ++ ".sig") = .error e →
        verifyAndRetrieveDocument storage.samplePrimitives crypto.sampleScheme
            blockchain.sampleJson (fun _ => "Qm") noSignatureEnv
            (blockchain.saveRegistry blockchain.sampleJson .written
              [(storage.CalculateDocumentHash storage.samplePrimitives [1, 2, 3], "bafyDoc")]
              blockchain.emptyDisk).1
            "bafyDoc" "out.txt" "0xc"
            (storage.CalculateDocumentHash storage.samplePrimitives [1, 2, 3]) "pub.key"
            "localhost:5001" "http://localhost:8545" =
          .ok { outputPath := "out.txt", content := [1, 2, 3],
                warnings :=
                  ["Could not find signature file - skipping Dilithium verification"] }) ∧
      ∀ signature, noSignatureEnv.files ("out.txt" ++ ".sig") = .ok signature →
        ((∃ r, verifyAndRetrieveDocument storage.samplePrimitives crypto.sampleScheme
            blockchain.sampleJson (fun _ => "Qm") noSignatureEnv
            (blockchain.saveRegistry blockchain.sampleJson .written
              [(storage.CalculateDocumentHash storage.samplePrimitives [1, 2, 3], "bafyDoc")]
              blockchain.emptyDisk).1
            "bafyDoc" "out.txt" "0xc"
            (storage.CalculateDocumentHash storage.samplePrimitives [1, 2, 3]) "pub.key"
            "localhost:5001" "http://localhost:8545" =
          .ok r) ↔
          storage.VerifyWithDilithium crypto.sampleScheme noSignatureEnv.temp [1, 2, 3]
            signature (List.replicate 32 0) = .ok true) :=
  verifyAndRetrieveDocument_signature_stage storage.samplePrimitives crypto.sampleScheme
    blockchain.sampleJson (fun _ => "Qm") noSignatureEnv blockchain.emptyDisk
    [(storage.CalculateDocumentHash storage.samplePrimitives [1, 2, 3], "bafyDoc")]
    "bafyDoc" "out.txt" "0xc"
    (storage.CalculateDocumentHash storage.samplePrimitives [1, 2, 3]) "pub.key"
    "localhost:5001" "http://localhost:8545" [1, 2, 3] (List.replicate 32 0)
    blockchain.sampleJson_lawful (by simp [blockchain.Registry.WellFormed])
    (by simp [blockchain.Registry.get]) rfl isMockCID_samples.1 rfl rfl rfl rfl (by decide) rfl

end integrate

namespace storage

/-- On an input that parses into the four fields, with a tag field that is not the
SHA3-256 of key and ciphertext, the outcome is the error of the tag comparison. -/
theorem DecryptDocument_of_tag_mismatch (P : Primitives)
    (encryptedData dilithiumPrivKey aesKey iv ciphertext signature : Bytes)
    (hparse : readFields encryptedData = .ok (aesKey, iv, ciphertext, signature))
    (htag : signature ≠ (P.sha3_256 (aesKey ++ ciphertext)).val) :
    DecryptDocument P encryptedData dilithiumPrivKey =
      .error (.error .signatureVerificationFailed) := by
  rw [DecryptDocument_eq, hparse]
  simp only [checkAndOpen, htag, ne_eq, not_false_eq_true, if_true]

/-- The fields read from an input have a key of 32 bytes. -/
theorem readFields_key_length (encryptedData aesKey iv ciphertext signature : Bytes)
    (hparse : readFields encryptedData = .ok (aesKey, iv, ciphertext, signature)) :
    aesKey.length = 32 := by
  unfold readFields at hparse
  cases h1 : binaryReadUint32 encryptedData with
  | error e => simp [liftRead, bind, Except.bind, h1] at hparse
  | ok r1 =>
    obtain ⟨keyLength, buf1⟩ := r1
    by_cases hk : keyLength = 32
    · subst hk
      cases h2 : ioReadFull buf1 32 with
      | error e => simp [liftRead, bind, Except.bind, h1, h2] at hparse
      | ok r2 =>
        obtain ⟨key, buf2⟩ := r2
        have hlen : key.length = 32 := by
          unfold ioReadFull at h2
          split at h2
          · rename_i hle
            simp only [Except.ok.injEq, Prod.mk.injEq] at h2
            rw [← h2.1, List.length_take]
            omega
          · split at h2 <;> cases h2
        simp only [liftRead, bind, Except.bind, h1, h2, ne_eq, not_true_eq_false,
          if_false] at hparse
        split at hparse
        · cases hparse
        · split at hparse
          · cases hparse
          · split at hparse
            · cases hparse
            · simp only [Except.ok.injEq, Prod.mk.injEq] at hparse
              rw [← hparse.1]
              exact hlen
    · simp [liftRead, bind, Except.bind, h1, hk] at hparse

/-- C21: for every input that parses into four fields (the key then has 32 bytes), if the
tag field differs from SHA3-256(key ++ ciphertext) then `DecryptDocument` returns the
error `signature verification failed`, whatever the nonce and the ciphertext are, and
whatever AES-GCM is: the open is not evaluated, and a nonce of the wrong length, on which
it would panic, changes nothing. -/
theorem DecryptDocument_tag_checked_first (P : Primitives)
    (encryptedData dilithiumPrivKey aesKey iv ciphertext signature : Bytes)
    (hparse : readFields encryptedData = .ok (aesKey, iv, ciphertext, signature))
    (htag : signature ≠ (P.sha3_256 (aesKey ++ ciphertext)).val) :
    aesKey.length = 32 ∧
      DecryptDocument P encryptedData dilithiumPrivKey =
        .error (.error .signatureVerificationFailed) ∧
      ∀ (gcmSeal : Bytes → Bytes → Bytes → Bytes) (gcmOpen : Bytes → Bytes → Bytes → Option Bytes),
        DecryptDocument { P with gcmSeal := gcmSeal, gcmOpen := gcmOpen } encryptedData
            dilithiumPrivKey =
          .error (.error .signatureVerificationFailed) := by
  have h := DecryptDocument_of_tag_mismatch P encryptedData dilithiumPrivKey aesKey iv
    ciphertext signature hparse htag
  refine ⟨readFields_key_length _ _ _ _ _ hparse, h, ?_⟩
  intro gcmSeal gcmOpen
  exact DecryptDocument_of_tag_mismatch { P with gcmSeal := gcmSeal, gcmOpen := gcmOpen }
    encryptedData dilithiumPrivKey aesKey iv ciphertext signature hparse htag

/-- C21 at a concrete input: a key of 32 zero bytes, an empty nonce, an empty ciphertext
and the tag `[1]`. -/
theorem DecryptDocument_tag_checked_first_witness :
    DecryptDocument samplePrimitives (envelope (List.replicate 32 0) [] [] [1]) [] =
      .error (.error .signatureVerificationFailed) :=
  (DecryptDocument_tag_checked_first samplePrimitives
    (envelope (List.replicate 32 0) [] [] [1]) [] (List.replicate 32 0) [] [] [1]
    (readFields_envelope (List.replicate 32 0) [] [] [1] (by decide) (by decide) (by decide)
      (by decide))
    (by decide)).2.1

/-- C25: for every byte sequence and all key arguments, `DecryptDocument` returns the same
outcome, the one determined by the fields read from the input, the AES key among them;
and the outcome of `EncryptDocument` does not depend on its public key argument. -/
theorem DecryptDocument_ignores_key_argument (P : Primitives) (e k1 k2 : Bytes) :
    DecryptDocument P e k1 = DecryptDocument P e k2 ∧
      (∀ aesKey iv ciphertext signature,
        readFields e = .ok (aesKey, iv, ciphertext, signature) →
        DecryptDocument P e k1 = checkAndOpen P aesKey iv ciphertext signature) ∧
      ∀ (env : EncryptEnv) (content pk1 pk2 : Bytes),
        EncryptDocument P env content pk1 = EncryptDocument P env content pk2 := by
  refine ⟨rfl, ?_, fun _ _ _ _ => rfl⟩
  intro aesKey iv ciphertext signature h
  rw [DecryptDocument_eq, h]

end storage

namespace blockchain

/-- C22: for every registry state, fingerprint `f`, locator `l` and fingerprint `g`
different from `f`, the locator of `g`, or its absence, is the same after
`RegisterDocument(f, l)` as before, whatever the call returns. -/
theorem RegisterDocument_frame (env : RegisterEnv) (m : Registry) (key : PrivateKey)
    (f l g : String) (sig : Bytes) (hne : g ≠ f) :
    (RegisterDocument env m key f l sig).1.get g = m.get g :=
  Registry.get_set_of_ne m f l g (fun h => hne h.symm)

/-- C22 at the registry holding `cidA` for `h`: registering `g` leaves `h` as it was. -/
theorem RegisterDocument_frame_witness :
    (RegisterDocument okEnv [("h", "cidA")] ⟨1⟩ "g" "cidB" []).1.get "h" = some "cidA" :=
  RegisterDocument_frame okEnv [("h", "cidA")] ⟨1⟩ "g" "cidB" "h" [] (by decide)

theorem Registry.merge_wellFormed (entries m0 : Registry) (h : m0.WellFormed) :
    (Registry.merge m0 entries).WellFormed := by
  induction entries generalizing m0 with
  | nil => exact h
  | cons e es ih => exact ih (m0.set e.1 e.2) (Registry.set_wellFormed m0 e.1 e.2 h)

theorem sampleDecoder_decodes : sampleDecoder.Decodes sampleParse := by
  refine ⟨by simp [sampleParse], ?_, ?_, ?_⟩
  · intro data m0 h
    simp only [sampleDecoder, h]
    exact ⟨trivial, fun _ => rfl⟩
  · intro data members m0 h
    have hwf : members.WellFormed := by
      unfold sampleParse at h
      split at h
      · cases h
      · split at h
        · split at h
          · simp only [Option.some.injEq, RegistryJson.object.injEq] at h
            rw [← h]
            exact Registry.merge_wellFormed _ [] List.nodup_nil
          · cases h
        · cases h
    refine ⟨hwf, ?_, ?_⟩
    · simp only [sampleDecoder, h]
    · intro k
      simp only [sampleDecoder, h]
      exact Registry.get_merge m0 members hwf k
  · intro data m0 h
    exact ⟨"invalid character", by simp only [sampleDecoder, h]⟩

theorem sampleDecoder_lawful : sampleDecoder.Lawful := by
  intro m hm
  have hd : List.map Fin.val
      ((Nat.digits 256 (Encodable.encode (sampleRaw m))).map fun d =>
        (⟨d % 256, Nat.mod_lt _ (by decide)⟩ : Byte)) =
      Nat.digits 256 (Encodable.encode (sampleRaw m)) := by
    rw [List.map_map]
    conv_rhs => rw [← List.map_id (Nat.digits 256 (Encodable.encode (sampleRaw m)))]
    apply List.map_congr_left
    intro d hd
    exact Nat.mod_eq_of_lt (Nat.digits_lt_base (by decide) hd)
  have hp : sampleParse ((0 : Byte) ::
      ((Nat.digits 256 (Encodable.encode (sampleRaw m))).map fun d =>
        (⟨d % 256, Nat.mod_lt _ (by decide)⟩ : Byte))) =
      some (.object (Registry.merge [] m)) := by
    have hnull : ¬ ((0 : Byte) ::
        ((Nat.digits 256 (Encodable.encode (sampleRaw m))).map fun d =>
          (⟨d % 256, Nat.mod_lt _ (by decide)⟩ : Byte))) = stringBytes "null" := by
      have : stringBytes "null" = [110, 117, 108, 108] := by decide
      rw [this]
      intro h
      have := (List.cons.inj h).1
      exact absurd this (by decide)
    unfold sampleParse
    rw [if_neg hnull]
    simp only [hd, Nat.ofDigits_digits, Encodable.encodek, sampleOfRaw_sampleRaw]
  refine ⟨_, rfl, ?_⟩
  intro m0
  have hwf : (Registry.merge [] m).WellFormed := Registry.merge_wellFormed _ [] List.nodup_nil
  have hu : sampleDecoder.unmarshal ((0 : Byte) ::
      ((Nat.digits 256 (Encodable.encode (sampleRaw m))).map fun d =>
        (⟨d % 256, Nat.mod_lt _ (by decide)⟩ : Byte))) m0 =
      (Registry.merge m0 (Registry.merge [] m), none) := by
    simp only [sampleDecoder, hp]
  refine ⟨by rw [hu], ?_⟩
  intro k
  rw [hu]
  show (Registry.merge m0 (Registry.merge [] m)).get k = _
  rw [Registry.get_merge m0 _ hwf k, Registry.get_merge [] m hm k]
  cases m.get k <;> rfl

/-- Loading a file whose text is `null`: no error, and no entry afterwards. -/
theorem loadRegistry_null (J : JsonCodec) (parse : Bytes → Option RegistryJson)
    (hJ : J.Decodes parse) (data : Bytes) (prior : Registry) (h : parse data = some .null) :
    ∃ r, loadRegistry J none { registryFile := some data } prior = (r, .ok ()) ∧
      ∀ k, r.get k = none := by
  obtain ⟨herr, hget⟩ := hJ.2.1 data prior h
  refine ⟨(J.unmarshal data prior).1, ?_, hget⟩
  simp only [loadRegistry]
  cases hu : J.unmarshal data prior with
  | mk r e =>
    rw [hu] at herr
    simp only at herr
    subst herr
    rfl

/-- C26, as stated, fails: the registry file exists and holds the text `null`, the
in-memory registry holds `cidA` for `h`; the load returns no error and the registry holds
nothing for `h` afterwards, though the file has no entry for `h`. -/
theorem null_file_resets : NullFileResets [("h", "cidA")] "h" :=
  ⟨⟨"cidA", by decide⟩, ⟨sampleDecoder, sampleParse, sampleDecoder_lawful, sampleDecoder_decodes⟩,
    fun J parse hJ =>
      match loadRegistry_null J parse hJ (stringBytes "null") [("h", "cidA")] hJ.1 with
      | ⟨r, h1, h2⟩ => ⟨r, h1, h2 "h"⟩⟩

/-- C26 (amended): when the registry file exists and holds a JSON object, `loadRegistry`
returns no error and leaves the in-memory registry with, for every fingerprint, the
locator of the file when the file has one and else the locator the in-memory registry held
before, if any: it merges. When the file holds the JSON value `null` the load returns no
error too and leaves the registry nil, without entries. On every other file content the
load returns the error of `json.Unmarshal`, and when the file cannot be read, the error
`failed to read registry file`. When the file does not exist the in-memory registry is
reset to empty. The file a successful `saveRegistry` wrote from a map is merged like an
object. -/
theorem loadRegistry_merges (J : JsonCodec) (parse : Bytes → Option RegistryJson)
    (hJ : J.Decodes parse) (data : Bytes) (prior : Registry) :
    (∀ members, parse data = some (.object members) →
        ∃ r, loadRegistry J none { registryFile := some data } prior = (r, .ok ()) ∧
          (∀ k v, members.get k = some v → r.get k = some v) ∧
          ∀ k, members.get k = none → r.get k = prior.get k) ∧
      (parse data = some .null →
        ∃ r, loadRegistry J none { registryFile := some data } prior = (r, .ok ()) ∧
          ∀ k, r.get k = none) ∧
      (parse data = none →
        ∃ err, (J.unmarshal data prior).2 = some err ∧
          loadRegistry J none { registryFile := some data } prior =
            ((J.unmarshal data prior).1, .error err)) ∧
      (∀ err, loadRegistry J (some err) { registryFile := some data } prior =
        (prior, .error ("failed to read registry file: " ++ err))) ∧
      (∀ readFile, loadRegistry J readFile emptyDisk prior = ([], .ok ())) ∧
      (J.Lawful → ∀ (m : Registry) (disk0 : Disk), m.WellFormed →
        ∃ r, loadRegistry J none (saveRegistry J .written m disk0).1 prior = (r, .ok ()) ∧
          (∀ k v, m.get k = some v → r.get k = some v) ∧
          ∀ k, m.get k = none → r.get k = prior.get k) := by
  refine ⟨?_, loadRegistry_null J parse hJ data prior, ?_, fun _ => rfl, fun _ => rfl, ?_⟩
  · intro members h
    obtain ⟨_, herr, hget⟩ := hJ.2.2.1 data members prior h
    refine ⟨(J.unmarshal data prior).1, ?_, ?_, ?_⟩
    · simp only [loadRegistry]
      cases hu : J.unmarshal data prior with
      | mk r e =>
        rw [hu] at herr
        simp only at herr
        subst herr
        rfl
    · intro k v hk
      rw [hget k, hk]
    · intro k hk
      rw [hget k, hk]
  · intro h
    obtain ⟨err, herr⟩ := hJ.2.2.2 data prior h
    refine ⟨err, herr, ?_⟩
    simp only [loadRegistry]
    cases hu : J.unmarshal data prior with
    | mk r e =>
      rw [hu] at herr
      simp only at herr
      subst herr
      rfl
  · intro hL m disk0 hm
    obtain ⟨r, h1, _, h3⟩ := loadRegistry_saveRegistry J hL m hm disk0 prior
    refine ⟨r, h1, ?_, ?_⟩
    · intro k v hk
      rw [h3 k, hk]
    · intro k hk
      rw [h3 k, hk]

/-- C26 (amended) at the second sample codec: with the in-memory registry holding `cidA`
for `h` and `cidC` for `g`, the load of a file holding `null` leaves nothing for `h`, and
the load of the file saved from the map holding `cidB` for `h` leaves `cidB` for `h` and
`cidC` for `g`. -/
theorem loadRegistry_merges_witness :
    (∃ r, loadRegistry sampleDecoder none { registryFile := some (stringBytes "null") }
          [("h", "cidA"), ("g", "cidC")] = (r, .ok ()) ∧ r.get "h" = none) ∧
      ∃ r, loadRegistry sampleDecoder none
            (saveRegistry sampleDecoder .written [("h", "cidB")] emptyDisk).1
            [("h", "cidA"), ("g", "cidC")] = (r, .ok ()) ∧
          r.get "h" = some "cidB" ∧ r.get "g" = some "cidC" :=
  have T := loadRegistry_merges sampleDecoder sampleParse sampleDecoder_decodes
    (stringBytes "null") [("h", "cidA"), ("g", "cidC")]
  ⟨match T.2.1 sampleDecoder_decodes.1 with
    | ⟨r, h1, h2⟩ => ⟨r, h1, h2 "h"⟩,
   match T.2.2.2.2.2 sampleDecoder_lawful [("h", "cidB")] emptyDisk
      (by simp [Registry.WellFormed]) with
    | ⟨r, h1, h2, h3⟩ =>
      ⟨r, h1, h2 "h" "cidB" (by decide), (h3 "g" (by decide)).trans (by decide)⟩⟩

/-- C27: `localClient.RegisterDocument` and `infuraClient.RegisterDocument` return
`"0x"` followed by the first 8 bytes of the hash, and a nil error, for every hash of at
least 8 bytes, whatever `cid` and `signature` are; for a hash of fewer than 8 bytes the
call panics: it yields neither a reference nor an error value. -/
theorem RegisterDocument_stub (hash cid signature : Bytes) :
    (8 ≤ hash.length →
        localClient.RegisterDocument hash cid signature =
            .ok ([0x30, 0x78] ++ hash.take 8) ∧
          infuraClient.RegisterDocument hash cid signature =
            .ok ([0x30, 0x78] ++ hash.take 8)) ∧
      (hash.length < 8 →
        localClient.RegisterDocument hash cid signature =
            .error (.panic ("runtime error: slice bounds out of range [:8] with length " ++
              toString hash.length)) ∧
          infuraClient.RegisterDocument hash cid signature =
            .error (.panic ("runtime error: slice bounds out of range [:8] with length " ++
              toString hash.length))) ∧
      ∀ cid2 signature2 : Bytes,
        localClient.RegisterDocument hash cid2 signature2 =
            localClient.RegisterDocument hash cid signature ∧
          infuraClient.RegisterDocument hash cid2 signature2 =
            infuraClient.RegisterDocument hash cid signature := by
  have h0x : stringBytes "0x" = [0x30, 0x78] := by decide
  refine ⟨fun h => ?_, fun h => ?_, fun _ _ => ⟨rfl, rfl⟩⟩
  · have hn : ¬ hash.length < 8 := by omega
    simp only [localClient.RegisterDocument, infuraClient.RegisterDocument, hn, if_false, h0x,
      and_self]
  · simp only [localClient.RegisterDocument, infuraClient.RegisterDocument, h, if_true,
      and_self]

/-- C28: for every document hash and every claimed owner address, registered or not,
`VerifyDocumentOwnership` returns `(true, nil)` and `DocumentExists` returns
`(true, nil)`. -/
theorem ownership_and_existence_constant (documentHash : String) (claimedOwner : Address) :
    VerifyDocumentOwnership documentHash claimedOwner = (true, none) ∧
      DocumentExists documentHash = (true, none) :=
  ⟨rfl, rfl⟩

end blockchain

namespace zkp

theorem sampleProofUnmarshal_sampleProofMarshal (p : SimpleProof) :
    ∃ data, sampleProofMarshal p = .ok data ∧ sampleProofUnmarshal data = .ok p := by
  refine ⟨_, rfl, ?_⟩
  have hd : List.map Fin.val
      ((Nat.digits 256
          (Encodable.encode (p.DocumentHash, p.PublicKey, p.Signature, p.ProofMetadata))).map
        fun d => (⟨d % 256, Nat.mod_lt _ (by decide)⟩ : Byte)) =
      Nat.digits 256
        (Encodable.encode (p.DocumentHash, p.PublicKey, p.Signature, p.ProofMetadata)) := by
    rw [List.map_map]
    conv_rhs => rw [← List.map_id (Nat.digits 256 _)]
    apply List.map_congr_left
    intro d hd
    exact Nat.mod_eq_of_lt (Nat.digits_lt_base (by decide) hd)
  simp only [sampleProofUnmarshal, hd, Nat.ofDigits_digits, Encodable.encodek]

theorem sampleCodec_lawful : sampleCodec.Lawful :=
  fun p => sampleProofUnmarshal_sampleProofMarshal p

/-- The verdict of `VerifyProof` on the marshalled form of a proof object. -/
theorem VerifyProof_marshal (J : ProofCodec) (hJ : J.Lawful) (sp : SimpleDocumentProver)
    (hsp : sp.initialized = true) (p : SimpleProof) (h pk sig : Bytes) :
    ∃ data, J.marshal p = .ok data ∧ J.unmarshal data = .ok p ∧
      VerifyProof J sp data h pk sig =
        .ok (decide (h = p.DocumentHash ∧ pk = p.PublicKey ∧ sig = p.Signature)) := by
  obtain ⟨data, h1, h2⟩ := hJ p
  refine ⟨data, h1, h2, ?_⟩
  simp only [VerifyProof, hsp, Bool.not_true, Bool.false_eq_true, if_false, h2, ne_eq]
  by_cases e1 : p.DocumentHash = h
  · by_cases e2 : p.PublicKey = pk
    · by_cases e3 : p.Signature = sig
      · simp [e1, e2, e3]
      · have e3b : ¬ sig = p.Signature := fun e => e3 e.symm
        simp [e1, e2, e3, e3b]
    · have e2b : ¬ pk = p.PublicKey := fun e => e2 e.symm
      simp [e1, e2, e2b]
  · have e1b : ¬ h = p.DocumentHash := fun e => e1 e.symm
    simp [e1, e1b]

/-- C23: for a prover that is initialized, as `NewSimpleDocumentProver` returns it, and
all byte strings, `GenerateProof` returns a proof; `VerifyProof` on it returns
`(true, nil)` exactly when the three public inputs are those of the proof, byte for byte,
and `(false, nil)` otherwise; and the JSON of the proof decodes to its fields. -/
theorem VerifyProof_GenerateProof (P : Primitives) (J : ProofCodec) (hJ : J.Lawful)
    (sp sp2 : SimpleDocumentProver) (hsp : sp.initialized = true)
    (hsp2 : sp2.initialized = true) (d k h pk sig h2 pk2 sig2 : Bytes) :
    NewSimpleDocumentProver = .ok { initialized := true } ∧
    ∃ proof, GenerateProof P J sp d k h pk sig = .ok proof ∧
      J.unmarshal proof =
        .ok { DocumentHash := h, PublicKey := pk, Signature := sig,
              ProofMetadata := (P.sha256 (d ++ k)).val } ∧
      VerifyProof J sp2 proof h2 pk2 sig2 = .ok (decide (h2 = h ∧ pk2 = pk ∧ sig2 = sig)) ∧
      (VerifyProof J sp2 proof h2 pk2 sig2 = .ok true ↔ h2 = h ∧ pk2 = pk ∧ sig2 = sig) ∧
      (VerifyProof J sp2 proof h2 pk2 sig2 = .ok false ↔ ¬ (h2 = h ∧ pk2 = pk ∧ sig2 = sig)) := by
  refine ⟨rfl, ?_⟩
  obtain ⟨data, h1, hu, hv⟩ := VerifyProof_marshal J hJ sp2 hsp2
    { DocumentHash := h, PublicKey := pk, Signature := sig,
      ProofMetadata := (P.sha256 (d ++ k)).val } h2 pk2 sig2
  refine ⟨data, ?_, hu, hv, ?_, ?_⟩
  · simp only [GenerateProof, hsp, Bool.not_true, Bool.false_eq_true, if_false, h1]
  · rw [hv]
    simp
  · rw [hv]
    simp

/-- C23 at the sample codec and primitives: a proof for the public inputs `[1]`, `[2]`,
`[3]` is accepted with them. -/
theorem VerifyProof_GenerateProof_witness :
    ∃ proof, GenerateProof storage.samplePrimitives sampleCodec ⟨true⟩ [7] [8] [1] [2] [3] =
        .ok proof ∧
      VerifyProof sampleCodec ⟨true⟩ proof [1] [2] [3] = .ok true :=
  match (VerifyProof_GenerateProof storage.samplePrimitives sampleCodec sampleCodec_lawful
    ⟨true⟩ ⟨true⟩ rfl rfl [7] [8] [1] [2] [3] [1] [2] [3]).2 with
  | ⟨proof, hg, _, _, hv, _⟩ => ⟨proof, hg, hv.2 ⟨rfl, rfl, rfl⟩⟩

/-- C24: for all public inputs and all pairs of document and private key, `GenerateProof`
returns proofs on which `VerifyProof` gives the same verdict, for every triple of inputs
to check; and `VerifyProof` gives the same verdict on the JSON of two proof objects that
differ in the `ProofMetadata` field only. -/
theorem VerifyProof_ignores_private_inputs (P : Primitives) (J : ProofCodec) (hJ : J.Lawful)
    (sp sp2 : SimpleDocumentProver) (hsp : sp.initialized = true)
    (h pk sig d1 k1 d2 k2 : Bytes) :
    (∃ proof1 proof2, GenerateProof P J sp d1 k1 h pk sig = .ok proof1 ∧
        GenerateProof P J sp d2 k2 h pk sig = .ok proof2 ∧
        ∀ h2 pk2 sig2, VerifyProof J sp2 proof1 h2 pk2 sig2 =
          VerifyProof J sp2 proof2 h2 pk2 sig2) ∧
      ∀ (p : SimpleProof) (metadata : Bytes),
        ∃ data1 data2, J.marshal p = .ok data1 ∧
          J.marshal { p with ProofMetadata := metadata } = .ok data2 ∧
          ∀ h2 pk2 sig2, VerifyProof J sp2 data1 h2 pk2 sig2 =
            VerifyProof J sp2 data2 h2 pk2 sig2 := by
  have key : ∀ (p : SimpleProof) (metadata : Bytes),
      ∃ data1 data2, J.marshal p = .ok data1 ∧
        J.marshal { p with ProofMetadata := metadata } = .ok data2 ∧
        ∀ h2 pk2 sig2, VerifyProof J sp2 data1 h2 pk2 sig2 =
          VerifyProof J sp2 data2 h2 pk2 sig2 := by
    intro p metadata
    obtain ⟨data1, m1, u1⟩ := hJ p
    obtain ⟨data2, m2, u2⟩ := hJ { p with ProofMetadata := metadata }
    refine ⟨data1, data2, m1, m2, ?_⟩
    intro h2 pk2 sig2
    simp only [VerifyProof, u1, u2]
  refine ⟨?_, key⟩
  obtain ⟨data1, data2, m1, m2, hv⟩ := key
    { DocumentHash := h, PublicKey := pk, Signature := sig,
      ProofMetadata := (P.sha256 (d1 ++ k1)).val } (P.sha256 (d2 ++ k2)).val
  refine ⟨data1, data2, ?_, ?_, hv⟩
  · simp only [GenerateProof, hsp, Bool.not_true, Bool.false_eq_true, if_false, m1]
  · simp only [GenerateProof, hsp, Bool.not_true, Bool.false_eq_true, if_false]
    exact m2

/-- C24 at the sample codec and primitives: the proofs for the documents `[7]` and `[9]`
are accepted with the same public inputs. -/
theorem VerifyProof_ignores_private_inputs_witness :
    ∃ proof1 proof2,
      GenerateProof storage.samplePrimitives sampleCodec ⟨true⟩ [7] [8] [1] [2] [3] =
        .ok proof1 ∧
      GenerateProof storage.samplePrimitives sampleCodec ⟨true⟩ [9] [] [1] [2] [3] =
        .ok proof2 ∧
      ∀ h2 pk2 sig2, VerifyProof sampleCodec ⟨true⟩ proof1 h2 pk2 sig2 =
        VerifyProof sampleCodec ⟨true⟩ proof2 h2 pk2 sig2 :=
  (VerifyProof_ignores_private_inputs storage.samplePrimitives sampleCodec sampleCodec_lawful
    ⟨true⟩ ⟨true⟩ rfl [1] [2] [3] [7] [8] [9] []).1

end zkp

namespace loadtest

/-- The element at the position after `pre`. -/
theorem getD_append_cons (pre : List Int) (x : Int) (rest : List Int) :
    (pre ++ x :: rest).getD pre.length 0 = x := by
  induction pre with
  | nil => rfl
  | cons a pre ih => simpa using ih

/-- Replacing the element at the position after `pre`. -/
theorem set_append_cons (pre : List Int) (x v : Int) (rest : List Int) :
    (pre ++ x :: rest).set pre.length v = pre ++ v :: rest := by
  induction pre with
  | nil => rfl
  | cons a pre ih => simp

/-- One step of the inner loop, on a slice cut at the positions `i` and `j`. -/
theorem swapIfGreater_append (pre done ys : List Int) (x y : Int) :
    swapIfGreater (pre ++ x :: (done ++ y :: ys)) pre.length (pre.length + 1 + done.length) =
      pre ++ (if x > y then y else x) :: (done ++ (if x > y then x else y) :: ys) := by
  have hj : pre ++ x :: (done ++ y :: ys) = (pre ++ x :: done) ++ y :: ys := by simp
  have hjl : pre.length + 1 + done.length = (pre ++ x :: done).length := by simp; omega
  have gi : (pre ++ x :: (done ++ y :: ys)).getD pre.length 0 = x := getD_append_cons _ _ _
  have gj : (pre ++ x :: (done ++ y :: ys)).getD (pre.length + 1 + done.length) 0 = y := by
    rw [hj, hjl]
    exact getD_append_cons _ _ _
  unfold swapIfGreater
  rw [gi, gj]
  by_cases h : x > y
  · rw [if_pos h, if_pos h, if_pos h, set_append_cons]
    have hj2 : pre ++ y :: (done ++ y :: ys) = (pre ++ y :: done) ++ y :: ys := by simp
    have hjl2 : pre.length + 1 + done.length = (pre ++ y :: done).length := by simp; omega
    rw [hj2, hjl2, set_append_cons]
    simp
  · rw [if_neg h, if_neg h, if_neg h]

/-- The inner loop from position `j` on: the slot `i` ends with a value `m` that is at
most every value to its right from `j` on, and the values are rearranged only. -/
theorem inner_fold (pre : List Int) :
    ∀ (ys done : List Int) (x : Int),
      ∃ m r, (List.range' (pre.length + 1 + done.length) ys.length).foldl
            (fun t j => swapIfGreater t pre.length j) (pre ++ x :: (done ++ ys)) =
          pre ++ m :: (done ++ r) ∧
        r.length = ys.length ∧ m ≤ x ∧ (∀ z ∈ r, m ≤ z) ∧ (m :: r).Perm (x :: ys) := by
  intro ys
  induction ys with
  | nil =>
    intro done x
    exact ⟨x, [], rfl, rfl, le_refl x, by simp, List.Perm.refl _⟩
  | cons y ys ih =>
    intro done x
    obtain ⟨m, r, h1, h2, h3, h4, h5⟩ :=
      ih (done ++ [if x > y then x else y]) (if x > y then y else x)
    refine ⟨m, (if x > y then x else y) :: r, ?_, by simp [h2], ?_, ?_, ?_⟩
    · rw [List.length_cons, List.range'_succ, List.foldl_cons, swapIfGreater_append]
      have e1 : pre ++ (if x > y then y else x) :: (done ++ (if x > y then x else y) :: ys) =
          pre ++ (if x > y then y else x) :: ((done ++ [if x > y then x else y]) ++ ys) := by
        simp
      have e2 : pre.length + 1 + done.length + 1 =
          pre.length + 1 + (done ++ [if x > y then x else y]).length := by
        simp; omega
      rw [e1, e2, h1]
      simp
    · by_cases h : x > y
      · rw [if_pos h] at h3
        exact le_trans h3 (le_of_lt h)
      · rw [if_neg h] at h3
        exact h3
    · intro z hz
      rcases List.mem_cons.1 hz with rfl | hz
      · by_cases h : x > y
        · rw [if_pos h] at h3 ⊢
          exact le_trans h3 (le_of_lt h)
        · rw [if_neg h] at h3 ⊢
          exact le_trans h3 (not_lt.1 h)
      · exact h4 z hz
    · have p1 : (m :: (if x > y then x else y) :: r).Perm
          ((if x > y then x else y) :: (if x > y then y else x) :: ys) :=
        (List.Perm.swap _ _ _).trans (List.Perm.cons _ h5)
      refine p1.trans ?_
      by_cases h : x > y
      · simp only [if_pos h]
        exact List.Perm.refl _
      · simp only [if_neg h]
        exact List.Perm.swap _ _ _

/-- The inner loop at position `i`, on a slice cut at `i`. -/
theorem sortDurationsInner_append (pre rest : List Int) (x : Int) :
    ∃ m r, sortDurationsInner pre.length (pre ++ x :: rest) = pre ++ m :: r ∧
      r.length = rest.length ∧ (∀ z ∈ r, m ≤ z) ∧ (m :: r).Perm (x :: rest) := by
  obtain ⟨m, r, h1, h2, _, h4, h5⟩ := inner_fold pre rest [] x
  refine ⟨m, r, ?_, h2, h4, h5⟩
  have hl : (pre ++ x :: rest).length - (pre.length + 1) = rest.length := by
    simp only [List.length_append, List.length_cons]
    omega
  unfold sortDurationsInner
  rw [hl]
  simpa using h1

/-- The outer loop from position `i` on, on a slice cut at `i`. -/
theorem outer_fold :
    ∀ (n : Nat) (pre rest : List Int), rest.length = n →
      ∃ s, (List.range' pre.length n).foldl (fun t i => sortDurationsInner i t) (pre ++ rest) =
          pre ++ s ∧ s.Sorted (· ≤ ·) ∧ s.Perm rest := by
  intro n
  induction n with
  | zero =>
    intro pre rest h
    have : rest = [] := List.length_eq_zero.1 h
    subst this
    exact ⟨[], rfl, List.sorted_nil, List.Perm.refl _⟩
  | succ n ih =>
    intro pre rest h
    match rest, h with
    | x :: xs, h =>
      obtain ⟨m, r, h1, h2, h3, h4⟩ := sortDurationsInner_append pre xs x
      have hr : r.length = n := by
        rw [h2]
        simpa using h
      obtain ⟨s, g1, g2, g3⟩ := ih (pre ++ [m]) r hr
      refine ⟨m :: s, ?_, ?_, ?_⟩
      · rw [List.range'_succ, List.foldl_cons, h1]
        have e1 : pre ++ m :: r = (pre ++ [m]) ++ r := by simp
        have e2 : pre.length + 1 = (pre ++ [m]).length := by simp
        rw [e1, e2, g1]
        simp
      · refine List.sorted_cons.2 ⟨?_, g2⟩
        intro z hz
        exact h3 z (g3.mem_iff.1 hz)
      · exact (List.Perm.cons m g3).trans h4

theorem sortDurations_sorted_perm (times : List Int) :
    (sortDurations times).Sorted (· ≤ ·) ∧ (sortDurations times).Perm times := by
  obtain ⟨s, h1, h2, h3⟩ := outer_fold times.length [] times rfl
  have : sortDurations times = s := by
    unfold sortDurations
    rw [List.range_eq_range']
    simpa using h1
  rw [this]
  exact ⟨h2, h3⟩

end loadtest

namespace loadtest

theorem sortDurations_eq_insertionSort (times : List Int) :
    sortDurations times = times.insertionSort (· ≤ ·) := by
  obtain ⟨h1, h2⟩ := sortDurations_sorted_perm times
  exact List.eq_of_perm_of_sorted (h2.trans (List.perm_insertionSort _ _).symm) h1
    (List.sorted_insertionSort _ _)

theorem insertionSort_congr (times times2 : List Int) (h : times2.Perm times) :
    times2.insertionSort (· ≤ ·) = times.insertionSort (· ≤ ·) :=
  List.eq_of_perm_of_sorted
    (((List.perm_insertionSort _ _).trans h).trans (List.perm_insertionSort _ _).symm)
    (List.sorted_insertionSort _ _) (List.sorted_insertionSort _ _)

theorem int64_of_range (x : Int) (h1 : -2 ^ 63 ≤ x) (h2 : x < 2 ^ 63) : int64 x = x := by
  unfold int64
  rw [Int.emod_eq_of_lt (by omega) (by omega)]
  omega

/-- An element of a list read with a default. -/
theorem getD_mem (l : List Int) (i : Nat) (h : i < l.length) : l.getD i 0 ∈ l := by
  rw [List.getD_eq_getElem _ _ h]
  exact List.getElem_mem h

/-- `calculateMedian` in terms of the sorted list. -/
theorem calculateMedian_eq (times : List Int) :
    calculateMedian times =
      if times.length = 0 then 0
      else if times.length % 2 = 0 then
        Int.tdiv (int64 ((times.insertionSort (· ≤ ·)).getD (times.length / 2 - 1) 0 +
          (times.insertionSort (· ≤ ·)).getD (times.length / 2) 0)) 2
      else (times.insertionSort (· ≤ ·)).getD (times.length / 2) 0 := by
  have hl : (times.insertionSort (· ≤ ·)).length = times.length :=
    List.length_insertionSort _ _
  unfold calculateMedian
  simp only [sortDurations_eq_insertionSort, hl]

/-- C29: `sortDurations` is a total function, and on every slice it leaves a slice in
non-decreasing order that is a permutation of the values it was given, of the same
length. -/
theorem sortDurations_sorted_permutation (times : List Int) :
    (sortDurations times).Sorted (· ≤ ·) ∧ (sortDurations times).Perm times ∧
      (sortDurations times).length = times.length ∧
      ∀ x, (sortDurations times).count x = times.count x :=
  ⟨(sortDurations_sorted_perm times).1, (sortDurations_sorted_perm times).2,
    (sortDurations_sorted_perm times).2.length_eq,
    fun x => (sortDurations_sorted_perm times).2.count_eq x⟩

/-- C30: `calculateMedian` returns 0 for the empty list and, for every list in which, when
the length is even, the sums of two values are within `int64`, the median of its values:
the middle element of the sorted list for an odd length and the truncated mean of the two
middle elements for an even length; and the result is the same for every permutation of
the list. -/
theorem calculateMedian_median (times : List Int)
    (hsum : times.length % 2 = 0 →
      ∀ a ∈ times, ∀ b ∈ times, -2 ^ 63 ≤ a + b ∧ a + b < 2 ^ 63) :
    calculateMedian [] = 0 ∧
      calculateMedian times = medianOfSorted (times.insertionSort (· ≤ ·)) ∧
      ∀ times2 : List Int, times2.Perm times → calculateMedian times2 = calculateMedian times := by
  refine ⟨rfl, ?_, ?_⟩
  · have hl : (times.insertionSort (· ≤ ·)).length = times.length :=
      List.length_insertionSort _ _
    rw [calculateMedian_eq]
    unfold medianOfSorted
    by_cases h0 : times.length = 0
    · have : times = [] := List.length_eq_zero.1 h0
      subst this
      rfl
    · have hne : times.insertionSort (· ≤ ·) ≠ [] := by
        intro h
        rw [h] at hl
        exact h0 hl.symm
      rw [if_neg h0, if_neg hne, hl]
      by_cases he : times.length % 2 = 0
      · have h1 : ¬ times.length % 2 = 1 := by omega
        rw [if_pos he, if_neg h1]
        have hpos : 0 < times.length := Nat.pos_of_ne_zero h0
        have ha : (times.insertionSort (· ≤ ·)).getD (times.length / 2 - 1) 0 ∈ times :=
          (List.perm_insertionSort _ _).mem_iff.1 (getD_mem _ _ (by rw [hl]; omega))
        have hb : (times.insertionSort (· ≤ ·)).getD (times.length / 2) 0 ∈ times :=
          (List.perm_insertionSort _ _).mem_iff.1 (getD_mem _ _ (by rw [hl]; omega))
        obtain ⟨r1, r2⟩ := hsum he _ ha _ hb
        rw [int64_of_range _ r1 r2]
      · have h1 : times.length % 2 = 1 := by omega
        rw [if_neg he, if_pos h1]
  · intro times2 hp
    rw [calculateMedian_eq, calculateMedian_eq, insertionSort_congr times times2 hp,
      hp.length_eq]

/-- C30 at the list `[3, 1, 2, 4]`: the median is 2, the mean of 2 and 3, truncated. -/
theorem calculateMedian_median_witness :
    calculateMedian [3, 1, 2, 4] = medianOfSorted (List.insertionSort (· ≤ ·) [3, 1, 2, 4]) ∧
      calculateMedian [3, 1, 2, 4] = 2 :=
  ⟨(calculateMedian_median [3, 1, 2, 4] (fun _ => by decide)).2.1, by decide⟩

end loadtest

end QuantumDocVerify
